import Mathlib

/-!
# Paladin: the RV32I five-stage core (`core_tasks.h`, `core_gen.cpp`)

A shallow embedding of the five stage tasks, the hazard scoreboard, the
one-core cycle step assembled in `rv32i_5stage` and the program-image loader
`load_hex`, followed by the properties proved about them.

Conventions.
* A `Word` is a natural number, so the fields and arguments of type `Word` have
  type `Nat`; every operation that can leave the 32-bit range is followed by an
  explicit `% 2 ^ 32`.  (`Word` is declared in `ash_types.h`, which is not among
  the sources; the spec describes it as the 32-bit unsigned machine word.)
* `std::optional<T>` is `Option T`; a bubble is `none`.
* The memory objects (`RegFile`, `IMem`, `DMem`) are functions from the index
  to the stored word.  Every index the stages use is either masked to five
  bits or guarded by the `ASSERT` in front of the access.
* A failed `ASSERT` aborts the run: the stage returns `none`.
* `load_hex` works on the content of the opened file, a list of characters
  (one per byte); a thrown exception is `none`.
-/

namespace Paladin

/-! ## Data model -/

/-- The modulus of 32-bit unsigned arithmetic. -/
abbrev W32 : Nat := 2 ^ 32

inductive AluOp where
  | ADD | SUB | AND | OR | XOR | SLL | SRL | SRA | SLT | SLTU | ADDI | LUI | AUIPC | NOP
  deriving DecidableEq, Repr

inductive BranchKind where
  | NONE | BEQ | BNE | BLT | BGE | BLTU | BGEU | JAL | JALR
  deriving DecidableEq, Repr

inductive MemOperation where
  | NONE | READ | WRITE
  deriving DecidableEq, Repr

structure FetchToDecode where
  instr : Nat
  pc : Nat
  deriving DecidableEq, Repr

structure DecodeToExec where
  rd : Option Nat := none
  op : AluOp := AluOp.NOP
  br : BranchKind := BranchKind.NONE
  mem : MemOperation := MemOperation.NONE
  imm : Option Nat := none
  rs1_val : Nat := 0
  rs2_val : Nat := 0
  pc : Nat := 0
  deriving DecidableEq, Repr

structure ExecToMem where
  addr_or_alu : Nat := 0
  store_data : Nat := 0
  wb_data_nonload : Nat := 0
  mem : MemOperation := MemOperation.NONE
  rd : Option Nat := none
  deriving DecidableEq, Repr

structure MemToWb where
  wb_data : Nat := 0
  rd : Option Nat := none
  deriving DecidableEq, Repr

def IMemSize : Nat := 1024

def DMemSize : Nat := 2048

abbrev RegFile := Nat → Nat

abbrev IMem := Nat → Nat

abbrev DMem := Nat → Nat

/-- `sext32(x, bits)`: `m = 1u << (bits - 1)`, result `(x ^ m) - m` in 32-bit
unsigned arithmetic. -/
def sext32 (x : Nat) (bits : Nat) : Nat :=
  let m := (1 <<< (bits - 1)) % W32
  ((x ^^^ m) % W32 + W32 - m) % W32

/-- The value of a word read as `int32_t`. -/
def toInt32 (x : Nat) : Int :=
  if x % W32 < 2 ^ 31 then ((x % W32 : Nat) : Int) else ((x % W32 : Nat) : Int) - (W32 : Int)

/-- The word holding an `int32_t` value. -/
def ofInt32 (i : Int) : Nat := (i % (W32 : Int)).toNat

/-! ## Fetch -/

/-- `fetch_stage`: the result is the new program counter and the
fetch-to-decode payload, or `none` when the bounds `ASSERT` fails. -/
def fetch_stage (pc : Nat) (imem : IMem) (stall_if : Bool) (redirect_pc : Option Nat) :
    Option (Nat × Option FetchToDecode) :=
  match redirect_pc with
  | some t => some (t, none)
  | none =>
    if stall_if then some (pc, none)
    else if pc < IMemSize then
      some ((pc + 4) % W32, some { instr := imem (pc >>> 2), pc := pc })
    else none

/-! ## Hazard scoreboard -/

/-- `DataHazardManager`: one bit per register. -/
structure DataHazardManager where
  scoreboard : Nat
  deriving DecidableEq, Repr

/-- `is_locked(r)`: `(scoreboard >> r) & 0x1`. -/
def DataHazardManager.is_locked (h : DataHazardManager) (r : Nat) : Bool :=
  (h.scoreboard >>> r) &&& 1 != 0

/-- `lock_reg(r)`: `scoreboard |= (0x1 << r)`. -/
def DataHazardManager.lock_reg (h : DataHazardManager) (r : Nat) : DataHazardManager :=
  { scoreboard := (h.scoreboard ||| (1 <<< r)) % W32 }

/-- `release_reg(r)`: `scoreboard ^= (0x1 << r)`. -/
def DataHazardManager.release_reg (h : DataHazardManager) (r : Nat) : DataHazardManager :=
  { scoreboard := (h.scoreboard ^^^ (1 <<< r)) % W32 }

/-! ## Decode -/

def imm_i (instr : Nat) : Nat := sext32 (instr >>> 20) 12

def imm_s (instr : Nat) : Nat :=
  sext32 (((instr >>> 7) &&& 0x1f) ||| (((instr >>> 25) &&& 0x7f) <<< 5)) 12

def imm_b (instr : Nat) : Nat :=
  sext32 ((((instr >>> 8) &&& 0x0f) <<< 1) ||| (((instr >>> 25) &&& 0x3f) <<< 5) |||
    (((instr >>> 7) &&& 0x01) <<< 11) ||| (((instr >>> 31) &&& 0x01) <<< 12)) 13

def imm_u (instr : Nat) : Nat := instr &&& 0xfffff000

def imm_j (instr : Nat) : Nat :=
  sext32 ((((instr >>> 21) &&& 0x3ff) <<< 1) ||| (((instr >>> 20) &&& 0x001) <<< 11) |||
    (((instr >>> 12) &&& 0x0ff) <<< 12) ||| (((instr >>> 31) &&& 0x001) <<< 20)) 21

/-- The `if (rd != 0) decode_to_exec->rd = rd;` step. -/
def set_rd (d : DecodeToExec) (rd : Nat) : DecodeToExec :=
  if rd ≠ 0 then { d with rd := some rd } else d

/-- The `switch (opcode)` of `decode_stage`, applied to the payload `d` that
already carries `pc`, `rs1_val` and `rs2_val`. -/
def decode_switch (instr : Nat) (d : DecodeToExec) : DecodeToExec :=
  let opcode := instr &&& 0x7f
  let rd := (instr >>> 7) &&& 0x1f
  let funct3 := (instr >>> 12) &&& 0x7
  let funct7 := (instr >>> 25) &&& 0x7f
  if opcode = 0x33 then
    let d := set_rd d rd
    let k := (funct7 <<< 3) ||| funct3
    if k = ((0x00 <<< 3) ||| 0x0) then { d with op := AluOp.ADD }
    else if k = ((0x20 <<< 3) ||| 0x0) then { d with op := AluOp.SUB }
    else if k = ((0x00 <<< 3) ||| 0x7) then { d with op := AluOp.AND }
    else if k = ((0x00 <<< 3) ||| 0x6) then { d with op := AluOp.OR }
    else if k = ((0x00 <<< 3) ||| 0x4) then { d with op := AluOp.XOR }
    else if k = ((0x00 <<< 3) ||| 0x1) then { d with op := AluOp.SLL }
    else if k = ((0x00 <<< 3) ||| 0x5) then { d with op := AluOp.SRL }
    else if k = ((0x20 <<< 3) ||| 0x5) then { d with op := AluOp.SRA }
    else if k = ((0x00 <<< 3) ||| 0x2) then { d with op := AluOp.SLT }
    else if k = ((0x00 <<< 3) ||| 0x3) then { d with op := AluOp.SLTU }
    else { d with op := AluOp.NOP, rd := none }
  else if opcode = 0x13 then
    let d := set_rd d rd
    let d := { d with imm := some (imm_i instr) }
    if funct3 = 0x0 then { d with op := AluOp.ADDI }
    else if funct3 = 0x2 then { d with op := AluOp.SLT }
    else if funct3 = 0x3 then { d with op := AluOp.SLTU }
    else if funct3 = 0x4 then { d with op := AluOp.XOR }
    else if funct3 = 0x6 then { d with op := AluOp.OR }
    else if funct3 = 0x7 then { d with op := AluOp.AND }
    else if funct3 = 0x1 then
      if funct7 &&& 0x7f = 0x00 then { d with op := AluOp.SLL }
      else { d with op := AluOp.NOP, rd := none, imm := none }
    else if funct3 = 0x5 then
      if funct7 &&& 0x20 = 0x20 then { d with op := AluOp.SRA } else { d with op := AluOp.SRL }
    else { d with op := AluOp.NOP, rd := none, imm := none }
  else if opcode = 0x03 then
    let d := set_rd d rd
    { d with imm := some (imm_i instr), mem := MemOperation.READ, op := AluOp.ADD }
  else if opcode = 0x23 then
    { d with imm := some (imm_s instr), mem := MemOperation.WRITE, op := AluOp.ADD }
  else if opcode = 0x63 then
    let d := { d with imm := some (imm_b instr) }
    if funct3 = 0x0 then { d with br := BranchKind.BEQ }
    else if funct3 = 0x1 then { d with br := BranchKind.BNE }
    else if funct3 = 0x4 then { d with br := BranchKind.BLT }
    else if funct3 = 0x5 then { d with br := BranchKind.BGE }
    else if funct3 = 0x6 then { d with br := BranchKind.BLTU }
    else if funct3 = 0x7 then { d with br := BranchKind.BGEU }
    else { d with br := BranchKind.NONE }
  else if opcode = 0x37 then
    let d := set_rd d rd
    { d with op := AluOp.LUI, imm := some (imm_u instr) }
  else if opcode = 0x17 then
    let d := set_rd d rd
    { d with op := AluOp.AUIPC, imm := some (imm_u instr) }
  else if opcode = 0x6f then
    let d := set_rd d rd
    { d with br := BranchKind.JAL, imm := some (imm_j instr) }
  else if opcode = 0x67 then
    let d := set_rd d rd
    { d with br := BranchKind.JALR, imm := some (imm_i instr) }
  else d

/-- The outputs of `decode_stage`: the two read-modify arguments after the
call and the two write-only arguments. -/
structure DecodeOut where
  saved_fetch_to_decode : Option FetchToDecode
  hazardManager : DataHazardManager
  decode_to_exec : Option DecodeToExec
  stall_request : Bool
  deriving DecidableEq, Repr

/-- The release step in front of `decode_stage`:
`if (wb_finished.has_value()) hazardManager.release_reg(*wb_finished);`. -/
def release_step (hazardManager : DataHazardManager) (wb_finished : Option Nat) :
    DataHazardManager :=
  match wb_finished with
  | some r => hazardManager.release_reg r
  | none => hazardManager

/-- The instruction `decode_stage` works on: the saved payload if one is held,
else the incoming one. -/
def select_instr (fetch_to_decode_in saved_fetch_to_decode : Option FetchToDecode) :
    Option FetchToDecode :=
  match saved_fetch_to_decode with
  | some f => some f
  | none => fetch_to_decode_in

/-- `decode_stage`. -/
def decode_stage (fetch_to_decode_in : Option FetchToDecode)
    (saved_fetch_to_decode : Option FetchToDecode) (hazardManager : DataHazardManager)
    (wb_finished : Option Nat) (regfile : RegFile) : DecodeOut :=
  let hm := release_step hazardManager wb_finished
  match select_instr fetch_to_decode_in saved_fetch_to_decode with
  | none =>
    { saved_fetch_to_decode := none, hazardManager := hm, decode_to_exec := none,
      stall_request := false }
  | some f =>
    let instr := f.instr
    let rs1 := (instr >>> 15) &&& 0x1f
    let rs2 := (instr >>> 20) &&& 0x1f
    if hm.is_locked rs1 || hm.is_locked rs2 then
      { saved_fetch_to_decode := some f, hazardManager := hm, decode_to_exec := none,
        stall_request := true }
    else
      let d := decode_switch instr { pc := f.pc, rs1_val := regfile rs1, rs2_val := regfile rs2 }
      { saved_fetch_to_decode := none,
        hazardManager := (match d.rd with
          | some r => hm.lock_reg r
          | none => hm),
        decode_to_exec := some d,
        stall_request := (d.br != BranchKind.NONE) }

/-! ## Execute -/

/-- The ALU `switch (decode_to_exec->op)` of `execute_stage`. -/
def alu (d : DecodeToExec) : Nat :=
  let rs1_val := d.rs1_val
  let rs2_val := d.rs2_val
  let op2 := match d.imm with
    | some i => i
    | none => rs2_val
  let shamt5 := match d.imm with
    | some i => i &&& 31
    | none => rs2_val &&& 31
  match d.op with
  | AluOp.ADD => (rs1_val + op2) % W32
  | AluOp.ADDI => (rs1_val + op2) % W32
  | AluOp.SUB => (rs1_val + W32 - rs2_val % W32) % W32
  | AluOp.AND => rs1_val &&& op2
  | AluOp.OR => rs1_val ||| op2
  | AluOp.XOR => rs1_val ^^^ op2
  | AluOp.SLL => (rs1_val <<< shamt5) % W32
  | AluOp.SRL => rs1_val >>> shamt5
  | AluOp.SRA => ofInt32 (toInt32 rs1_val >>> shamt5)
  | AluOp.SLT => if toInt32 rs1_val < toInt32 op2 then 1 else 0
  | AluOp.SLTU => if rs1_val < op2 then 1 else 0
  | AluOp.LUI => d.imm.getD 0
  | AluOp.AUIPC => (d.pc + d.imm.getD 0) % W32
  | AluOp.NOP => 0

/-- The `branch_target` lambda: `pc + imm.value_or(0)`. -/
def branch_target (d : DecodeToExec) : Nat := (d.pc + d.imm.getD 0) % W32

/-- The `switch (decode_to_exec->br)` of `execute_stage`: the redirect wire
and `link_val`. -/
def resolve (d : DecodeToExec) : Option Nat × Nat :=
  match d.br with
  | BranchKind.BEQ => (if d.rs1_val = d.rs2_val then some (branch_target d) else none, 0)
  | BranchKind.BNE => (if d.rs1_val ≠ d.rs2_val then some (branch_target d) else none, 0)
  | BranchKind.BLT =>
    (if toInt32 d.rs1_val < toInt32 d.rs2_val then some (branch_target d) else none, 0)
  | BranchKind.BGE =>
    (if toInt32 d.rs1_val ≥ toInt32 d.rs2_val then some (branch_target d) else none, 0)
  | BranchKind.BLTU => (if d.rs1_val < d.rs2_val then some (branch_target d) else none, 0)
  | BranchKind.BGEU => (if d.rs1_val ≥ d.rs2_val then some (branch_target d) else none, 0)
  | BranchKind.JAL => (some (branch_target d), (d.pc + 4) % W32)
  | BranchKind.JALR =>
    (some (((d.rs1_val + d.imm.getD 0) % W32) &&& 0xfffffffe), (d.pc + 4) % W32)
  | BranchKind.NONE => (none, 0)

/-- `execute_stage`: the execute-to-memory payload and the redirect wire. -/
def execute_stage (decode_to_exec : Option DecodeToExec) : Option ExecToMem × Option Nat :=
  match decode_to_exec with
  | none => (none, none)
  | some d =>
    let r := resolve d
    (some { mem := d.mem, rd := d.rd,
            wb_data_nonload :=
              if d.br = BranchKind.JAL ∨ d.br = BranchKind.JALR then r.2 else alu d,
            addr_or_alu := alu d,
            store_data := d.rs2_val },
     r.1)

/-! ## Memory -/

/-- `mem_stage`: data memory after the call and the memory-to-writeback
payload, or `none` when a bounds `ASSERT` fails. -/
def mem_stage (exec_to_mem : Option ExecToMem) (dmem : DMem) : Option (DMem × Option MemToWb) :=
  match exec_to_mem with
  | none => some (dmem, none)
  | some e =>
    let addr := e.addr_or_alu >>> 2
    if e.mem = MemOperation.READ then
      if addr < DMemSize then some (dmem, some { rd := e.rd, wb_data := dmem addr }) else none
    else if e.mem = MemOperation.WRITE then
      if addr < DMemSize then
        some (Function.update dmem addr e.store_data,
              some { rd := e.rd, wb_data := e.wb_data_nonload })
      else none
    else some (dmem, some { rd := e.rd, wb_data := e.wb_data_nonload })

/-! ## Write-back -/

/-- `wb_stage`: the register file after the call and the completion signal. -/
def wb_stage (mem_to_wb : Option MemToWb) (regfile : RegFile) : RegFile × Option Nat :=
  match mem_to_wb with
  | none => (regfile, none)
  | some m =>
    match m.rd with
    | none => (regfile, none)
    | some r =>
      if r ≠ 0 then (Function.update regfile r m.wb_data, some r) else (regfile, none)

/-! ## Core assembly -/

/-- The signals and memory objects one core owns (`rv32i_5stage`). -/
structure Core where
  pc : Nat
  imem : IMem
  dmem : DMem
  regfile : RegFile
  if_id_reg : Option FetchToDecode
  saved_if_id : Option FetchToDecode
  hazardManager : DataHazardManager
  id_ex_reg : Option DecodeToExec
  ex_mem_reg : Option ExecToMem
  mem_wb_reg : Option MemToWb
  wb_finished : Option Nat

/-- The state `rv32i_5stage` builds: program counter 0 and every inter-stage
register, the saved slot and `wb_finished` empty.  The memory objects and the
scoreboard are arguments: the source leaves the scoreboard, most of the
register file and the upper half of data memory without an initial value. -/
def rv32i_5stage (imem : IMem) (dmem : DMem) (regfile : RegFile)
    (hazardManager : DataHazardManager) : Core :=
  { pc := 0, imem := imem, dmem := dmem, regfile := regfile,
    if_id_reg := none, saved_if_id := none, hazardManager := hazardManager,
    id_ex_reg := none, ex_mem_reg := none, mem_wb_reg := none, wb_finished := none }

/-- The decode outputs of the cycle that starts in state `s`. -/
def decode_of (s : Core) : DecodeOut :=
  decode_stage s.if_id_reg s.saved_if_id s.hazardManager s.wb_finished s.regfile

/-- Modelled from the spec: the dataflow kernel (`taskflow.h`: `Reg`, `Wire`,
`task`) is not among the sources.  One cycle evaluates the five tasks bound in
`rv32i_5stage`; every `Reg` is read as committed at the previous cycle
boundary, the wires `stall_if` and `redirect_pc` carry the values `decode_stage`
and `execute_stage` produce in this cycle, and all register writes commit
together.  The result is `none` when a stage aborts the run. -/
def cycle (s : Core) : Option Core :=
  let d := decode_of s
  let e := execute_stage s.id_ex_reg
  match fetch_stage s.pc s.imem d.stall_request e.2 with
  | none => none
  | some (pc', f) =>
    match mem_stage s.ex_mem_reg s.dmem with
    | none => none
    | some (dmem', m) =>
      let w := wb_stage s.mem_wb_reg s.regfile
      some { pc := pc', imem := s.imem, dmem := dmem', regfile := w.1,
             if_id_reg := f, saved_if_id := d.saved_fetch_to_decode,
             hazardManager := d.hazardManager, id_ex_reg := d.decode_to_exec,
             ex_mem_reg := e.1, mem_wb_reg := m, wb_finished := w.2 }

/-- The state after `n` cycles, `none` once the run has aborted. -/
def run : Nat → Core → Option Core
  | 0, s => some s
  | n + 1, s => (run n s).bind cycle

/-! ## Spec-side definitions and programs used in the theorems -/

/-- Spec-side reading of "in flight" (scoreboard invariant): register `r` is the
destination of a payload held in the decode-to-execute, execute-to-memory or
memory-to-writeback register, or of the pending write-back completion. -/
def in_flight (s : Core) (r : Nat) : Bool :=
  (s.id_ex_reg.bind (fun d => d.rd) == some r) ||
  (s.ex_mem_reg.bind (fun e => e.rd) == some r) ||
  (s.mem_wb_reg.bind (fun m => m.rd) == some r) ||
  (s.wb_finished == some r)

/-- Two writes of `x1` in a row: `ADDI x1,x0,5; ADDI x1,x0,7`, zero words after. -/
def waw_imem : IMem := fun i => if i = 0 then 0x00500093 else if i = 1 then 0x00700093 else 0

/-- The reset state running `waw_imem`, all memories zero. -/
def waw_core : Core := rv32i_5stage waw_imem (fun _ => 0) (fun _ => 0) { scoreboard := 0 }

/-- Three writes of `x1` and a reader:
`ADDI x1,x0,5; ADDI x1,x0,7; ADDI x1,x0,9; ADD x3,x1,x1`, zero words after. -/
def hazard_imem : IMem := fun i =>
  if i = 0 then 0x00500093 else if i = 1 then 0x00700093 else if i = 2 then 0x00900093
  else if i = 3 then 0x001081B3 else 0

/-- The reset state running `hazard_imem`, all memories zero. -/
def hazard_core : Core := rv32i_5stage hazard_imem (fun _ => 0) (fun _ => 0) { scoreboard := 0 }

/-- Scenario 1: `ADDI x1,x0,5; ADDI x2,x0,7; ADD x3,x1,x2`, zero words after. -/
def scenario1_imem : IMem := fun i =>
  if i = 0 then 0x00500093 else if i = 1 then 0x00700113 else if i = 2 then 0x002081B3 else 0

/-- Scenario 3: `SW x1,0(x2); LW x3,0(x2)`, zero words after. -/
def scenario3_imem : IMem := fun i => if i = 0 then 0x00112023 else if i = 1 then 0x00012183 else 0

/-- Scenario 2: `BEQ x0,x0,+8` at word 0, zero words after. -/
def scenario2_imem : IMem := fun i => if i = 0 then 0x00000463 else 0

/-- Scenario 2 with a jump back: `BEQ x0,x0,+8; ADDI x0,x0,0; JAL x0,-4`. -/
def scenario2_back_imem : IMem := fun i =>
  if i = 0 then 0x00000463 else if i = 1 then 0x00000013 else if i = 2 then 0xFFDFF06F else 0

/-- The pipeline holds nothing but zero words and payloads without destination,
branch or memory operation, and the scoreboard is empty. -/
def Idle (s : Core) : Prop :=
  (∀ f, s.if_id_reg = some f → f.instr = 0) ∧ s.saved_if_id = none ∧
  s.hazardManager = { scoreboard := 0 } ∧ s.wb_finished = none ∧
  (∀ d, s.id_ex_reg = some d →
    d.rd = none ∧ d.br = BranchKind.NONE ∧ d.mem = MemOperation.NONE) ∧
  (∀ e, s.ex_mem_reg = some e → e.rd = none ∧ e.mem = MemOperation.NONE) ∧
  (∀ m, s.mem_wb_reg = some m → m.rd = none)

/-- The instruction words for which `decode_switch` leaves a destination in the
payload (read off the switch; `decode_switch_rd` proves it): a non-zero `rd`
field and opcode 0x33 with `funct7 = 0x00` or with `funct7 = 0x20` and `funct3`
0 or 5, opcode 0x13 unless `funct3 = 1` with `funct7 ≠ 0x00`, or one of the
opcodes 0x03, 0x37, 0x17, 0x6f, 0x67. -/
def decoder_writes_rd (instr : Nat) : Bool :=
  let opcode := instr &&& 0x7f
  let rd := (instr >>> 7) &&& 0x1f
  let funct3 := (instr >>> 12) &&& 0x7
  let funct7 := (instr >>> 25) &&& 0x7f
  decide (rd ≠ 0 ∧
    ((opcode = 0x33 ∧ (funct7 = 0x00 ∨ (funct7 = 0x20 ∧ (funct3 = 0 ∨ funct3 = 5)))) ∨
     (opcode = 0x13 ∧ (funct3 = 1 → funct7 = 0x00)) ∨
     opcode = 0x03 ∨ opcode = 0x37 ∨ opcode = 0x17 ∨ opcode = 0x6f ∨ opcode = 0x67))

/-- Spec-side reading of "the instruction writes a destination": a recognised
R-type or I-type ALU operation, a load, LUI, AUIPC, JAL or JALR, with a
non-zero `rd` field.  Recognised means a standard RV32I encoding.  R-type
(opcode 0x33): `funct7 = 0x00` with any `funct3`, or `funct7 = 0x20` with
`funct3` 0 or 5.  I-type ALU (opcode 0x13): `funct3` 0, 2, 3, 4, 6, 7 with any
upper bits, `funct3 = 1` with `funct7 = 0x00`, `funct3 = 5` with `funct7` 0x00
or 0x20. -/
def writes_destination (instr : Nat) : Bool :=
  let opcode := instr &&& 0x7f
  let rd := (instr >>> 7) &&& 0x1f
  let funct3 := (instr >>> 12) &&& 0x7
  let funct7 := (instr >>> 25) &&& 0x7f
  decide (rd ≠ 0 ∧
    ((opcode = 0x33 ∧ (funct7 = 0x00 ∨ (funct7 = 0x20 ∧ (funct3 = 0 ∨ funct3 = 5)))) ∨
     (opcode = 0x13 ∧ (funct3 = 1 → funct7 = 0x00) ∧
       (funct3 = 5 → funct7 = 0x00 ∨ funct7 = 0x20)) ∨
     opcode = 0x03 ∨ opcode = 0x37 ∨ opcode = 0x17 ∨ opcode = 0x6f ∨ opcode = 0x67))

/-! ## Spec-side definitions for the stage contracts -/

/-- Spec-side reading of "decodes to a branch or jump kind": opcode 0x63 with
`funct3` in {0, 1, 4, 5, 6, 7}, opcode 0x6f, or opcode 0x67. -/
def is_branch_or_jump (instr : Nat) : Bool :=
  let opcode := instr &&& 0x7f
  let funct3 := (instr >>> 12) &&& 0x7
  decide ((opcode = 0x63 ∧ (funct3 = 0 ∨ funct3 = 1 ∨ funct3 = 4 ∨ funct3 = 5 ∨ funct3 = 6 ∨
      funct3 = 7)) ∨ opcode = 0x6f ∨ opcode = 0x67)

/-- Spec-side: the two's-complement value of a 32-bit word. -/
def signed32 (x : Nat) : Int := if x < 2 ^ 31 then (x : Int) else (x : Int) - 2 ^ 32

/-- Spec-side: the ALU reference semantics on 32-bit words.  Operand 2 is the
immediate if present and otherwise `rs2`, the shift amount its low five bits;
an absent immediate of LUI or AUIPC reads as 0. -/
def alu_reference (op : AluOp) (rs1 rs2 pc : Nat) (imm : Option Nat) : Nat :=
  let op2 := match imm with
    | some i => i
    | none => rs2
  let sh := op2 % 32
  let immediate := match imm with
    | some i => i
    | none => 0
  match op with
  | AluOp.ADD => (rs1 + op2) % 2 ^ 32
  | AluOp.ADDI => (rs1 + op2) % 2 ^ 32
  | AluOp.SUB => (((rs1 : Int) - (rs2 : Int)) % 2 ^ 32).toNat
  | AluOp.AND => rs1 &&& op2
  | AluOp.OR => rs1 ||| op2
  | AluOp.XOR => rs1 ^^^ op2
  | AluOp.SLL => (rs1 * 2 ^ sh) % 2 ^ 32
  | AluOp.SRL => rs1 / 2 ^ sh
  | AluOp.SRA => if rs1 < 2 ^ 31 then rs1 / 2 ^ sh else rs1 / 2 ^ sh + (2 ^ 32 - 2 ^ (32 - sh))
  | AluOp.SLT => if signed32 rs1 < signed32 op2 then 1 else 0
  | AluOp.SLTU => if rs1 < op2 then 1 else 0
  | AluOp.LUI => immediate
  | AluOp.AUIPC => (pc + immediate) % 2 ^ 32
  | AluOp.NOP => 0

/-- Spec-side: the comparison a conditional branch kind makes on the two
source values: equal, not equal, signed less-than, signed greater-or-equal,
unsigned less-than, unsigned greater-or-equal. -/
def branch_condition (br : BranchKind) (rs1 rs2 : Nat) : Bool :=
  match br with
  | BranchKind.BEQ => decide (rs1 = rs2)
  | BranchKind.BNE => decide (rs1 ≠ rs2)
  | BranchKind.BLT => decide (signed32 rs1 < signed32 rs2)
  | BranchKind.BGE => decide (signed32 rs1 ≥ signed32 rs2)
  | BranchKind.BLTU => decide (rs1 < rs2)
  | BranchKind.BGEU => decide (rs1 ≥ rs2)
  | _ => false

/-- Spec-side: two's-complement sign extension of the `n`-bit value `x` to a
32-bit word. -/
def sign_extend (n x : Nat) : Nat := if x < 2 ^ (n - 1) then x else x + 2 ^ 32 - 2 ^ n

/-- Spec-side: bits `hi:lo` of an instruction word. -/
def bits (instr hi lo : Nat) : Nat := (instr / 2 ^ lo) % 2 ^ (hi + 1 - lo)

/-- Spec-side: I-type immediate, bits 31:20 sign-extended from 12 bits. -/
def rv32i_imm_i (instr : Nat) : Nat := sign_extend 12 (bits instr 31 20)

/-- Spec-side: S-type immediate, bits 31:25 and 11:7 sign-extended from 12 bits. -/
def rv32i_imm_s (instr : Nat) : Nat :=
  sign_extend 12 (bits instr 31 25 * 2 ^ 5 + bits instr 11 7)

/-- Spec-side: B-type immediate, the 13-bit offset
`{bit 31, bit 7, bits 30:25, bits 11:8, 0}` sign-extended. -/
def rv32i_imm_b (instr : Nat) : Nat :=
  sign_extend 13 (bits instr 31 31 * 2 ^ 12 + bits instr 7 7 * 2 ^ 11 +
    bits instr 30 25 * 2 ^ 5 + bits instr 11 8 * 2 ^ 1)

/-- Spec-side: U-type immediate, bits 31:12 in the upper 20 bits, low 12 bits
zero. -/
def rv32i_imm_u (instr : Nat) : Nat := bits instr 31 12 * 2 ^ 12

/-- Spec-side: J-type immediate, the 21-bit offset
`{bit 31, bits 19:12, bit 20, bits 30:21, 0}` sign-extended. -/
def rv32i_imm_j (instr : Nat) : Nat :=
  sign_extend 21 (bits instr 31 31 * 2 ^ 20 + bits instr 19 12 * 2 ^ 12 +
    bits instr 20 20 * 2 ^ 11 + bits instr 30 21 * 2 ^ 1)

/-- Spec-side: the standard RV32I B-type encoder.  Offset bits 12 and 10:5 go
to instruction bits 31 and 30:25, offset bits 4:1 and 11 to instruction bits
11:8 and 7; opcode 0x63. -/
def encode_b (offset : Int) (rs1 rs2 funct3 : Nat) : Nat :=
  let o := (offset % 2 ^ 13).toNat
  bits o 12 12 * 2 ^ 31 + bits o 10 5 * 2 ^ 25 + rs2 * 2 ^ 20 + rs1 * 2 ^ 15 +
    funct3 * 2 ^ 12 + bits o 4 1 * 2 ^ 8 + bits o 11 11 * 2 ^ 7 + 0x63

/-- Spec-side: the standard RV32I J-type encoder.  Offset bits 20, 10:1, 11 and
19:12 go to instruction bits 31, 30:21, 20 and 19:12; opcode 0x6f. -/
def encode_j (offset : Int) (rd : Nat) : Nat :=
  let o := (offset % 2 ^ 21).toNat
  bits o 20 20 * 2 ^ 31 + bits o 10 1 * 2 ^ 21 + bits o 11 11 * 2 ^ 20 +
    bits o 19 12 * 2 ^ 12 + rd * 2 ^ 7 + 0x6f

/-! ## Reset values and run invariants -/

/-- `ARR_LEN` of `rv32i_5stage`. -/
def ARR_LEN : Nat := 1024

/-- The data memory `rv32i_5stage` builds: `dmem[i] = ARR_LEN - i` for
`i < ARR_LEN`; the words above keep what the uninitialised array `d0` held. -/
def initial_dmem (d0 : DMem) : DMem := fun i => if i < ARR_LEN then ARR_LEN - i else d0 i

/-- The register file `rv32i_5stage` builds: `regfile[2] = DMemSize - 4`; the
other registers keep what the uninitialised array `r0` held. -/
def initial_regfile (r0 : RegFile) : RegFile := Function.update r0 2 (DMemSize - 4)

/-- The reset state with the memory objects as `rv32i_5stage` initialises them. -/
def reset_core (imem : IMem) (d0 : DMem) (r0 : RegFile) (hazardManager : DataHazardManager) :
    Core :=
  rv32i_5stage imem (initial_dmem d0) (initial_regfile r0) hazardManager

/-- The two facts about the fetch-side registers that hold after every cycle
and in the reset state. -/
def FetchSideInv (s : Core) : Prop :=
  (s.saved_if_id ≠ none → s.if_id_reg = none) ∧
  (∀ d, s.id_ex_reg = some d → d.br ≠ BranchKind.NONE →
    s.if_id_reg = none ∧ s.saved_if_id = none)

/-- Spec-side: a destination index is absent or in 1..31. -/
def rd_in_range (rd : Option Nat) : Prop := ∀ r, rd = some r → 1 ≤ r ∧ r < 32

/-- Every destination index held in the pipeline registers and the pending
completion are in 1..31. -/
def IndicesInRange (s : Core) : Prop :=
  (∀ d, s.id_ex_reg = some d → rd_in_range d.rd) ∧
  (∀ e, s.ex_mem_reg = some e → rd_in_range e.rd) ∧
  (∀ m, s.mem_wb_reg = some m → rd_in_range m.rd) ∧
  rd_in_range s.wb_finished

/-! ## Program-image loader (`core_gen.cpp`) -/

/-- The `hex` lambda of `detail::hexByte`: the value of a hexadecimal digit,
`none` for the source's `-1`. -/
def hex (c : Char) : Option Nat :=
  if '0' ≤ c ∧ c ≤ '9' then some (c.toNat - '0'.toNat)
  else if 'a' ≤ c ∧ c ≤ 'f' then some (10 + (c.toNat - 'a'.toNat))
  else if 'A' ≤ c ∧ c ≤ 'F' then some (10 + (c.toNat - 'A'.toNat))
  else none

/-- `detail::hexByte(p)`: the byte written by the two characters at `p`, `none`
when the source throws.  Past the end of the line the source reads the
terminating NUL of `c_str()`, which is no hexadecimal digit, so a line that
is too short makes it throw as well. -/
def hexByte (p : List Char) : Option Nat :=
  match p with
  | c0 :: c1 :: _ =>
    match hex c0, hex c1 with
    | some hi, some lo => some (((hi <<< 4) ||| lo) % 256)
    | _, _ => none
  | _ => none

/-- The fields of one record line. -/
structure HexRecord where
  byteCount : Nat
  addrHiLo : Nat
  recType : Nat
  data : List Nat
  checksum : Nat
  deriving DecidableEq, Repr

/-- The loop `for (int i = 0; i < byteCount; ++i) { data.push_back(hexByte(p)); p += 2; }`:
the bytes read and the rest of the line. -/
def read_data : Nat → List Char → Option (List Nat × List Char)
  | 0, p => some ([], p)
  | k + 1, p =>
    match hexByte p with
    | none => none
    | some b =>
      match read_data k (p.drop 2) with
      | none => none
      | some (bs, q) => some (b :: bs, q)

/-- The field reads of the loop body of `load_hex` on a stripped, non-empty
line: the `':'` test, the `need` checks and the `hexByte` calls up to the
checksum byte.  `none` when the source throws. -/
def read_record (line : List Char) : Option HexRecord :=
  match line with
  | [] => none
  | c :: p =>
    if c ≠ ':' then none
    else
      let n := line.length
      if 1 + 2 > n then none
      else
        match hexByte p with
        | none => none
        | some byteCount =>
          let p := p.drop 2
          if 1 + 4 > n then none
          else
            match hexByte p, hexByte (p.drop 2) with
            | some hi, some lo =>
              let addrHiLo := ((hi <<< 8) ||| lo) % 65536
              let p := p.drop 4
              if 1 + 2 > n then none
              else
                match hexByte p with
                | none => none
                | some recType =>
                  let p := p.drop 2
                  if 1 + (byteCount * 2 + 2) > n then none
                  else
                    match read_data byteCount p with
                    | none => none
                    | some (data, p) =>
                      match hexByte p with
                      | none => none
                      | some checksum =>
                        some { byteCount := byteCount, addrHiLo := addrHiLo,
                               recType := recType, data := data, checksum := checksum }
            | _, _ => none

/-- The checksum test value: `sum = byteCount + (addrHiLo >> 8) + (addrHiLo & 0xFF)
+ recType`, plus every data byte, then `(sum + checksum) & 0xFF`. -/
def checksum_sum (r : HexRecord) : Nat :=
  ((r.byteCount + (r.addrHiLo >>> 8) + (r.addrHiLo &&& 0xFF) + r.recType + r.data.sum +
    r.checksum) % W32) &&& 0xFF

/-- The loader state: the word array, the upper-address base and `saw_eof`. -/
structure HexState where
  mem : Nat → Nat
  base : Nat
  saw_eof : Bool

/-- The byte loop of a data record, from index `i` on: `none` when a word index
is out of range. -/
def store_bytes (Size : Nat) (addr : Nat) : Nat → List Nat → (Nat → Nat) → Option (Nat → Nat)
  | _, [], mem => some mem
  | i, b :: bs, mem =>
    let a := (addr + i) % W32
    let wordIndex := a >>> 2
    let byteLane := a &&& 0x3
    if wordIndex ≥ Size then none
    else
      let v := mem wordIndex
      let v := v &&& (0xFFFFFFFF ^^^ ((0xFF <<< (byteLane * 8)) % W32))
      let v := v ||| ((b <<< (byteLane * 8)) % W32)
      store_bytes Size addr (i + 1) bs (Function.update mem wordIndex v)

/-- The `switch (recType)` of `load_hex`. -/
def apply_record (Size : Nat) (r : HexRecord) (s : HexState) : Option HexState :=
  if r.recType = 0x00 then
    match store_bytes Size ((s.base + r.addrHiLo) % W32) 0 r.data s.mem with
    | none => none
    | some mem => some { s with mem := mem }
  else if r.recType = 0x01 then some { s with saw_eof := true }
  else if r.recType = 0x02 then
    if r.byteCount ≠ 2 then none
    else
      let seg := ((r.data.getD 0 0 <<< 8) ||| r.data.getD 1 0) % 65536
      some { s with base := (seg <<< 4) % W32 }
  else if r.recType = 0x04 then
    if r.byteCount ≠ 2 then none
    else
      let upper := ((r.data.getD 0 0 <<< 8) ||| r.data.getD 1 0) % 65536
      some { s with base := (upper <<< 16) % W32 }
  else if r.recType = 0x03 ∨ r.recType = 0x05 then some s
  else none

/-- The whitespace removal at the head of the loop body. -/
def strip_line (line : List Char) : List Char :=
  line.filter (fun c => !(c = '\r' || c = '\n' || c = ' ' || c = '\t'))

/-- The loop body of `load_hex` on a stripped, non-empty line. -/
def load_line (Size : Nat) (line : List Char) (s : HexState) : Option HexState :=
  match read_record line with
  | none => none
  | some r => if checksum_sum r ≠ 0 then none else apply_record Size r s

/-- The `for` loop of `load_hex` over the lines `std::getline` yields; it stops
after the line that sets `saw_eof`. -/
def load_loop (Size : Nat) : List (List Char) → HexState → Option HexState
  | [], s => some s
  | line :: rest, s =>
    if strip_line line = [] then load_loop Size rest s
    else
      match load_line Size (strip_line line) s with
      | none => none
      | some s' => if s'.saw_eof then some s' else load_loop Size rest s'

/-- The lines `std::getline` yields for a text: the pieces between newline
characters; a last piece without newline counts when it is not empty. -/
def getlines_from (cur : List Char) : List Char → List (List Char)
  | [] => if cur = [] then [] else [cur.reverse]
  | c :: cs => if c = '\n' then cur.reverse :: getlines_from [] cs else getlines_from (c :: cur) cs

/-- The lines of a text, as the `std::getline` loop of `load_hex` sees them. -/
def getlines (text : List Char) : List (List Char) := getlines_from [] text

/-- `load_hex<Size>` on the content of an opened file: the word array, `none`
when the source throws. -/
def load_hex (Size : Nat) (text : List Char) : Option (Nat → Nat) :=
  match load_loop Size (getlines text) { mem := fun _ => 0, base := 0, saw_eof := false } with
  | none => none
  | some s => if s.saw_eof then some s.mem else none

/-! ## Spec-side definitions for the program image -/

/-- Spec-side: byte lane `k` of a word, lane 0 the least significant byte. -/
def byte_lane (w k : Nat) : Nat := (w / 2 ^ (8 * k)) % 256

/-- Spec-side: the sum of all bytes of a record line, checksum included. -/
def record_byte_sum (r : HexRecord) : Nat :=
  r.byteCount + r.addrHiLo / 256 + r.addrHiLo % 256 + r.recType + r.data.sum + r.checksum

/-- Spec-side: the records of a text, the fields of its non-blank lines in
order. -/
def records (lines : List (List Char)) : List HexRecord :=
  lines.filterMap (fun l => read_record (strip_line l))

/-- Spec-side: the upper-address base in force after record `r`: a type 02
record sets it to its 16-bit value times 16, a type 04 record to its 16-bit
value times 65536. -/
def next_base (base : Nat) (r : HexRecord) : Nat :=
  if r.recType = 2 then (r.data.getD 0 0 * 256 + r.data.getD 1 0) * 16
  else if r.recType = 4 then (r.data.getD 0 0 * 256 + r.data.getD 1 0) * 65536
  else base

/-- Spec-side: the upper-address base in force after the records `rs`. -/
def active_base : List HexRecord → Nat → Nat
  | [], base => base
  | r :: rs, base => active_base rs (next_base base r)

/-- Spec-side: the byte a data record places at address `a`.  The record puts
its bytes at the consecutive addresses from `start` (upper-address base plus
record offset) on; addresses are the 32-bit addresses of the record format,
taken modulo `2 ^ 32`. -/
def placed_in : Nat → List Nat → Nat → Option Nat
  | _, [], _ => none
  | start, b :: bs, a => if start % 2 ^ 32 = a then some b else placed_in (start + 1) bs a

/-- Spec-side: the data byte that the last data record before the end-of-file
record places at absolute address `a`, `none` when no data record covers `a`. -/
def placed_byte : List HexRecord → Nat → Nat → Option Nat
  | [], _, _ => none
  | r :: rs, base, a =>
    if r.recType = 1 then none
    else
      match placed_byte rs (next_base base r) a with
      | some b => some b
      | none => if r.recType = 0 then placed_in (base + r.addrHiLo) r.data a else none

/-- One data record holding `ADDI x1,x0,5` at address 0, and the end-of-file
record. -/
def image_text : List Char := ":040000009300500019\n:00000001FF\n".toList

/-- A type 04 record with upper address 1, a data record of one byte at offset
0 (absolute address 0x10000), and the end-of-file record. -/
def far_text : List Char := ":020000040001F9\n:0100000055AA\n:00000001FF\n".toList

/-- A type 04 record with upper address 0xFFFF, a data record of two bytes at
offset 0xFFFF, and the end-of-file record. -/
def wrap_text : List Char := ":02000004FFFFFC\n:02FFFF00AABB9B\n:00000001FF\n".toList

/-! ## Bit-field and scoreboard lemmas -/

theorem and_127 (x : Nat) : x &&& 127 = x % 128 := Nat.and_pow_two_sub_one_eq_mod x 7

theorem and_31 (x : Nat) : x &&& 31 = x % 32 := Nat.and_pow_two_sub_one_eq_mod x 5

theorem and_7 (x : Nat) : x &&& 7 = x % 8 := Nat.and_pow_two_sub_one_eq_mod x 3

theorem and_1 (x : Nat) : x &&& 1 = x % 2 := Nat.and_pow_two_sub_one_eq_mod x 1

theorem shl3_or (a b : Nat) (hb : b < 8) : (a <<< 3) ||| b = 8 * a + b := by
  have h := Nat.mul_add_lt_is_or (i := 3) (b := b) (by simpa using hb) a
  rw [Nat.shiftLeft_eq, Nat.mul_comm]
  simpa using h.symm

theorem is_locked_eq_testBit (h : DataHazardManager) (r : Nat) :
    h.is_locked r = h.scoreboard.testBit r := by
  simp [DataHazardManager.is_locked, Nat.testBit, Nat.land_comm]

theorem lock_reg_is_locked (h : DataHazardManager) (r q : Nat) (hq : q < 32) :
    (h.lock_reg r).is_locked q = (h.is_locked q || decide (r = q)) := by
  simp only [is_locked_eq_testBit, DataHazardManager.lock_reg, W32, Nat.testBit_mod_two_pow,
    Nat.testBit_or, Nat.one_shiftLeft, Nat.testBit_two_pow]
  simp [hq]

theorem release_reg_is_locked (h : DataHazardManager) (r q : Nat) (hq : q < 32) :
    (h.release_reg r).is_locked q = (h.is_locked q ^^ decide (r = q)) := by
  simp only [is_locked_eq_testBit, DataHazardManager.release_reg, W32, Nat.testBit_mod_two_pow,
    Nat.testBit_xor, Nat.one_shiftLeft, Nat.testBit_two_pow]
  simp [hq]

theorem wb_stage_reg0 (mem_to_wb : Option MemToWb) (regfile : RegFile) :
    (wb_stage mem_to_wb regfile).1 0 = regfile 0 := by
  unfold wb_stage
  cases mem_to_wb with
  | none => rfl
  | some m =>
    obtain ⟨wb_data, rd⟩ := m
    cases rd with
    | none => rfl
    | some r =>
      by_cases hr : r = 0
      · simp [hr]
      · simp [hr, Function.update_noteq (Ne.symm hr)]

theorem cycle_regfile (s t : Core) (h : cycle s = some t) :
    t.regfile = (wb_stage s.mem_wb_reg s.regfile).1 := by
  simp only [cycle] at h
  cases hf : fetch_stage s.pc s.imem (decode_of s).stall_request (execute_stage s.id_ex_reg).2 with
  | none => simp [hf] at h
  | some p =>
    cases hm : mem_stage s.ex_mem_reg s.dmem with
    | none => simp [hf, hm] at h
    | some q =>
      simp only [hf, hm, Option.some.injEq] at h
      rw [← h]

theorem run_regfile0 (n : Nat) (s t : Core) (h : run n s = some t) :
    t.regfile 0 = s.regfile 0 := by
  induction n generalizing t with
  | zero =>
    simp only [run, Option.some.injEq] at h
    rw [← h]
  | succ k ih =>
    simp only [run] at h
    obtain ⟨u, hu, hc⟩ := Option.bind_eq_some.mp h
    rw [cycle_regfile u t hc, wb_stage_reg0, ih u hu]

theorem set_rd_frame (d : DecodeToExec) (rd : Nat) :
    (set_rd d rd).pc = d.pc ∧ (set_rd d rd).rs1_val = d.rs1_val ∧
      (set_rd d rd).rs2_val = d.rs2_val ∧ (set_rd d rd).br = d.br ∧
      (set_rd d rd).mem = d.mem ∧ (set_rd d rd).op = d.op ∧ (set_rd d rd).imm = d.imm := by
  unfold set_rd
  split_ifs <;> simp

theorem set_rd_rd (d : DecodeToExec) (rd : Nat) (hd : d.rd = none) :
    (set_rd d rd).rd = if rd ≠ 0 then some rd else none := by
  unfold set_rd
  split_ifs <;> simp [hd]

theorem decode_switch_pc (instr : Nat) (d : DecodeToExec) :
    (decode_switch instr d).pc = d.pc := by
  unfold decode_switch
  simp only [apply_ite DecodeToExec.pc, set_rd_frame, ite_self]

theorem decode_switch_rs1_val (instr : Nat) (d : DecodeToExec) :
    (decode_switch instr d).rs1_val = d.rs1_val := by
  unfold decode_switch
  simp only [apply_ite DecodeToExec.rs1_val, set_rd_frame, ite_self]

theorem decode_switch_rs2_val (instr : Nat) (d : DecodeToExec) :
    (decode_switch instr d).rs2_val = d.rs2_val := by
  unfold decode_switch
  simp only [apply_ite DecodeToExec.rs2_val, set_rd_frame, ite_self]

theorem decode_switch_rd (instr : Nat) (d : DecodeToExec) (hd : d.rd = none) :
    (decode_switch instr d).rd =
      if decoder_writes_rd instr = true then some ((instr >>> 7) &&& 0x1f) else none := by
  have h3 : (instr >>> 12) &&& 0x7 < 8 := by
    rw [and_7]; exact Nat.mod_lt _ (by norm_num)
  have h7 : (instr >>> 25) &&& 0x7f < 128 := by
    rw [and_127]; exact Nat.mod_lt _ (by norm_num)
  unfold decode_switch
  simp only [apply_ite DecodeToExec.rd, set_rd_rd _ _ hd, set_rd_frame, shl3_or _ _ h3]
  unfold decoder_writes_rd
  simp only []
  generalize (instr >>> 12) &&& 0x7 = funct3 at *
  generalize (instr >>> 25) &&& 0x7f = funct7 at *
  generalize (instr >>> 7) &&& 0x1f = rd at *
  generalize instr &&& 0x7f = opcode at *
  have e1 : (0 <<< 3 ||| 0 : Nat) = 0 := rfl
  have e2 : (32 <<< 3 ||| 0 : Nat) = 256 := rfl
  have e3 : (0 <<< 3 ||| 7 : Nat) = 7 := rfl
  have e4 : (0 <<< 3 ||| 6 : Nat) = 6 := rfl
  have e5 : (0 <<< 3 ||| 4 : Nat) = 4 := rfl
  have e6 : (0 <<< 3 ||| 1 : Nat) = 1 := rfl
  have e7 : (0 <<< 3 ||| 5 : Nat) = 5 := rfl
  have e8 : (32 <<< 3 ||| 5 : Nat) = 261 := rfl
  have e9 : (0 <<< 3 ||| 2 : Nat) = 2 := rfl
  have e10 : (0 <<< 3 ||| 3 : Nat) = 3 := rfl
  rw [e1, e2, e3, e4, e5, e6, e7, e8, e9, e10, and_127, hd]
  by_cases h51 : opcode = 51
  · subst h51
    by_cases hr : rd = 0
    · subst hr; simp
    · simp only [if_true, ne_eq, hr, not_false_eq_true, true_and]
      by_cases hf : funct7 = 0 ∨ funct7 = 32 ∧ (funct3 = 0 ∨ funct3 = 5)
      · have hk : 8 * funct7 + funct3 = 0 ∨ 8 * funct7 + funct3 = 256 ∨
            8 * funct7 + funct3 = 7 ∨ 8 * funct7 + funct3 = 6 ∨ 8 * funct7 + funct3 = 4 ∨
            8 * funct7 + funct3 = 1 ∨ 8 * funct7 + funct3 = 5 ∨ 8 * funct7 + funct3 = 261 ∨
            8 * funct7 + funct3 = 2 ∨ 8 * funct7 + funct3 = 3 := by omega
        simp only [hf, true_and, true_or, decide_True, if_true]
        rcases hk with h | h | h | h | h | h | h | h | h | h <;> simp [h]
      · have hk : ¬ 8 * funct7 + funct3 = 0 ∧ ¬ 8 * funct7 + funct3 = 256 ∧
            ¬ 8 * funct7 + funct3 = 7 ∧ ¬ 8 * funct7 + funct3 = 6 ∧ ¬ 8 * funct7 + funct3 = 4 ∧
            ¬ 8 * funct7 + funct3 = 1 ∧ ¬ 8 * funct7 + funct3 = 5 ∧ ¬ 8 * funct7 + funct3 = 261 ∧
            ¬ 8 * funct7 + funct3 = 2 ∧ ¬ 8 * funct7 + funct3 = 3 := by omega
        obtain ⟨k0, k1, k2, k3, k4, k5, k6, k7, k8, k9⟩ := hk
        simp [hf, k0, k1, k2, k3, k4, k5, k6, k7, k8, k9]
  · by_cases h19 : opcode = 19
    · subst h19
      by_cases hr : rd = 0
      · subst hr; simp
      · have h128 : funct7 % 128 = funct7 := Nat.mod_eq_of_lt h7
        simp only [h128, ne_eq, hr, not_false_eq_true, true_and, if_true]
        interval_cases funct3 <;> simp
    · by_cases hr : rd = 0
      · subst hr
        simp only [h51, h19, if_false, ne_eq, not_true_eq_false, false_and, decide_False,
          ite_self, Bool.false_eq_true]
      · simp only [h51, h19, if_false, ne_eq, hr, not_false_eq_true, true_and, false_and,
          false_or, if_true, ite_self]
        by_cases h3 : opcode = 3
        · simp [h3]
        · by_cases h35 : opcode = 35
          · simp [h35]
          · by_cases h99 : opcode = 99
            · simp [h99]
            · by_cases h55 : opcode = 55
              · simp [h55]
              · by_cases h23 : opcode = 23
                · simp [h23]
                · by_cases h111 : opcode = 111
                  · simp [h111]
                  · by_cases h103 : opcode = 103
                    · simp [h103]
                    · simp [h3, h35, h99, h55, h23, h111, h103]

/-! ## Runs -/

theorem run_add (a b : Nat) (s : Core) : run (a + b) s = (run a s).bind (run b) := by
  induction b with
  | zero =>
    cases h : run a s <;> simp [run, h]
  | succ k ih =>
    rw [← Nat.add_assoc]
    simp only [run, ih]
    cases h : run a s <;> simp [run]

theorem run_none_of_le (a b : Nat) (s : Core) (hab : a ≤ b) (h : run a s = none) :
    run b s = none := by
  obtain ⟨k, rfl⟩ := Nat.exists_eq_add_of_le hab
  rw [run_add, h]
  rfl

/-! ## A pipeline fed with zero words -/

theorem decode_idle (fetch_to_decode_in : Option FetchToDecode) (regfile : RegFile)
    (h : ∀ f, fetch_to_decode_in = some f → f.instr = 0) :
    (decode_stage fetch_to_decode_in none { scoreboard := 0 } none regfile).stall_request = false ∧
    (decode_stage fetch_to_decode_in none { scoreboard := 0 } none
      regfile).saved_fetch_to_decode = none ∧
    (decode_stage fetch_to_decode_in none { scoreboard := 0 } none regfile).hazardManager =
      { scoreboard := 0 } ∧
    ∀ d, (decode_stage fetch_to_decode_in none { scoreboard := 0 } none
        regfile).decode_to_exec = some d →
      d.rd = none ∧ d.br = BranchKind.NONE ∧ d.mem = MemOperation.NONE := by
  cases fetch_to_decode_in with
  | none => simp [decode_stage, select_instr, release_step]
  | some f =>
    obtain ⟨instr, pc⟩ := f
    have hi : instr = 0 := h _ rfl
    subst hi
    have hsw : ∀ d : DecodeToExec, decode_switch 0 d = d := fun d => by
      simp [decode_switch]
    simp only [decode_stage, select_instr, release_step, DataHazardManager.is_locked, hsw]
    simp

theorem execute_idle (decode_to_exec : Option DecodeToExec)
    (h : ∀ d, decode_to_exec = some d →
      d.rd = none ∧ d.br = BranchKind.NONE ∧ d.mem = MemOperation.NONE) :
    (execute_stage decode_to_exec).2 = none ∧
    ∀ e, (execute_stage decode_to_exec).1 = some e → e.rd = none ∧ e.mem = MemOperation.NONE := by
  cases decode_to_exec with
  | none => simp [execute_stage]
  | some d =>
    obtain ⟨hrd, hbr, hmem⟩ := h d rfl
    simp [execute_stage, resolve, hrd, hbr, hmem]

theorem mem_idle (exec_to_mem : Option ExecToMem) (dmem : DMem)
    (h : ∀ e, exec_to_mem = some e → e.rd = none ∧ e.mem = MemOperation.NONE) :
    ∃ m, mem_stage exec_to_mem dmem = some (dmem, m) ∧ ∀ x, m = some x → x.rd = none := by
  cases exec_to_mem with
  | none => exact ⟨none, rfl, by simp⟩
  | some e =>
    obtain ⟨hrd, hmem⟩ := h e rfl
    exact ⟨some { rd := e.rd, wb_data := e.wb_data_nonload }, by simp [mem_stage, hmem],
      by simp [hrd]⟩

theorem wb_idle (mem_to_wb : Option MemToWb) (regfile : RegFile)
    (h : ∀ m, mem_to_wb = some m → m.rd = none) :
    wb_stage mem_to_wb regfile = (regfile, none) := by
  cases mem_to_wb with
  | none => rfl
  | some m => simp [wb_stage, h m rfl]

theorem idle_cycle (s : Core) (hI : Idle s) (hpc : s.pc < 1024) (h0 : s.imem (s.pc >>> 2) = 0) :
    ∃ t, cycle s = some t ∧ Idle t ∧ t.pc = s.pc + 4 ∧ t.imem = s.imem ∧ t.dmem = s.dmem ∧
      t.regfile = s.regfile ∧ t.if_id_reg = some { instr := 0, pc := s.pc } := by
  obtain ⟨hif, hs, hh, hw, hd, he, hm⟩ := hI
  obtain ⟨d1, d2, d3, d4⟩ := decode_idle s.if_id_reg s.regfile hif
  obtain ⟨e1, e2⟩ := execute_idle s.id_ex_reg hd
  obtain ⟨m, m1, m2⟩ := mem_idle s.ex_mem_reg s.dmem he
  have w1 := wb_idle s.mem_wb_reg s.regfile hm
  have hf : fetch_stage s.pc s.imem false none =
      some (s.pc + 4, some { instr := 0, pc := s.pc }) := by
    have : (s.pc + 4) % W32 = s.pc + 4 := Nat.mod_eq_of_lt (by simp only [W32]; omega)
    simp [fetch_stage, IMemSize, hpc, h0, this]
  refine ⟨{ pc := s.pc + 4, imem := s.imem, dmem := s.dmem, regfile := s.regfile,
             if_id_reg := some { instr := 0, pc := s.pc }, saved_if_id := none,
             hazardManager := { scoreboard := 0 },
             id_ex_reg := (decode_stage s.if_id_reg none { scoreboard := 0 } none
               s.regfile).decode_to_exec,
             ex_mem_reg := (execute_stage s.id_ex_reg).1, mem_wb_reg := m,
             wb_finished := none }, ?_, ?_⟩
  · simp only [cycle, decode_of, hs, hh, hw, d1, d2, d3, e1, hf, m1, w1]
  · refine ⟨⟨?_, rfl, rfl, rfl, d4, e2, m2⟩, rfl, rfl, rfl, rfl, rfl⟩
    intro f hf'
    simp only [Option.some.injEq] at hf'
    rw [← hf']

theorem idle_run (k : Nat) (s : Core) (hI : Idle s) (hpc : s.pc + 4 * k ≤ 1024)
    (h0 : ∀ i, s.pc / 4 ≤ i → s.imem i = 0) :
    ∃ t, run k s = some t ∧ Idle t ∧ t.pc = s.pc + 4 * k ∧ t.imem = s.imem ∧ t.dmem = s.dmem ∧
      t.regfile = s.regfile ∧ (k = 0 ∨ ∃ q, s.pc ≤ q ∧ t.if_id_reg = some { instr := 0, pc := q }) := by
  induction k with
  | zero => exact ⟨s, rfl, hI, rfl, rfl, rfl, rfl, Or.inl rfl⟩
  | succ j ih =>
    obtain ⟨t, ht, hIt, hp, hi, hd, hr, _⟩ := ih (by omega)
    have hz : t.imem (t.pc >>> 2) = 0 := by
      rw [hi, Nat.shiftRight_eq_div_pow]
      apply h0
      rw [hp]
      exact Nat.div_le_div_right (by omega)
    obtain ⟨u, hu, hIu, hp', hi', hd', hr', hq⟩ := idle_cycle t hIt (by omega) hz
    refine ⟨u, ?_, hIu, by omega, hi'.trans hi, hd'.trans hd, hr'.trans hr,
      Or.inr ⟨t.pc, by omega, hq⟩⟩
    simp only [run, ht, Option.some_bind, hu]

theorem idle_abort (s : Core) (hI : Idle s) (hpc : 1024 ≤ s.pc) : cycle s = none := by
  obtain ⟨hif, hs, hh, hw, hd, he, hm⟩ := hI
  obtain ⟨d1, d2, d3, d4⟩ := decode_idle s.if_id_reg s.regfile hif
  obtain ⟨e1, e2⟩ := execute_idle s.id_ex_reg hd
  have hf : fetch_stage s.pc s.imem false none = none := by
    simp [fetch_stage, IMemSize]
    omega
  simp only [cycle, decode_of, hs, hh, hw, d1, e1, hf]

/-! ## Scenario runs -/

theorem scenario1_run10 (dmem : DMem) (regfile : RegFile) (h0 : regfile 0 = 0) :
    run 10 (rv32i_5stage scenario1_imem dmem regfile { scoreboard := 0 }) =
      some { pc := 28, imem := scenario1_imem, dmem := dmem,
             regfile := Function.update (Function.update (Function.update regfile 1 5) 2 7) 3 12,
             if_id_reg := some { instr := 0, pc := 24 }, saved_if_id := none,
             hazardManager := { scoreboard := 8 },
             id_ex_reg := some { rs1_val := 0, rs2_val := 0, pc := 20 },
             ex_mem_reg := some {}, mem_wb_reg := some {}, wb_finished := some 3 } := by
  simp [run, cycle, rv32i_5stage, decode_of, decode_stage, select_instr, release_step,
    execute_stage, fetch_stage, mem_stage, wb_stage, IMemSize, scenario1_imem, decode_switch,
    set_rd, alu, resolve, DataHazardManager.is_locked, DataHazardManager.lock_reg,
    DataHazardManager.release_reg, imm_i, sext32, and_127, and_31, and_7, and_1, h0,
    Function.update, W32]

theorem scenario1_run11 (dmem : DMem) (regfile : RegFile) (h0 : regfile 0 = 0) :
    ∃ s, run 11 (rv32i_5stage scenario1_imem dmem regfile { scoreboard := 0 }) = some s ∧
      Idle s ∧ s.pc = 32 ∧ s.imem = scenario1_imem ∧
      s.regfile 1 = 5 ∧ s.regfile 2 = 7 ∧ s.regfile 3 = 12 := by
  refine ⟨{ pc := 32, imem := scenario1_imem, dmem := dmem,
            regfile := Function.update (Function.update (Function.update regfile 1 5) 2 7) 3 12,
            if_id_reg := some { instr := 0, pc := 28 }, saved_if_id := none,
            hazardManager := { scoreboard := 0 },
            id_ex_reg := some { rs1_val := 0, rs2_val := 0, pc := 24 },
            ex_mem_reg := some {}, mem_wb_reg := some {}, wb_finished := none }, ?_, ?_,
          rfl, rfl, ?_⟩
  · rw [show (11 : Nat) = 10 + 1 from rfl, run, scenario1_run10 dmem regfile h0]
    simp [cycle, decode_of, decode_stage, select_instr, release_step,
      execute_stage, fetch_stage, mem_stage, wb_stage, IMemSize, scenario1_imem, decode_switch,
      set_rd, alu, resolve, DataHazardManager.is_locked, DataHazardManager.lock_reg,
      DataHazardManager.release_reg, and_127, and_31, and_7, and_1, h0,
      Function.update, W32]
  · simp [Idle]
  · simp [Function.update]

theorem scenario3_run6 (dmem : DMem) (regfile : RegFile) (a : Nat) (h0 : regfile 0 = 0)
    (h1 : regfile 1 = 42) (h2 : regfile 2 = a) (ha : a / 4 < 2048) :
    run 6 (rv32i_5stage scenario3_imem dmem regfile { scoreboard := 0 }) =
      some { pc := 24, imem := scenario3_imem, dmem := Function.update dmem (a / 4) 42,
             regfile := Function.update regfile 3 42,
             if_id_reg := some { instr := 0, pc := 20 }, saved_if_id := none,
             hazardManager := { scoreboard := 8 },
             id_ex_reg := some { rs1_val := 0, rs2_val := 0, pc := 16 },
             ex_mem_reg := some {}, mem_wb_reg := some {}, wb_finished := some 3 } := by
  have hsh : a >>> 2 = a / 4 := Nat.shiftRight_eq_div_pow a 2
  have hmod : a % 4294967296 = a := Nat.mod_eq_of_lt (by omega)
  have hs : imm_s 0x00112023 = 0 := by decide
  have hi : imm_i 0x00012183 = 0 := by decide
  simp [run, cycle, rv32i_5stage, decode_of, decode_stage, select_instr, release_step,
    execute_stage, fetch_stage, mem_stage, wb_stage, IMemSize, DMemSize, scenario3_imem,
    decode_switch, set_rd, alu, resolve, DataHazardManager.is_locked,
    DataHazardManager.lock_reg, DataHazardManager.release_reg, hs, hi, and_127, and_31, and_7,
    and_1, h0, h1, h2, hsh, hmod, ha, Function.update, W32]

theorem scenario3_run7 (dmem : DMem) (regfile : RegFile) (a : Nat) (h0 : regfile 0 = 0)
    (h1 : regfile 1 = 42) (h2 : regfile 2 = a) (ha : a / 4 < 2048) :
    ∃ s, run 7 (rv32i_5stage scenario3_imem dmem regfile { scoreboard := 0 }) = some s ∧
      Idle s ∧ s.pc = 28 ∧ s.imem = scenario3_imem ∧ s.regfile 3 = 42 ∧ s.dmem (a / 4) = 42 := by
  refine ⟨{ pc := 28, imem := scenario3_imem, dmem := Function.update dmem (a / 4) 42,
            regfile := Function.update regfile 3 42,
            if_id_reg := some { instr := 0, pc := 24 }, saved_if_id := none,
            hazardManager := { scoreboard := 0 },
            id_ex_reg := some { rs1_val := 0, rs2_val := 0, pc := 20 },
            ex_mem_reg := some {}, mem_wb_reg := some {}, wb_finished := none }, ?_, ?_,
          rfl, rfl, ?_, ?_⟩
  · rw [show (7 : Nat) = 6 + 1 from rfl, run, scenario3_run6 dmem regfile a h0 h1 h2 ha]
    simp [cycle, decode_of, decode_stage, select_instr, release_step,
      execute_stage, fetch_stage, mem_stage, wb_stage, IMemSize, scenario3_imem, decode_switch,
      set_rd, alu, resolve, DataHazardManager.is_locked, DataHazardManager.lock_reg,
      DataHazardManager.release_reg, and_127, and_31, and_7, and_1, h0,
      Function.update, W32]
  · simp [Idle]
  · simp [Function.update]
  · simp [Function.update]

theorem scenario2_states (imem : IMem) (dmem : DMem) (regfile : RegFile)
    (hbeq : imem 0 = 0x00000463) (h0 : regfile 0 = 0) :
    run 1 (rv32i_5stage imem dmem regfile { scoreboard := 0 }) =
      some { pc := 4, imem := imem, dmem := dmem, regfile := regfile,
             if_id_reg := some { instr := 0x00000463, pc := 0 }, saved_if_id := none,
             hazardManager := { scoreboard := 0 }, id_ex_reg := none, ex_mem_reg := none,
             mem_wb_reg := none, wb_finished := none } ∧
    run 2 (rv32i_5stage imem dmem regfile { scoreboard := 0 }) =
      some { pc := 4, imem := imem, dmem := dmem, regfile := regfile,
             if_id_reg := none, saved_if_id := none,
             hazardManager := { scoreboard := 0 },
             id_ex_reg := some { br := BranchKind.BEQ, imm := some 8, rs1_val := 0, rs2_val := 0,
                                 pc := 0 },
             ex_mem_reg := none, mem_wb_reg := none, wb_finished := none } ∧
    run 3 (rv32i_5stage imem dmem regfile { scoreboard := 0 }) =
      some { pc := 8, imem := imem, dmem := dmem, regfile := regfile,
             if_id_reg := none, saved_if_id := none,
             hazardManager := { scoreboard := 0 }, id_ex_reg := none,
             ex_mem_reg := some {}, mem_wb_reg := none, wb_finished := none } ∧
    run 4 (rv32i_5stage imem dmem regfile { scoreboard := 0 }) =
      some { pc := 12, imem := imem, dmem := dmem, regfile := regfile,
             if_id_reg := some { instr := imem 2, pc := 8 }, saved_if_id := none,
             hazardManager := { scoreboard := 0 }, id_ex_reg := none,
             ex_mem_reg := none, mem_wb_reg := some {}, wb_finished := none } := by
  have hb : imm_b 0x00000463 = 8 := by decide
  have e1 : run 1 (rv32i_5stage imem dmem regfile { scoreboard := 0 }) =
      some { pc := 4, imem := imem, dmem := dmem, regfile := regfile,
             if_id_reg := some { instr := 0x00000463, pc := 0 }, saved_if_id := none,
             hazardManager := { scoreboard := 0 }, id_ex_reg := none, ex_mem_reg := none,
             mem_wb_reg := none, wb_finished := none } := by
    simp [run, cycle, rv32i_5stage, decode_of, decode_stage, select_instr, release_step,
      execute_stage, fetch_stage, mem_stage, wb_stage, IMemSize, hbeq, W32]
  have e2 : run 2 (rv32i_5stage imem dmem regfile { scoreboard := 0 }) =
      some { pc := 4, imem := imem, dmem := dmem, regfile := regfile,
             if_id_reg := none, saved_if_id := none,
             hazardManager := { scoreboard := 0 },
             id_ex_reg := some { br := BranchKind.BEQ, imm := some 8, rs1_val := 0, rs2_val := 0,
                                 pc := 0 },
             ex_mem_reg := none, mem_wb_reg := none, wb_finished := none } := by
    rw [show (2 : Nat) = 1 + 1 from rfl, run, e1]
    simp [cycle, decode_of, decode_stage, select_instr, release_step,
      execute_stage, fetch_stage, mem_stage, wb_stage, IMemSize, decode_switch, set_rd,
      DataHazardManager.is_locked, hb, and_127, and_31, and_7, and_1, h0, W32]
  have e3 : run 3 (rv32i_5stage imem dmem regfile { scoreboard := 0 }) =
      some { pc := 8, imem := imem, dmem := dmem, regfile := regfile,
             if_id_reg := none, saved_if_id := none,
             hazardManager := { scoreboard := 0 }, id_ex_reg := none,
             ex_mem_reg := some {}, mem_wb_reg := none, wb_finished := none } := by
    rw [show (3 : Nat) = 2 + 1 from rfl, run, e2]
    simp [cycle, decode_of, decode_stage, select_instr, release_step,
      execute_stage, fetch_stage, mem_stage, wb_stage, alu, resolve, branch_target, W32]
  have e4 : run 4 (rv32i_5stage imem dmem regfile { scoreboard := 0 }) =
      some { pc := 12, imem := imem, dmem := dmem, regfile := regfile,
             if_id_reg := some { instr := imem 2, pc := 8 }, saved_if_id := none,
             hazardManager := { scoreboard := 0 }, id_ex_reg := none,
             ex_mem_reg := none, mem_wb_reg := some {}, wb_finished := none } := by
    rw [show (4 : Nat) = 3 + 1 from rfl, run, e3]
    simp [cycle, decode_of, decode_stage, select_instr, release_step,
      execute_stage, fetch_stage, mem_stage, wb_stage, IMemSize, W32]
  exact ⟨e1, e2, e3, e4⟩

theorem scenario2_never_address4 (dmem : DMem) (regfile : RegFile) (h0 : regfile 0 = 0)
    (n : Nat) (s : Core)
    (hs : run n (rv32i_5stage scenario2_imem dmem regfile { scoreboard := 0 }) = some s)
    (f : FetchToDecode) (hf : select_instr s.if_id_reg s.saved_if_id = some f) : f.pc ≠ 4 := by
  obtain ⟨e1, e2, e3, e4⟩ := scenario2_states scenario2_imem dmem regfile rfl h0
  have hcase : n = 0 ∨ n = 1 ∨ n = 2 ∨ n = 3 ∨ n = 4 ∨ 5 ≤ n := by omega
  rcases hcase with h | h | h | h | h | h
  · subst h
    simp only [run, Option.some.injEq] at hs
    subst hs
    simp [rv32i_5stage, select_instr] at hf
  · subst h
    rw [e1, Option.some.injEq] at hs
    subst hs
    simp only [select_instr, Option.some.injEq] at hf
    subst hf
    decide
  · subst h
    rw [e2, Option.some.injEq] at hs
    subst hs
    simp [select_instr] at hf
  · subst h
    rw [e3, Option.some.injEq] at hs
    subst hs
    simp [select_instr] at hf
  · subst h
    rw [e4, Option.some.injEq] at hs
    subst hs
    simp only [select_instr, Option.some.injEq] at hf
    subst hf
    decide
  · obtain ⟨k, rfl⟩ := Nat.exists_eq_add_of_le (show 4 ≤ n by omega)
    have hidle : Idle { pc := 12, imem := scenario2_imem, dmem := dmem, regfile := regfile,
                        if_id_reg := some { instr := scenario2_imem 2, pc := 8 },
                        saved_if_id := none, hazardManager := { scoreboard := 0 },
                        id_ex_reg := none, ex_mem_reg := none, mem_wb_reg := some {},
                        wb_finished := none } := by
      simp [Idle, scenario2_imem]
    have hz : ∀ i, 12 / 4 ≤ i → scenario2_imem i = 0 := by
      intro i hi
      have h3 : 3 ≤ i := hi
      have e0 : i ≠ 0 := by omega
      simp [scenario2_imem, e0]
    rw [run_add, e4, Option.some_bind] at hs
    by_cases hk : k ≤ 253
    · obtain ⟨t, ht, hIt, _, _, _, _, hq⟩ := idle_run k _ hidle (by simp only; omega) hz
      rw [ht, Option.some.injEq] at hs
      subst hs
      rcases hq with hk0 | ⟨q, hq1, hq2⟩
      · omega
      · have hsaved : t.saved_if_id = none := hIt.2.1
        rw [hq2, hsaved] at hf
        simp only [select_instr, Option.some.injEq] at hf
        subst hf
        have : 12 ≤ q := hq1
        simp only [ne_eq]
        omega
    · obtain ⟨t, ht, hIt, hp, _⟩ := idle_run 253 _ hidle (by simp only; omega) hz
      have h254 : run 254 { pc := 12, imem := scenario2_imem, dmem := dmem,
                            regfile := regfile,
                            if_id_reg := some { instr := scenario2_imem 2, pc := 8 },
                            saved_if_id := none, hazardManager := { scoreboard := 0 },
                            id_ex_reg := none, ex_mem_reg := none, mem_wb_reg := some {},
                            wb_finished := none } = none := by
        rw [show (254 : Nat) = 253 + 1 from rfl, run, ht, Option.some_bind]
        exact idle_abort t hIt (by rw [hp])
      rw [run_none_of_le 254 k _ (by omega) h254] at hs
      exact absurd hs (by simp)

/-! ## Lemmas for the stage contracts -/

theorem decode_switch_br (instr : Nat) (d : DecodeToExec) (hd : d.br = BranchKind.NONE) :
    ((decode_switch instr d).br != BranchKind.NONE) = is_branch_or_jump instr := by
  have h3 : (instr >>> 12) &&& 0x7 < 8 := by
    rw [and_7]; exact Nat.mod_lt _ (by norm_num)
  unfold decode_switch
  simp only [apply_ite DecodeToExec.br, set_rd_frame, hd, ite_self]
  unfold is_branch_or_jump
  simp only []
  generalize (instr >>> 12) &&& 0x7 = funct3 at *
  generalize instr &&& 0x7f = opcode at *
  by_cases h99 : opcode = 99
  · subst h99
    interval_cases funct3 <;> simp
  · by_cases h111 : opcode = 111
    · subst h111; simp
    · by_cases h103 : opcode = 103
      · subst h103; simp
      · simp [h99, h111, h103]

theorem release_step_bit0 (hazardManager : DataHazardManager) (wb_finished : Option Nat)
    (h0 : hazardManager.is_locked 0 = false) (hw : wb_finished ≠ some 0) :
    (release_step hazardManager wb_finished).is_locked 0 = false := by
  cases wb_finished with
  | none => exact h0
  | some r =>
    have hr : r ≠ 0 := fun h => hw (by rw [h])
    simp only [release_step]
    rw [release_reg_is_locked _ _ _ (by norm_num), h0]
    simp [hr]

theorem decode_stage_bit0 (fetch_to_decode_in saved_fetch_to_decode : Option FetchToDecode)
    (hazardManager : DataHazardManager) (wb_finished : Option Nat) (regfile : RegFile)
    (h0 : hazardManager.is_locked 0 = false) (hw : wb_finished ≠ some 0) :
    (decode_stage fetch_to_decode_in saved_fetch_to_decode hazardManager wb_finished
      regfile).hazardManager.is_locked 0 = false := by
  have hrel := release_step_bit0 hazardManager wb_finished h0 hw
  unfold decode_stage
  cases hsel : select_instr fetch_to_decode_in saved_fetch_to_decode with
  | none => exact hrel
  | some f =>
    simp only []
    split_ifs with hl
    · exact hrel
    · have hrd := decode_switch_rd f.instr
        { pc := f.pc, rs1_val := regfile ((f.instr >>> 15) &&& 0x1f),
          rs2_val := regfile ((f.instr >>> 20) &&& 0x1f) } rfl
      by_cases hwd : decoder_writes_rd f.instr = true
      · rw [if_pos hwd] at hrd
        simp only [hrd]
        rw [lock_reg_is_locked _ _ _ (by norm_num), hrel]
        have hne : (f.instr >>> 7) &&& 0x1f ≠ 0 := by
          unfold decoder_writes_rd at hwd
          simp only [decide_eq_true_eq] at hwd
          exact hwd.1
        simp [hne]
      · rw [if_neg hwd] at hrd
        simp only [hrd]
        exact hrel

theorem wb_stage_completion_ne_zero (mem_to_wb : Option MemToWb) (regfile : RegFile) :
    (wb_stage mem_to_wb regfile).2 ≠ some 0 := by
  unfold wb_stage
  cases mem_to_wb with
  | none => simp
  | some m =>
    obtain ⟨wb_data, rd⟩ := m
    cases rd with
    | none => simp
    | some r =>
      by_cases hr : r = 0
      · simp [hr]
      · simp [hr]

theorem cycle_parts (s t : Core) (h : cycle s = some t) :
    t.hazardManager = (decode_of s).hazardManager ∧
    t.wb_finished = (wb_stage s.mem_wb_reg s.regfile).2 ∧
    t.saved_if_id = (decode_of s).saved_fetch_to_decode ∧
    t.id_ex_reg = (decode_of s).decode_to_exec ∧
    t.ex_mem_reg = (execute_stage s.id_ex_reg).1 ∧ t.imem = s.imem := by
  simp only [cycle] at h
  cases hf : fetch_stage s.pc s.imem (decode_of s).stall_request (execute_stage s.id_ex_reg).2 with
  | none => simp [hf] at h
  | some p =>
    cases hm : mem_stage s.ex_mem_reg s.dmem with
    | none => simp [hf, hm] at h
    | some q =>
      simp only [hf, hm, Option.some.injEq] at h
      rw [← h]
      exact ⟨rfl, rfl, rfl, rfl, rfl, rfl⟩

theorem run_bit0 (n : Nat) (s t : Core) (h0 : s.hazardManager.is_locked 0 = false)
    (hw : s.wb_finished ≠ some 0) (h : run n s = some t) :
    t.hazardManager.is_locked 0 = false ∧ t.wb_finished ≠ some 0 := by
  induction n generalizing t with
  | zero =>
    simp only [run, Option.some.injEq] at h
    rw [← h]
    exact ⟨h0, hw⟩
  | succ k ih =>
    simp only [run] at h
    obtain ⟨u, hu, hc⟩ := Option.bind_eq_some.mp h
    obtain ⟨hb, hwu⟩ := ih u hu
    obtain ⟨e1, e2, _⟩ := cycle_parts u t hc
    rw [e1, e2]
    exact ⟨decode_stage_bit0 _ _ _ _ _ hb hwu, wb_stage_completion_ne_zero _ _⟩

theorem decode_switch_unrecognized (instr : Nat) (d : DecodeToExec)
    (hop : instr &&& 0x7f ∉ [0x33, 0x13, 0x03, 0x23, 0x63, 0x37, 0x17, 0x6f, 0x67]) :
    decode_switch instr d = d := by
  simp only [List.mem_cons, List.mem_singleton, not_or, List.not_mem_nil, or_false] at hop
  obtain ⟨h1, h2, h3, h4, h5, h6, h7, h8, h9⟩ := hop
  unfold decode_switch
  simp only [h1, h2, h3, h4, h5, h6, h7, h8, h9, if_false]

theorem toInt32_eq_signed32 (x : Nat) (hx : x < 2 ^ 32) : toInt32 x = signed32 x := by
  unfold toInt32 signed32
  have : x % W32 = x := Nat.mod_eq_of_lt hx
  simp only [this]
  split_ifs <;> simp [W32]

theorem sra_eq (x sh : Nat) (hx : x < 2 ^ 32) (hs : sh < 32) :
    ofInt32 (toInt32 x >>> sh) =
      if x < 2 ^ 31 then x / 2 ^ sh else x / 2 ^ sh + (2 ^ 32 - 2 ^ (32 - sh)) := by
  rw [toInt32_eq_signed32 x hx, Int.shiftRight_eq_div_pow]
  unfold ofInt32 signed32
  simp only [W32]
  interval_cases sh <;> (split_ifs <;> simp <;> omega)

theorem alu_eq_reference_aux (op : AluOp) (rs1 rs2 op2 pc immediate : Nat)
    (h1 : rs1 < 2 ^ 32) (h2 : rs2 < 2 ^ 32) (hop2 : op2 < 2 ^ 32) :
    (match op with
      | AluOp.ADD => (rs1 + op2) % W32
      | AluOp.ADDI => (rs1 + op2) % W32
      | AluOp.SUB => (rs1 + W32 - rs2 % W32) % W32
      | AluOp.AND => rs1 &&& op2
      | AluOp.OR => rs1 ||| op2
      | AluOp.XOR => rs1 ^^^ op2
      | AluOp.SLL => (rs1 <<< (op2 &&& 31)) % W32
      | AluOp.SRL => rs1 >>> (op2 &&& 31)
      | AluOp.SRA => ofInt32 (toInt32 rs1 >>> (op2 &&& 31))
      | AluOp.SLT => if toInt32 rs1 < toInt32 op2 then 1 else 0
      | AluOp.SLTU => if rs1 < op2 then 1 else 0
      | AluOp.LUI => immediate
      | AluOp.AUIPC => (pc + immediate) % W32
      | AluOp.NOP => 0) =
    (match op with
      | AluOp.ADD => (rs1 + op2) % 2 ^ 32
      | AluOp.ADDI => (rs1 + op2) % 2 ^ 32
      | AluOp.SUB => (((rs1 : Int) - (rs2 : Int)) % 2 ^ 32).toNat
      | AluOp.AND => rs1 &&& op2
      | AluOp.OR => rs1 ||| op2
      | AluOp.XOR => rs1 ^^^ op2
      | AluOp.SLL => (rs1 * 2 ^ (op2 % 32)) % 2 ^ 32
      | AluOp.SRL => rs1 / 2 ^ (op2 % 32)
      | AluOp.SRA =>
        if rs1 < 2 ^ 31 then rs1 / 2 ^ (op2 % 32)
        else rs1 / 2 ^ (op2 % 32) + (2 ^ 32 - 2 ^ (32 - op2 % 32))
      | AluOp.SLT => if signed32 rs1 < signed32 op2 then 1 else 0
      | AluOp.SLTU => if rs1 < op2 then 1 else 0
      | AluOp.LUI => immediate
      | AluOp.AUIPC => (pc + immediate) % 2 ^ 32
      | AluOp.NOP => 0) := by
  have hshlt : op2 % 32 < 32 := Nat.mod_lt _ (by norm_num)
  cases op
  case SUB =>
    simp only [W32, Nat.mod_eq_of_lt h2]
    omega
  case SLL => simp only [and_31, Nat.shiftLeft_eq, W32]
  case SRL => simp only [and_31, Nat.shiftRight_eq_div_pow]
  case SRA =>
    simp only [and_31]
    exact sra_eq rs1 (op2 % 32) h1 hshlt
  case SLT =>
    simp only [toInt32_eq_signed32 rs1 h1, toInt32_eq_signed32 op2 hop2]
  all_goals rfl

theorem alu_eq_reference (d : DecodeToExec) (h1 : d.rs1_val < 2 ^ 32) (h2 : d.rs2_val < 2 ^ 32)
    (hi : ∀ i, d.imm = some i → i < 2 ^ 32) :
    alu d = alu_reference d.op d.rs1_val d.rs2_val d.pc d.imm := by
  obtain ⟨rd, op, br, mem, imm, rs1, rs2, pc⟩ := d
  simp only at h1 h2 hi
  cases imm with
  | none => exact alu_eq_reference_aux op rs1 rs2 rs2 pc 0 h1 h2 h2
  | some i => exact alu_eq_reference_aux op rs1 rs2 i pc i h1 h2 (hi i rfl)

theorem and_high_mask (x k : Nat) (hx : x < 2 ^ 32) (hk : k ≤ 32) :
    x &&& ((2 ^ (32 - k) - 1) <<< k) = (x >>> k) <<< k := by
  apply Nat.eq_of_testBit_eq
  intro i
  simp only [Nat.testBit_and, Nat.testBit_shiftLeft, Nat.testBit_two_pow_sub_one,
    Nat.testBit_shiftRight, ge_iff_le]
  by_cases hik : k ≤ i
  · have e : k + (i - k) = i := by omega
    simp only [hik, decide_True, Bool.true_and, e]
    by_cases hi : i < 32
    · have : i - k < 32 - k := by omega
      simp [this]
    · have hlt : x < 2 ^ i := lt_of_lt_of_le hx (Nat.pow_le_pow_right (by norm_num) (by omega))
      simp [Nat.testBit_lt_two_pow hlt]
  · simp [hik]

theorem and_clear_bit0 (x : Nat) (hx : x < 2 ^ 32) : x &&& 0xfffffffe = x - x % 2 := by
  have h := and_high_mask x 1 hx (by norm_num)
  have e : ((2 ^ (32 - 1) - 1) <<< 1 : Nat) = 0xfffffffe := by decide
  rw [e] at h
  rw [h, Nat.shiftRight_eq_div_pow, Nat.shiftLeft_eq]
  omega

theorem and_upper20 (x : Nat) (hx : x < 2 ^ 32) : x &&& 0xfffff000 = x / 4096 * 4096 := by
  have h := and_high_mask x 12 hx (by norm_num)
  have e : ((2 ^ (32 - 12) - 1) <<< 12 : Nat) = 0xfffff000 := by decide
  rw [e] at h
  rw [h, Nat.shiftRight_eq_div_pow, Nat.shiftLeft_eq]

theorem xor_two_pow (x k : Nat) (hx : x < 2 ^ (k + 1)) :
    x ^^^ 2 ^ k = if x < 2 ^ k then x + 2 ^ k else x - 2 ^ k := by
  have h2 : 2 ^ (k + 1) = 2 * 2 ^ k := by rw [pow_succ]; ring
  apply Nat.eq_of_testBit_eq
  intro j
  rw [Nat.testBit_xor, Nat.testBit_two_pow]
  split_ifs with hlt
  · have e : x + 2 ^ k = 2 ^ k * 1 + x := by ring
    rw [e, Nat.testBit_mul_pow_two_add 1 hlt j]
    by_cases hj : j < k
    · have : k ≠ j := by omega
      simp [hj, this]
    · have hxj : x.testBit j = false :=
        Nat.testBit_lt_two_pow (lt_of_lt_of_le hlt (Nat.pow_le_pow_right (by norm_num) (by omega)))
      simp only [hj, if_false, hxj, Bool.false_xor]
      by_cases hjk : k = j
      · subst hjk; simp
      · have h1 : Nat.testBit 1 (j - k) = decide (0 = j - k) := by
          simpa using @Nat.testBit_two_pow 0 (j - k)
        have hne : ¬ 0 = j - k := by omega
        simp [hjk, h1, hne]
  · have hb : x - 2 ^ k < 2 ^ k := by omega
    have e : x = 2 ^ k * 1 + (x - 2 ^ k) := by omega
    have hx' := Nat.testBit_mul_pow_two_add 1 hb j
    rw [← e] at hx'
    rw [hx']
    by_cases hj : j < k
    · have : k ≠ j := by omega
      simp [hj, this]
    · have hbj : (x - 2 ^ k).testBit j = false :=
        Nat.testBit_lt_two_pow (lt_of_lt_of_le hb (Nat.pow_le_pow_right (by norm_num) (by omega)))
      simp only [hj, if_false, hbj]
      by_cases hjk : k = j
      · subst hjk; simp
      · have h1 : Nat.testBit 1 (j - k) = decide (0 = j - k) := by
          simpa using @Nat.testBit_two_pow 0 (j - k)
        have hne : ¬ 0 = j - k := by omega
        simp [hjk, h1, hne]

theorem sext32_eq_sign_extend (x n : Nat) (h1 : 1 ≤ n) (h32 : n ≤ 32) (hx : x < 2 ^ n) :
    sext32 x n = sign_extend n x := by
  obtain ⟨k, rfl⟩ : ∃ k, n = k + 1 := ⟨n - 1, by omega⟩
  have hk : 2 ^ k ≤ 2 ^ 31 := Nat.pow_le_pow_right (by norm_num) (by omega)
  have hn : 2 ^ (k + 1) = 2 * 2 ^ k := by rw [pow_succ]; ring
  have hm : (1 <<< k) % W32 = 2 ^ k := by
    rw [Nat.one_shiftLeft]
    exact Nat.mod_eq_of_lt (by simp only [W32]; omega)
  unfold sext32 sign_extend
  simp only [Nat.add_sub_cancel, hm, xor_two_pow x k hx]
  simp only [W32] at *
  split_ifs with hlt
  · omega
  · omega

theorem and_15 (x : Nat) : x &&& 15 = x % 16 := Nat.and_pow_two_sub_one_eq_mod x 4

theorem and_63 (x : Nat) : x &&& 63 = x % 64 := Nat.and_pow_two_sub_one_eq_mod x 6

theorem and_255 (x : Nat) : x &&& 255 = x % 256 := Nat.and_pow_two_sub_one_eq_mod x 8

theorem and_1023 (x : Nat) : x &&& 1023 = x % 1024 := Nat.and_pow_two_sub_one_eq_mod x 10

theorem or_shl_eq_add (a b i : Nat) (hb : b < 2 ^ i) : b ||| (a <<< i) = a * 2 ^ i + b := by
  rw [Nat.lor_comm, Nat.shiftLeft_eq, Nat.mul_comm a]
  exact (Nat.mul_add_lt_is_or hb a).symm

theorem imm_i_eq (instr : Nat) (h : instr < 2 ^ 32) : imm_i instr = rv32i_imm_i instr := by
  unfold imm_i rv32i_imm_i bits
  have hlt : instr >>> 20 < 2 ^ 12 := by
    rw [Nat.shiftRight_eq_div_pow]; omega
  rw [sext32_eq_sign_extend _ 12 (by norm_num) (by norm_num) hlt, Nat.shiftRight_eq_div_pow]
  apply congrArg (sign_extend 12)
  simp only [Nat.reduceAdd, Nat.reduceSub, Nat.reducePow]
  omega

theorem imm_s_eq (instr : Nat) : imm_s instr = rv32i_imm_s instr := by
  unfold imm_s rv32i_imm_s bits
  simp only [and_31, and_127, Nat.shiftRight_eq_div_pow]
  have ha : instr / 2 ^ 7 % 32 < 2 ^ 5 := Nat.mod_lt _ (by norm_num)
  rw [or_shl_eq_add _ _ 5 ha]
  have hlt : instr / 2 ^ 25 % 128 * 2 ^ 5 + instr / 2 ^ 7 % 32 < 2 ^ 12 := by omega
  rw [sext32_eq_sign_extend _ 12 (by norm_num) (by norm_num) hlt]
  rfl

theorem imm_b_eq (instr : Nat) : imm_b instr = rv32i_imm_b instr := by
  unfold imm_b rv32i_imm_b bits
  simp only [and_15, and_63, and_1, Nat.shiftRight_eq_div_pow]
  have ha : (instr / 2 ^ 8 % 16) <<< 1 < 2 ^ 5 := by rw [Nat.shiftLeft_eq]; omega
  rw [or_shl_eq_add _ _ 5 ha]
  have hb : instr / 2 ^ 25 % 64 * 2 ^ 5 + (instr / 2 ^ 8 % 16) <<< 1 < 2 ^ 11 := by
    rw [Nat.shiftLeft_eq]; omega
  rw [or_shl_eq_add _ _ 11 hb]
  have hc : instr / 2 ^ 7 % 2 * 2 ^ 11 +
      (instr / 2 ^ 25 % 64 * 2 ^ 5 + (instr / 2 ^ 8 % 16) <<< 1) < 2 ^ 12 := by
    rw [Nat.shiftLeft_eq]; omega
  rw [or_shl_eq_add _ _ 12 hc]
  have hlt : instr / 2 ^ 31 % 2 * 2 ^ 12 + (instr / 2 ^ 7 % 2 * 2 ^ 11 +
      (instr / 2 ^ 25 % 64 * 2 ^ 5 + (instr / 2 ^ 8 % 16) <<< 1)) < 2 ^ 13 := by
    rw [Nat.shiftLeft_eq]; omega
  rw [sext32_eq_sign_extend _ 13 (by norm_num) (by norm_num) hlt, Nat.shiftLeft_eq]
  apply congrArg (sign_extend 13)
  simp only [Nat.reduceAdd, Nat.reduceSub, Nat.reducePow]
  omega

theorem imm_u_eq (instr : Nat) (h : instr < 2 ^ 32) : imm_u instr = rv32i_imm_u instr := by
  unfold imm_u rv32i_imm_u bits
  rw [and_upper20 instr h]
  have : instr / 2 ^ 12 % 2 ^ (31 + 1 - 12) = instr / 4096 := by omega
  rw [this]
  norm_num

theorem imm_j_eq (instr : Nat) : imm_j instr = rv32i_imm_j instr := by
  unfold imm_j rv32i_imm_j bits
  simp only [and_1023, and_255, and_1, Nat.shiftRight_eq_div_pow]
  have ha : (instr / 2 ^ 21 % 1024) <<< 1 < 2 ^ 11 := by rw [Nat.shiftLeft_eq]; omega
  rw [or_shl_eq_add _ _ 11 ha]
  have hb : instr / 2 ^ 20 % 2 * 2 ^ 11 + (instr / 2 ^ 21 % 1024) <<< 1 < 2 ^ 12 := by
    rw [Nat.shiftLeft_eq]; omega
  rw [or_shl_eq_add _ _ 12 hb]
  have hc : instr / 2 ^ 12 % 256 * 2 ^ 12 +
      (instr / 2 ^ 20 % 2 * 2 ^ 11 + (instr / 2 ^ 21 % 1024) <<< 1) < 2 ^ 20 := by
    rw [Nat.shiftLeft_eq]; omega
  rw [or_shl_eq_add _ _ 20 hc]
  have hlt : instr / 2 ^ 31 % 2 * 2 ^ 20 + (instr / 2 ^ 12 % 256 * 2 ^ 12 +
      (instr / 2 ^ 20 % 2 * 2 ^ 11 + (instr / 2 ^ 21 % 1024) <<< 1)) < 2 ^ 21 := by
    rw [Nat.shiftLeft_eq]; omega
  rw [sext32_eq_sign_extend _ 21 (by norm_num) (by norm_num) hlt, Nat.shiftLeft_eq]
  apply congrArg (sign_extend 21)
  simp only [Nat.reduceAdd, Nat.reduceSub, Nat.reducePow]
  omega

theorem field_extract (h f r M W : Nat) (hr : r < M) (hf : f < W) :
    (h * (M * W) + f * M + r) / M % W = f := by
  have hM : 0 < M := by omega
  have e : h * (M * W) + f * M + r = r + (f + h * W) * M := by ring
  rw [e, Nat.add_mul_div_right _ _ hM, Nat.div_eq_of_lt hr, Nat.zero_add,
    Nat.add_mul_mod_self_right, Nat.mod_eq_of_lt hf]

theorem imm_b_encode_b (offset : Int) (rs1 rs2 funct3 : Nat) (hlo : -4096 ≤ offset)
    (hhi : offset < 4096) (heven : offset % 2 = 0) (h1 : rs1 < 32) (h2 : rs2 < 32)
    (h3 : funct3 < 8) :
    imm_b (encode_b offset rs1 rs2 funct3) = (offset % 2 ^ 32).toNat := by
  rw [imm_b_eq]
  unfold rv32i_imm_b encode_b bits sign_extend
  simp only [Nat.reduceAdd, Nat.reduceSub, Nat.reducePow]
  generalize ho : (offset % 2 ^ 13).toNat = o
  have hob : o < 8192 := by omega
  have hoe : o % 2 = 0 := by omega
  have hoff : (offset % 2 ^ 32).toNat = if o < 4096 then o else o + 4294967296 - 8192 := by
    split_ifs <;> omega
  rw [hoff]
  have e5 : o / 4096 % 2 * 4096 + o / 2048 % 2 * 2048 + o / 32 % 64 * 32 + o / 2 % 16 * 2 = o := by
    omega
  have ha : o / 4096 % 2 < 2 := Nat.mod_lt _ (by norm_num)
  have hb : o / 32 % 64 < 64 := Nat.mod_lt _ (by norm_num)
  have hc : o / 2 % 16 < 16 := Nat.mod_lt _ (by norm_num)
  have hd : o / 2048 % 2 < 2 := Nat.mod_lt _ (by norm_num)
  generalize o / 4096 % 2 = a at *
  generalize o / 32 % 64 = b at *
  generalize o / 2 % 16 = c at *
  generalize o / 2048 % 2 = d at *
  generalize hN : a * 2147483648 + b * 33554432 + rs2 * 1048576 + rs1 * 32768 +
      funct3 * 4096 + c * 256 + d * 128 + 99 = N
  have e1 : N / 2147483648 % 2 = a := by
    have h := field_extract 0 a (b * 33554432 + rs2 * 1048576 + rs1 * 32768 +
      funct3 * 4096 + c * 256 + d * 128 + 99) 2147483648 2 (by omega) ha
    have hn : N = 0 * (2147483648 * 2) + a * 2147483648 + (b * 33554432 + rs2 * 1048576 +
      rs1 * 32768 + funct3 * 4096 + c * 256 + d * 128 + 99) := by omega
    rw [hn]; exact h
  have e2 : N / 128 % 2 = d := by
    have h := field_extract (a * 8388608 + b * 131072 + rs2 * 4096 + rs1 * 128 +
      funct3 * 16 + c) d 99 128 2 (by omega) hd
    have hn : N = (a * 8388608 + b * 131072 + rs2 * 4096 + rs1 * 128 + funct3 * 16 + c) *
      (128 * 2) + d * 128 + 99 := by omega
    rw [hn]; exact h
  have e3 : N / 33554432 % 64 = b := by
    have h := field_extract a b (rs2 * 1048576 + rs1 * 32768 + funct3 * 4096 + c * 256 +
      d * 128 + 99) 33554432 64 (by omega) hb
    have hn : N = a * (33554432 * 64) + b * 33554432 + (rs2 * 1048576 + rs1 * 32768 +
      funct3 * 4096 + c * 256 + d * 128 + 99) := by omega
    rw [hn]; exact h
  have e4 : N / 256 % 16 = c := by
    have h := field_extract (a * 524288 + b * 8192 + rs2 * 256 + rs1 * 8 + funct3) c
      (d * 128 + 99) 256 16 (by omega) hc
    have hn : N = (a * 524288 + b * 8192 + rs2 * 256 + rs1 * 8 + funct3) * (256 * 16) +
      c * 256 + (d * 128 + 99) := by omega
    rw [hn]; exact h
  rw [e1, e2, e3, e4, e5]

theorem imm_j_encode_j (offset : Int) (rd : Nat) (hlo : -1048576 ≤ offset)
    (hhi : offset < 1048576) (heven : offset % 2 = 0) (h1 : rd < 32) :
    imm_j (encode_j offset rd) = (offset % 2 ^ 32).toNat := by
  rw [imm_j_eq]
  unfold rv32i_imm_j encode_j bits sign_extend
  simp only [Nat.reduceAdd, Nat.reduceSub, Nat.reducePow]
  generalize ho : (offset % 2 ^ 21).toNat = o
  have hob : o < 2097152 := by omega
  have hoe : o % 2 = 0 := by omega
  have hoff : (offset % 2 ^ 32).toNat = if o < 1048576 then o else o + 4294967296 - 2097152 := by
    split_ifs <;> omega
  rw [hoff]
  have e5 : o / 1048576 % 2 * 1048576 + o / 4096 % 256 * 4096 + o / 2048 % 2 * 2048 +
      o / 2 % 1024 * 2 = o := by
    omega
  have ha : o / 1048576 % 2 < 2 := Nat.mod_lt _ (by norm_num)
  have hb : o / 2 % 1024 < 1024 := Nat.mod_lt _ (by norm_num)
  have hc : o / 2048 % 2 < 2 := Nat.mod_lt _ (by norm_num)
  have hd : o / 4096 % 256 < 256 := Nat.mod_lt _ (by norm_num)
  generalize o / 1048576 % 2 = a at *
  generalize o / 2 % 1024 = b at *
  generalize o / 2048 % 2 = c at *
  generalize o / 4096 % 256 = d at *
  generalize hN : a * 2147483648 + b * 2097152 + c * 1048576 + d * 4096 + rd * 128 + 111 = N
  have e1 : N / 2147483648 % 2 = a := by
    have h := field_extract 0 a (b * 2097152 + c * 1048576 + d * 4096 + rd * 128 + 111)
      2147483648 2 (by omega) ha
    have hn : N = 0 * (2147483648 * 2) + a * 2147483648 +
      (b * 2097152 + c * 1048576 + d * 4096 + rd * 128 + 111) := by omega
    rw [hn]; exact h
  have e2 : N / 4096 % 256 = d := by
    have h := field_extract (a * 2048 + b * 2 + c) d (rd * 128 + 111) 4096 256 (by omega) hd
    have hn : N = (a * 2048 + b * 2 + c) * (4096 * 256) + d * 4096 + (rd * 128 + 111) := by
      omega
    rw [hn]; exact h
  have e3 : N / 1048576 % 2 = c := by
    have h := field_extract (a * 1024 + b) c (d * 4096 + rd * 128 + 111) 1048576 2
      (by omega) hc
    have hn : N = (a * 1024 + b) * (1048576 * 2) + c * 1048576 +
      (d * 4096 + rd * 128 + 111) := by omega
    rw [hn]; exact h
  have e4 : N / 2097152 % 1024 = b := by
    have h := field_extract a b (c * 1048576 + d * 4096 + rd * 128 + 111) 2097152 1024
      (by omega) hb
    have hn : N = a * (2097152 * 1024) + b * 2097152 +
      (c * 1048576 + d * 4096 + rd * 128 + 111) := by omega
    rw [hn]; exact h
  rw [e1, e2, e3, e4, e5]

theorem decode_switch_imm (instr : Nat) (d : DecodeToExec) (hd : d.imm = none) :
    ((instr &&& 0x7f = 0x13 ∧ ¬ ((instr >>> 12) &&& 0x7 = 1 ∧ (instr >>> 25) &&& 0x7f ≠ 0)) ∨
        instr &&& 0x7f = 0x03 ∨ instr &&& 0x7f = 0x67 →
      (decode_switch instr d).imm = some (imm_i instr)) ∧
    (instr &&& 0x7f = 0x23 → (decode_switch instr d).imm = some (imm_s instr)) ∧
    (instr &&& 0x7f = 0x63 → (decode_switch instr d).imm = some (imm_b instr)) ∧
    (instr &&& 0x7f = 0x37 ∨ instr &&& 0x7f = 0x17 →
      (decode_switch instr d).imm = some (imm_u instr)) ∧
    (instr &&& 0x7f = 0x6f → (decode_switch instr d).imm = some (imm_j instr)) := by
  have h3 : (instr >>> 12) &&& 0x7 < 8 := by
    rw [and_7]; exact Nat.mod_lt _ (by norm_num)
  have h7 : (instr >>> 25) &&& 0x7f < 128 := by
    rw [and_127]; exact Nat.mod_lt _ (by norm_num)
  unfold decode_switch
  simp only [apply_ite DecodeToExec.imm, set_rd_frame, hd]
  generalize imm_i instr = ii
  generalize imm_s instr = is
  generalize imm_b instr = ib
  generalize imm_u instr = iu
  generalize imm_j instr = ij
  generalize (instr >>> 12) &&& 0x7 = funct3 at *
  generalize (instr >>> 25) &&& 0x7f = funct7 at *
  generalize instr &&& 0x7f = opcode at *
  refine ⟨?_, ?_, ?_, ?_, ?_⟩
  · rintro (⟨h, hf⟩ | h | h)
    · subst h
      have h128 : funct7 % 128 = funct7 := Nat.mod_eq_of_lt h7
      simp only [and_127, h128]
      interval_cases funct3 <;> simp_all
    · subst h; simp
    · subst h; simp
  · intro h; subst h; simp
  · intro h; subst h
    interval_cases funct3 <;> simp
  · rintro (h | h) <;> subst h <;> simp
  · intro h; subst h; simp

theorem bits_fields (instr : Nat) :
    instr &&& 0x7f = bits instr 6 0 ∧ (instr >>> 12) &&& 0x7 = bits instr 14 12 ∧
      (instr >>> 25) &&& 0x7f = bits instr 31 25 := by
  simp [bits, and_127, and_7, Nat.shiftRight_eq_div_pow]

/-! ## Lemmas for the pipeline invariants and the program-image loader -/

theorem decode_stage_issue (fetch_to_decode_in saved_fetch_to_decode : Option FetchToDecode)
    (hazardManager : DataHazardManager) (wb_finished : Option Nat) (regfile : RegFile)
    (f : FetchToDecode)
    (hsel : select_instr fetch_to_decode_in saved_fetch_to_decode = some f)
    (h1 : (release_step hazardManager wb_finished).is_locked ((f.instr >>> 15) &&& 0x1f) = false)
    (h2 : (release_step hazardManager wb_finished).is_locked ((f.instr >>> 20) &&& 0x1f) = false) :
    decode_stage fetch_to_decode_in saved_fetch_to_decode hazardManager wb_finished regfile =
      { saved_fetch_to_decode := none,
        hazardManager :=
          (match (decode_switch f.instr
              { pc := f.pc, rs1_val := regfile ((f.instr >>> 15) &&& 0x1f),
                rs2_val := regfile ((f.instr >>> 20) &&& 0x1f) }).rd with
            | some r => (release_step hazardManager wb_finished).lock_reg r
            | none => release_step hazardManager wb_finished),
        decode_to_exec := some (decode_switch f.instr
          { pc := f.pc, rs1_val := regfile ((f.instr >>> 15) &&& 0x1f),
            rs2_val := regfile ((f.instr >>> 20) &&& 0x1f) }),
        stall_request := ((decode_switch f.instr
          { pc := f.pc, rs1_val := regfile ((f.instr >>> 15) &&& 0x1f),
            rs2_val := regfile ((f.instr >>> 20) &&& 0x1f) }).br != BranchKind.NONE) } := by
  unfold decode_stage
  simp only [hsel, h1, h2, Bool.or_self, Bool.false_eq_true, if_false]
  try rfl

theorem decode_switch_nop (instr : Nat) (d : DecodeToExec) :
    (instr &&& 0x7f = 0x33 →
      ¬ ((instr >>> 25) &&& 0x7f = 0x00 ∨
        ((instr >>> 25) &&& 0x7f = 0x20 ∧
          ((instr >>> 12) &&& 0x7 = 0 ∨ (instr >>> 12) &&& 0x7 = 5))) →
      (decode_switch instr d).op = AluOp.NOP ∧ (decode_switch instr d).rd = none) ∧
    (instr &&& 0x7f = 0x13 → (instr >>> 12) &&& 0x7 = 1 → (instr >>> 25) &&& 0x7f ≠ 0x00 →
      (decode_switch instr d).op = AluOp.NOP ∧ (decode_switch instr d).rd = none) := by
  have h3 : (instr >>> 12) &&& 0x7 < 8 := by
    rw [and_7]; exact Nat.mod_lt _ (by norm_num)
  have h7 : (instr >>> 25) &&& 0x7f < 128 := by
    rw [and_127]; exact Nat.mod_lt _ (by norm_num)
  have h77 : ((instr >>> 25) &&& 0x7f) &&& 0x7f = (instr >>> 25) &&& 0x7f := by
    rw [and_127, and_127, Nat.mod_mod]
  unfold decode_switch
  simp only [shl3_or _ _ h3, h77]
  generalize (instr >>> 12) &&& 0x7 = funct3 at *
  generalize (instr >>> 25) &&& 0x7f = funct7 at *
  generalize (instr >>> 7) &&& 0x1f = rd at *
  generalize instr &&& 0x7f = opcode at *
  have e1 : (0 <<< 3 ||| 0 : Nat) = 0 := rfl
  have e2 : (32 <<< 3 ||| 0 : Nat) = 256 := rfl
  have e3 : (0 <<< 3 ||| 7 : Nat) = 7 := rfl
  have e4 : (0 <<< 3 ||| 6 : Nat) = 6 := rfl
  have e5 : (0 <<< 3 ||| 4 : Nat) = 4 := rfl
  have e6 : (0 <<< 3 ||| 1 : Nat) = 1 := rfl
  have e7 : (0 <<< 3 ||| 5 : Nat) = 5 := rfl
  have e8 : (32 <<< 3 ||| 5 : Nat) = 261 := rfl
  have e9 : (0 <<< 3 ||| 2 : Nat) = 2 := rfl
  have e10 : (0 <<< 3 ||| 3 : Nat) = 3 := rfl
  rw [e1, e2, e3, e4, e5, e6, e7, e8, e9, e10]
  refine ⟨fun hop hf => ?_, fun hop hf3 hf7 => ?_⟩
  · subst hop
    have hk : ¬ 8 * funct7 + funct3 = 0 ∧ ¬ 8 * funct7 + funct3 = 256 ∧
        ¬ 8 * funct7 + funct3 = 7 ∧ ¬ 8 * funct7 + funct3 = 6 ∧ ¬ 8 * funct7 + funct3 = 4 ∧
        ¬ 8 * funct7 + funct3 = 1 ∧ ¬ 8 * funct7 + funct3 = 5 ∧ ¬ 8 * funct7 + funct3 = 261 ∧
        ¬ 8 * funct7 + funct3 = 2 ∧ ¬ 8 * funct7 + funct3 = 3 := by omega
    obtain ⟨k0, k1, k2, k3, k4, k5, k6, k7, k8, k9⟩ := hk
    simp [k0, k1, k2, k3, k4, k5, k6, k7, k8, k9]
  · subst hop hf3
    simp [hf7]

theorem decode_switch_shift_right_imm (instr : Nat) (d : DecodeToExec)
    (hop : instr &&& 0x7f = 0x13) (hf3 : (instr >>> 12) &&& 0x7 = 5) :
    (decode_switch instr d).op =
        (if ((instr >>> 25) &&& 0x7f) &&& 0x20 = 0x20 then AluOp.SRA else AluOp.SRL) ∧
      (decode_switch instr d).rd = (set_rd d ((instr >>> 7) &&& 0x1f)).rd ∧
      (decode_switch instr d).imm = some (imm_i instr) := by
  unfold decode_switch
  simp only [hop, hf3]
  simp only [Nat.reduceEqDiff, if_false, if_true]
  split_ifs <;> simp

theorem cycle_fetch (s t : Core) (h : cycle s = some t) :
    fetch_stage s.pc s.imem (decode_of s).stall_request (execute_stage s.id_ex_reg).2 =
      some (t.pc, t.if_id_reg) ∧
    mem_stage s.ex_mem_reg s.dmem = some (t.dmem, t.mem_wb_reg) ∧
    t.regfile = (wb_stage s.mem_wb_reg s.regfile).1 := by
  simp only [cycle] at h
  cases hf : fetch_stage s.pc s.imem (decode_of s).stall_request (execute_stage s.id_ex_reg).2 with
  | none => simp [hf] at h
  | some p =>
    cases hm : mem_stage s.ex_mem_reg s.dmem with
    | none => simp [hf, hm] at h
    | some q =>
      simp only [hf, hm, Option.some.injEq] at h
      rw [← h]
      exact ⟨rfl, rfl, rfl⟩

theorem fetch_stage_stalled (pc : Nat) (imem : IMem) (redirect_pc : Option Nat)
    (r : Nat × Option FetchToDecode) (h : fetch_stage pc imem true redirect_pc = some r) :
    r.2 = none := by
  unfold fetch_stage at h
  cases redirect_pc with
  | some t =>
    simp only [Option.some.injEq] at h
    rw [← h]
  | none =>
    simp only [if_true, Option.some.injEq] at h
    rw [← h]

theorem decode_stage_stall_of_saved (fetch_to_decode_in saved_fetch_to_decode : Option FetchToDecode)
    (hazardManager : DataHazardManager) (wb_finished : Option Nat) (regfile : RegFile) :
    ((decode_stage fetch_to_decode_in saved_fetch_to_decode hazardManager wb_finished
        regfile).saved_fetch_to_decode ≠ none →
      (decode_stage fetch_to_decode_in saved_fetch_to_decode hazardManager wb_finished
        regfile).stall_request = true ∧
      (decode_stage fetch_to_decode_in saved_fetch_to_decode hazardManager wb_finished
        regfile).decode_to_exec = none) ∧
    (∀ d, (decode_stage fetch_to_decode_in saved_fetch_to_decode hazardManager wb_finished
        regfile).decode_to_exec = some d →
      (decode_stage fetch_to_decode_in saved_fetch_to_decode hazardManager wb_finished
        regfile).saved_fetch_to_decode = none ∧
      (decode_stage fetch_to_decode_in saved_fetch_to_decode hazardManager wb_finished
        regfile).stall_request = (d.br != BranchKind.NONE)) := by
  unfold decode_stage
  cases hsel : select_instr fetch_to_decode_in saved_fetch_to_decode with
  | none => simp
  | some f =>
    simp only []
    split_ifs with hl
    · simp
    · simp

theorem execute_stage_redirect_kind (d : DecodeToExec) (t : Nat)
    (h : (execute_stage (some d)).2 = some t) : d.br ≠ BranchKind.NONE := by
  intro hb
  simp [execute_stage, resolve, hb] at h

theorem cycle_fetch_side (s t : Core) (h : cycle s = some t) : FetchSideInv t := by
  obtain ⟨_, _, e3, e4, _, _⟩ := cycle_parts s t h
  obtain ⟨hf, _, _⟩ := cycle_fetch s t h
  obtain ⟨d1, d2⟩ := decode_stage_stall_of_saved s.if_id_reg s.saved_if_id s.hazardManager
    s.wb_finished s.regfile
  refine ⟨fun hs => ?_, fun d hd hb => ?_⟩
  · rw [e3] at hs
    have hst := (d1 hs).1
    unfold decode_of at hf
    rw [hst] at hf
    exact fetch_stage_stalled _ _ _ _ hf
  · rw [e4] at hd
    obtain ⟨hsv, hst⟩ := d2 d hd
    have hst' : (decode_stage s.if_id_reg s.saved_if_id s.hazardManager s.wb_finished
        s.regfile).stall_request = true := by
      rw [hst]
      cases hbr : d.br <;> simp_all
    unfold decode_of at hf
    rw [hst'] at hf
    exact ⟨fetch_stage_stalled _ _ _ _ hf, by rw [e3]; exact hsv⟩

theorem run_fetch_side (imem : IMem) (dmem : DMem) (regfile : RegFile)
    (hazardManager : DataHazardManager) (n : Nat) (s : Core)
    (h : run n (rv32i_5stage imem dmem regfile hazardManager) = some s) : FetchSideInv s := by
  cases n with
  | zero =>
    simp only [run, Option.some.injEq] at h
    rw [← h]
    exact ⟨fun hs => rfl, fun d hd => by simp [rv32i_5stage] at hd⟩
  | succ k =>
    simp only [run] at h
    obtain ⟨u, _, hc⟩ := Option.bind_eq_some.mp h
    exact cycle_fetch_side u s hc

theorem decode_switch_rd_in_range (instr : Nat) (d : DecodeToExec) (hd : d.rd = none) :
    rd_in_range (decode_switch instr d).rd := by
  intro r hr
  rw [decode_switch_rd instr d hd] at hr
  by_cases hwd : decoder_writes_rd instr = true
  · rw [if_pos hwd, Option.some.injEq] at hr
    unfold decoder_writes_rd at hwd
    simp only [decide_eq_true_eq] at hwd
    have hlt : (instr >>> 7) &&& 0x1f < 32 := by
      rw [and_31]; exact Nat.mod_lt _ (by norm_num)
    rw [← hr]
    exact ⟨Nat.pos_of_ne_zero hwd.1, hlt⟩
  · rw [if_neg hwd] at hr
    exact absurd hr (by simp)

theorem decode_stage_rd_in_range (fetch_to_decode_in saved_fetch_to_decode : Option FetchToDecode)
    (hazardManager : DataHazardManager) (wb_finished : Option Nat) (regfile : RegFile)
    (d : DecodeToExec)
    (h : (decode_stage fetch_to_decode_in saved_fetch_to_decode hazardManager wb_finished
      regfile).decode_to_exec = some d) :
    rd_in_range d.rd ∧
    (decode_stage fetch_to_decode_in saved_fetch_to_decode hazardManager wb_finished
        regfile).hazardManager =
      (match d.rd with
        | some r => (release_step hazardManager wb_finished).lock_reg r
        | none => release_step hazardManager wb_finished) := by
  unfold decode_stage at h ⊢
  cases hsel : select_instr fetch_to_decode_in saved_fetch_to_decode with
  | none => simp [hsel] at h
  | some f =>
    simp only [hsel] at h ⊢
    split_ifs at h ⊢ with hl
    simp only [Option.some.injEq] at h
    rw [← h]
    exact ⟨decode_switch_rd_in_range _ _ rfl, rfl⟩

theorem execute_stage_rd (d : DecodeToExec) :
    ∃ e, (execute_stage (some d)).1 = some e ∧ e.rd = d.rd := ⟨_, rfl, rfl⟩

theorem mem_stage_rd (e : ExecToMem) (dmem dmem' : DMem) (m : Option MemToWb)
    (h : mem_stage (some e) dmem = some (dmem', m)) : ∃ w, m = some w ∧ w.rd = e.rd := by
  unfold mem_stage at h
  simp only [] at h
  split_ifs at h <;> simp only [Option.some.injEq, Prod.mk.injEq] at h <;>
    exact ⟨_, h.2.symm, rfl⟩

theorem wb_stage_completion (m : Option MemToWb) (regfile : RegFile) (r : Nat)
    (h : (wb_stage m regfile).2 = some r) : ∃ w, m = some w ∧ w.rd = some r := by
  unfold wb_stage at h
  cases m with
  | none => simp at h
  | some w =>
    obtain ⟨wb_data, rd⟩ := w
    cases rd with
    | none => simp at h
    | some q =>
      by_cases hq : q = 0
      · simp [hq] at h
      · simp [hq] at h
        simp [h]

theorem cycle_indices (s t : Core) (hs : IndicesInRange s) (h : cycle s = some t) :
    IndicesInRange t := by
  obtain ⟨i1, i2, i3, i4⟩ := hs
  obtain ⟨_, e2, _, e4, e5, _⟩ := cycle_parts s t h
  obtain ⟨_, hm, _⟩ := cycle_fetch s t h
  refine ⟨fun d hd => ?_, fun e he => ?_, fun m hmw => ?_, fun r hr => ?_⟩
  · rw [e4] at hd
    exact (decode_stage_rd_in_range _ _ _ _ _ d hd).1
  · rw [e5] at he
    cases hd : s.id_ex_reg with
    | none => rw [hd] at he; simp [execute_stage] at he
    | some d =>
      rw [hd] at he
      obtain ⟨e', he', hrd⟩ := execute_stage_rd d
      rw [he', Option.some.injEq] at he
      rw [← he, hrd]
      exact i1 d hd
  · cases he : s.ex_mem_reg with
    | none =>
      rw [he] at hm
      simp [mem_stage] at hm
      rw [← hm.2] at hmw
      exact absurd hmw (by simp)
    | some e =>
      rw [he] at hm
      obtain ⟨w, hw, hrd⟩ := mem_stage_rd e _ _ _ hm
      rw [hw, Option.some.injEq] at hmw
      rw [← hmw, hrd]
      exact i2 e he
  · rw [e2] at hr
    obtain ⟨w, hw, hrd⟩ := wb_stage_completion _ _ r hr
    exact i3 w hw r hrd

theorem run_indices (imem : IMem) (dmem : DMem) (regfile : RegFile)
    (hazardManager : DataHazardManager) (n : Nat) (s : Core)
    (h : run n (rv32i_5stage imem dmem regfile hazardManager) = some s) : IndicesInRange s := by
  induction n generalizing s with
  | zero =>
    simp only [run, Option.some.injEq] at h
    rw [← h]
    refine ⟨fun d hd => ?_, fun e he => ?_, fun m hm => ?_, fun r hr => ?_⟩ <;>
      simp [rv32i_5stage] at *
  | succ k ih =>
    simp only [run] at h
    obtain ⟨u, hu, hc⟩ := Option.bind_eq_some.mp h
    exact cycle_indices u s (ih u hu) hc

theorem hexByte_lt (p : List Char) (b : Nat) (h : hexByte p = some b) : b < 256 := by
  unfold hexByte at h
  split at h
  · split at h
    · simp only [Option.some.injEq] at h
      rw [← h]
      exact Nat.mod_lt _ (by norm_num)
    · exact absurd h (by simp)
  · exact absurd h (by simp)

theorem read_data_bounds (k : Nat) (p : List Char) (bs : List Nat) (q : List Char)
    (h : read_data k p = some (bs, q)) : bs.length = k ∧ ∀ b ∈ bs, b < 256 := by
  induction k generalizing p bs q with
  | zero =>
    simp only [read_data, Option.some.injEq, Prod.mk.injEq] at h
    rw [← h.1]
    simp
  | succ k ih =>
    simp only [read_data] at h
    cases hb : hexByte p with
    | none => simp [hb] at h
    | some b =>
      cases hr : read_data k (p.drop 2) with
      | none => simp [hb, hr] at h
      | some r =>
        obtain ⟨bs', q'⟩ := r
        simp only [hb, hr, Option.some.injEq, Prod.mk.injEq] at h
        obtain ⟨hl, hlt⟩ := ih _ _ _ hr
        rw [← h.1]
        refine ⟨by simp [hl], ?_⟩
        intro x hx
        simp only [List.mem_cons] at hx
        rcases hx with hx | hx
        · rw [hx]; exact hexByte_lt p b hb
        · exact hlt x hx

theorem read_record_bounds (line : List Char) (r : HexRecord) (h : read_record line = some r) :
    r.byteCount < 256 ∧ r.addrHiLo < 65536 ∧ r.recType < 256 ∧ r.checksum < 256 ∧
      r.data.length = r.byteCount ∧ ∀ b ∈ r.data, b < 256 := by
  unfold read_record at h
  simp only [] at h
  repeat' (first | contradiction | split at h)
  all_goals
    simp only [Option.some.injEq] at h
    subst h
    simp only []
    exact ⟨hexByte_lt _ _ (by assumption), Nat.mod_lt _ (by norm_num),
      hexByte_lt _ _ (by assumption), hexByte_lt _ _ (by assumption),
      (read_data_bounds _ _ _ _ (by assumption)).1, (read_data_bounds _ _ _ _ (by assumption)).2⟩

theorem sum_le_of_bytes (l : List Nat) (h : ∀ b ∈ l, b < 256) : l.sum ≤ 255 * l.length := by
  induction l with
  | nil => simp
  | cons x xs ih =>
    have hx := h x (by simp)
    have hxs := ih (fun b hb => h b (by simp [hb]))
    simp only [List.sum_cons, List.length_cons]
    omega

theorem checksum_sum_eq (line : List Char) (r : HexRecord) (h : read_record line = some r) :
    checksum_sum r = record_byte_sum r % 256 := by
  obtain ⟨h1, h2, h3, h4, h5, h6⟩ := read_record_bounds line r h
  have hs := sum_le_of_bytes r.data h6
  rw [h5] at hs
  unfold checksum_sum record_byte_sum
  rw [and_255, Nat.shiftRight_eq_div_pow, and_255]
  have hlt : r.byteCount + r.addrHiLo / 2 ^ 8 + r.addrHiLo % 256 + r.recType + r.data.sum +
      r.checksum < W32 := by
    have : r.addrHiLo / 2 ^ 8 < 256 := by
      rw [Nat.div_lt_iff_lt_mul (by norm_num)]; omega
    have : r.addrHiLo % 256 < 256 := Nat.mod_lt _ (by norm_num)
    have : 255 * r.byteCount ≤ 255 * 255 := Nat.mul_le_mul_left _ (by omega)
    simp only [W32]
    omega
  rw [Nat.mod_eq_of_lt hlt]
  rfl

theorem testBit_byte_lane (w k i : Nat) :
    (byte_lane w k).testBit i = (decide (i < 8) && w.testBit (8 * k + i)) := by
  unfold byte_lane
  rw [show (256 : Nat) = 2 ^ 8 from rfl, Nat.testBit_mod_two_pow, ← Nat.shiftRight_eq_div_pow,
    Nat.testBit_shiftRight]

theorem byte_lane_store (v b l k : Nat) (hl : l < 4) (hk : k < 4) (hb : b < 256) :
    byte_lane ((v &&& (0xFFFFFFFF ^^^ ((0xFF <<< (l * 8)) % W32))) ||| ((b <<< (l * 8)) % W32)) k =
      if k = l then b else byte_lane v k := by
  apply Nat.eq_of_testBit_eq
  intro i
  have hM : (0xFFFFFFFF : Nat) = 2 ^ 32 - 1 := rfl
  have hF : (0xFF : Nat) = 2 ^ 8 - 1 := rfl
  rw [testBit_byte_lane, hM, hF]
  simp only [W32, Nat.testBit_or, Nat.testBit_and, Nat.testBit_xor, Nat.testBit_mod_two_pow,
    Nat.testBit_shiftLeft, Nat.testBit_two_pow_sub_one]
  by_cases hi : i < 8
  · have h32 : 8 * k + i < 32 := by omega
    by_cases hkl : k = l
    · subst hkl
      have h1 : k * 8 ≤ 8 * k + i := by omega
      have h2 : 8 * k + i - k * 8 = i := by omega
      simp [hi, h32, h1, h2]
    · rw [if_neg hkl, testBit_byte_lane]
      by_cases hge : l * 8 ≤ 8 * k + i
      · have h3 : ¬ (8 * k + i - l * 8 < 8) := by omega
        have h4 : b.testBit (8 * k + i - l * 8) = false := by
          apply Nat.testBit_lt_two_pow
          calc b < 256 := hb
            _ = 2 ^ 8 := rfl
            _ ≤ 2 ^ (8 * k + i - l * 8) := Nat.pow_le_pow_right (by norm_num) (by omega)
        simp [hi, h32, hge, h3, h4]
      · simp [hi, h32, hge]
  · have hbi : b.testBit i = false := by
      apply Nat.testBit_lt_two_pow
      calc b < 256 := hb
        _ = 2 ^ 8 := rfl
        _ ≤ 2 ^ i := Nat.pow_le_pow_right (by norm_num) (by omega)
    by_cases hkl : k = l
    · simp [hi, hkl, hbi]
    · rw [if_neg hkl, testBit_byte_lane]
      simp [hi]

theorem and_3 (x : Nat) : x &&& 3 = x % 4 := Nat.and_pow_two_sub_one_eq_mod x 2

theorem store_bytes_fail (Size addr : Nat) (h4 : 4 * Size < W32) (j : Nat) (bs : List Nat)
    (mem : Nat → Nat) (hj : addr + j ≤ 4 * Size)
    (hex : ∃ i, i < bs.length ∧ 4 * Size ≤ addr + j + i) :
    store_bytes Size addr j bs mem = none := by
  induction bs generalizing j mem with
  | nil =>
    obtain ⟨i, hi, _⟩ := hex
    simp at hi
  | cons b bs ih =>
    obtain ⟨i, hi, hge⟩ := hex
    simp only [store_bytes]
    have ha : (addr + j) % W32 = addr + j := Nat.mod_eq_of_lt (by omega)
    rw [ha, Nat.shiftRight_eq_div_pow]
    by_cases hc : (addr + j) / 2 ^ 2 ≥ Size
    · rw [if_pos hc]
    · rw [if_neg hc]
      have hlt : addr + j < 4 * Size := by
        simp only [ge_iff_le, not_le] at hc
        omega
      apply ih
      · omega
      · refine ⟨i - 1, ?_, ?_⟩
        · simp only [List.length_cons] at hi
          omega
        · omega

theorem store_bytes_out_of_range (Size addr : Nat) (h4 : 4 * Size < W32) (ha : addr < W32)
    (bs : List Nat) (mem : Nat → Nat) (hex : ∃ i, i < bs.length ∧ 4 * Size ≤ addr + i) :
    store_bytes Size addr 0 bs mem = none := by
  by_cases hlt : addr ≤ 4 * Size
  · exact store_bytes_fail Size addr h4 0 bs mem (by omega) (by simpa using hex)
  · cases bs with
    | nil =>
      obtain ⟨i, hi, _⟩ := hex
      simp at hi
    | cons b bs =>
      simp only [store_bytes, Nat.add_zero, Nat.mod_eq_of_lt ha, Nat.shiftRight_eq_div_pow]
      have hc : addr / 2 ^ 2 ≥ Size := by
        simp only [ge_iff_le]
        omega
      rw [if_pos hc]

theorem store_bytes_some (Size addr : Nat) (j : Nat) (bs : List Nat) (mem mem' : Nat → Nat)
    (hw : addr + j + bs.length ≤ W32) (hb : ∀ b ∈ bs, b < 256)
    (h : store_bytes Size addr j bs mem = some mem') (a : Nat) :
    byte_lane (mem' (a / 4)) (a % 4) =
      if addr + j ≤ a ∧ a < addr + j + bs.length then bs.getD (a - (addr + j)) 0
      else byte_lane (mem (a / 4)) (a % 4) := by
  induction bs generalizing j mem with
  | nil =>
    simp only [store_bytes, Option.some.injEq] at h
    rw [← h, if_neg (by simp only [List.length_nil]; omega)]
  | cons b bs ih =>
    simp only [List.length_cons] at hw
    have ha : (addr + j) % W32 = addr + j := Nat.mod_eq_of_lt (by omega)
    simp only [store_bytes, ha, Nat.shiftRight_eq_div_pow, and_3] at h
    split_ifs at h with hc
    have hrec := ih (j + 1) _ (by omega) (fun x hx => hb x (by simp [hx])) h
    rw [hrec]
    have hbl := hb b (by simp)
    by_cases hin : addr + (j + 1) ≤ a ∧ a < addr + (j + 1) + bs.length
    · rw [if_pos hin, if_pos (by simp only [List.length_cons]; omega)]
      have : a - (addr + j) = (a - (addr + (j + 1))) + 1 := by omega
      rw [this, List.getD_cons_succ]
    · rw [if_neg hin]
      by_cases ha0 : a = addr + j
      · subst ha0
        rw [if_pos (by simp only [List.length_cons]; omega)]
        simp only [Nat.sub_self, List.getD_cons_zero]
        have e2 : (addr + j) / 2 ^ 2 = (addr + j) / 4 := rfl
        rw [e2, Function.update_same]
        rw [byte_lane_store _ _ _ _ (Nat.mod_lt _ (by norm_num)) (Nat.mod_lt _ (by norm_num)) hbl]
        simp
      · rw [if_neg (by simp only [List.length_cons]; omega)]
        have e2 : (addr + j) / 2 ^ 2 = (addr + j) / 4 := rfl
        rw [e2]
        by_cases hw4 : a / 4 = (addr + j) / 4
        · rw [hw4, Function.update_same]
          rw [byte_lane_store _ _ _ _ (Nat.mod_lt _ (by norm_num)) (Nat.mod_lt _ (by norm_num))
            hbl]
          rw [if_neg (by omega)]
        · rw [Function.update_noteq hw4]

theorem upper_base (d0 d1 : Nat) (h0 : d0 < 256) (h1 : d1 < 256) :
    ((((d0 <<< 8) ||| d1) % 65536) <<< 4) % W32 = (d0 * 256 + d1) * 16 ∧
    ((((d0 <<< 8) ||| d1) % 65536) <<< 16) % W32 = (d0 * 256 + d1) * 65536 := by
  have e : (d0 <<< 8) ||| d1 = d0 * 256 + d1 := by
    rw [Nat.lor_comm, or_shl_eq_add d0 d1 8 (by simpa using h1)]
    norm_num
  rw [e, Nat.shiftLeft_eq, Nat.shiftLeft_eq]
  have : d0 * 256 + d1 < 65536 := by omega
  rw [Nat.mod_eq_of_lt this]
  simp only [W32]
  constructor <;> omega

theorem store_bytes_in_range (Size addr : Nat) (h4 : 4 * Size < W32) (ha : addr < W32)
    (bs : List Nat) (mem mem' : Nat → Nat) (h : store_bytes Size addr 0 bs mem = some mem') :
    ∀ i, i < bs.length → addr + i < 4 * Size := by
  intro i hi
  by_contra hc
  rw [store_bytes_out_of_range Size addr h4 ha bs mem ⟨i, hi, by omega⟩] at h
  exact absurd h (by simp)

theorem apply_record_some (Size : Nat) (h4 : 4 * Size < W32) (r : HexRecord) (s s' : HexState)
    (hb : s.base ≤ 0xFFFF0000) (ha : r.addrHiLo < 65536) (hl : r.data.length = r.byteCount)
    (hd : ∀ b ∈ r.data, b < 256) (h : apply_record Size r s = some s') :
    s'.base = next_base s.base r ∧ s'.base ≤ 0xFFFF0000 ∧
    s'.saw_eof = (s.saw_eof || decide (r.recType = 1)) ∧
    (r.recType = 0 → ∀ i, i < r.data.length → s.base + r.addrHiLo + i < 4 * Size) ∧
    ∀ a, byte_lane (s'.mem (a / 4)) (a % 4) =
      if r.recType = 0 ∧ s.base + r.addrHiLo ≤ a ∧ a < s.base + r.addrHiLo + r.data.length then
        r.data.getD (a - (s.base + r.addrHiLo)) 0
      else byte_lane (s.mem (a / 4)) (a % 4) := by
  unfold apply_record at h
  by_cases t0 : r.recType = 0
  · simp only [t0, if_true] at h
    have hlt : s.base + r.addrHiLo < W32 := by simp only [W32]; omega
    rw [Nat.mod_eq_of_lt hlt] at h
    cases hs : store_bytes Size (s.base + r.addrHiLo) 0 r.data s.mem with
    | none => simp [hs] at h
    | some mem =>
      simp only [hs, Option.some.injEq] at h
      have hin := store_bytes_in_range Size _ h4 hlt r.data s.mem mem hs
      have hw : s.base + r.addrHiLo + 0 + r.data.length ≤ W32 := by
        cases hdl : r.data.length with
        | zero => omega
        | succ k =>
          have := hin k (by omega)
          omega
      have hbytes := store_bytes_some Size _ 0 r.data s.mem mem hw hd hs
      rw [← h]
      refine ⟨by simp [next_base, t0], hb, by simp [t0], fun _ => hin, fun a => ?_⟩
      have := hbytes a
      simp only [Nat.add_zero] at this
      simp only [this, t0, true_and]
  · simp only [t0, if_false] at h
    by_cases t1 : r.recType = 1
    · simp only [t1, if_true, Option.some.injEq] at h
      rw [← h]
      refine ⟨by simp [next_base, t1], hb, by simp [t1], fun h0 => absurd h0 t0, fun a => ?_⟩
      simp [t0]
    · simp only [t1, if_false] at h
      by_cases t2 : r.recType = 2
      · simp only [t2, if_true] at h
        split_ifs at h with hc
        simp only [ne_eq, Decidable.not_not] at hc
        simp only [Option.some.injEq] at h
        rw [hc] at hl
        obtain ⟨d0, d1, hdd⟩ : ∃ d0 d1, r.data = [d0, d1] := by
          match hr : r.data, hl with
          | [x, y], _ => exact ⟨x, y, rfl⟩
        have h0 := hd d0 (by simp [hdd])
        have h1 := hd d1 (by simp [hdd])
        obtain ⟨e1, _⟩ := upper_base d0 d1 h0 h1
        rw [← h]
        simp only [hdd, List.getD_cons_zero, List.getD_cons_succ, e1]
        refine ⟨by simp [next_base, t2, hdd], by omega, by simp [t1],
          fun h0 => absurd h0 t0, fun a => ?_⟩
        simp [t0]
      · simp only [t2, if_false] at h
        by_cases t4 : r.recType = 4
        · simp only [t4, if_true] at h
          split_ifs at h with hc
          simp only [ne_eq, Decidable.not_not] at hc
          simp only [Option.some.injEq] at h
          rw [hc] at hl
          obtain ⟨d0, d1, hdd⟩ : ∃ d0 d1, r.data = [d0, d1] := by
            match hr : r.data, hl with
            | [x, y], _ => exact ⟨x, y, rfl⟩
          have h0 := hd d0 (by simp [hdd])
          have h1 := hd d1 (by simp [hdd])
          obtain ⟨_, e2⟩ := upper_base d0 d1 h0 h1
          rw [← h]
          simp only [hdd, List.getD_cons_zero, List.getD_cons_succ, e2]
          refine ⟨by simp [next_base, t4, hdd], by omega, by simp [t1],
            fun h0 => absurd h0 t0, fun a => ?_⟩
          simp [t0]
        · simp only [t4, if_false] at h
          split_ifs at h with hc
          simp only [Option.some.injEq] at h
          rw [← h]
          refine ⟨by simp [next_base, t2, t4], hb, by simp [t1], fun h0 => absurd h0 t0,
            fun a => ?_⟩
          simp [t0]

theorem records_cons (l : List Char) (ls : List (List Char)) :
    records (l :: ls) =
      match read_record (strip_line l) with
      | some r => r :: records ls
      | none => records ls := by
  unfold records
  cases h : read_record (strip_line l) with
  | none => simp [List.filterMap_cons, h]
  | some r => simp [List.filterMap_cons, h]

theorem load_line_some (Size : Nat) (h4 : 4 * Size < W32) (l : List Char) (s s' : HexState)
    (hb : s.base ≤ 0xFFFF0000) (h : load_line Size l s = some s') :
    ∃ r, read_record l = some r ∧ record_byte_sum r % 256 = 0 ∧
      s'.base = next_base s.base r ∧ s'.base ≤ 0xFFFF0000 ∧
      s'.saw_eof = (s.saw_eof || decide (r.recType = 1)) ∧
      (r.recType = 0 → ∀ i, i < r.data.length → s.base + r.addrHiLo + i < 4 * Size) ∧
      ∀ a, byte_lane (s'.mem (a / 4)) (a % 4) =
        if r.recType = 0 ∧ s.base + r.addrHiLo ≤ a ∧
            a < s.base + r.addrHiLo + r.data.length then
          r.data.getD (a - (s.base + r.addrHiLo)) 0
        else byte_lane (s.mem (a / 4)) (a % 4) := by
  unfold load_line at h
  cases hr : read_record l with
  | none => simp [hr] at h
  | some r =>
    simp only [hr] at h
    split_ifs at h with hc
    simp only [ne_eq, Decidable.not_not] at hc
    obtain ⟨_, b2, _, _, b5, b6⟩ := read_record_bounds l r hr
    rw [checksum_sum_eq l r hr] at hc
    exact ⟨r, rfl, hc, apply_record_some Size h4 r s s' hb b2 b5 b6 h⟩

theorem decoder_writes_rd_eq (instr : Nat) :
    decoder_writes_rd instr =
      (writes_destination instr ||
        decide ((instr >>> 7) &&& 0x1f ≠ 0 ∧ instr &&& 0x7f = 0x13 ∧
          (instr >>> 12) &&& 0x7 = 5 ∧ (instr >>> 25) &&& 0x7f ≠ 0x00 ∧
          (instr >>> 25) &&& 0x7f ≠ 0x20)) := by
  unfold decoder_writes_rd writes_destination
  simp only []
  generalize (instr >>> 12) &&& 0x7 = funct3
  generalize (instr >>> 25) &&& 0x7f = funct7
  generalize (instr >>> 7) &&& 0x1f = rd
  generalize instr &&& 0x7f = opcode
  rw [← Bool.decide_or]
  apply decide_eq_decide.mpr
  constructor
  · rintro ⟨hr, h | h | h⟩
    · exact Or.inl ⟨hr, Or.inl h⟩
    · by_cases h5 : funct3 = 5
      · by_cases h7 : funct7 = 0 ∨ funct7 = 32
        · exact Or.inl ⟨hr, Or.inr (Or.inl ⟨h.1, h.2, fun _ => h7⟩)⟩
        · simp only [not_or] at h7
          exact Or.inr ⟨hr, h.1, h5, h7.1, h7.2⟩
      · exact Or.inl ⟨hr, Or.inr (Or.inl ⟨h.1, h.2, fun h' => absurd h' h5⟩)⟩
    · exact Or.inl ⟨hr, Or.inr (Or.inr h)⟩
  · rintro (⟨hr, h | h | h⟩ | ⟨hr, ho, h5, _, _⟩)
    · exact ⟨hr, Or.inl h⟩
    · exact ⟨hr, Or.inr (Or.inl ⟨h.1, h.2.1⟩)⟩
    · exact ⟨hr, Or.inr (Or.inr h)⟩
    · exact ⟨hr, Or.inr (Or.inl ⟨ho, fun h1 => by omega⟩)⟩

theorem placed_in_none (start : Nat) (bs : List Nat) (a : Nat)
    (h : ∀ p, p < bs.length → (start + p) % 2 ^ 32 ≠ a) : placed_in start bs a = none := by
  induction bs generalizing start with
  | nil => rfl
  | cons b bs ih =>
    simp only [placed_in]
    have h0 := h 0 (by simp)
    rw [Nat.add_zero] at h0
    rw [if_neg h0]
    apply ih
    intro p hp
    have := h (p + 1) (by simp only [List.length_cons]; omega)
    rw [show start + 1 + p = start + (p + 1) by omega]
    exact this

theorem store_bytes_image (Size addr : Nat) (j : Nat) (bs : List Nat) (mem mem' : Nat → Nat)
    (hlen : bs.length ≤ 2 ^ 32) (hb : ∀ b ∈ bs, b < 256)
    (h : store_bytes Size addr j bs mem = some mem') (a : Nat) :
    byte_lane (mem' (a / 4)) (a % 4) =
      (placed_in (addr + j) bs a).getD (byte_lane (mem (a / 4)) (a % 4)) := by
  induction bs generalizing j mem with
  | nil =>
    simp only [store_bytes, Option.some.injEq] at h
    rw [← h]
    rfl
  | cons b bs ih =>
    simp only [List.length_cons] at hlen
    simp only [store_bytes, Nat.shiftRight_eq_div_pow, and_3] at h
    split_ifs at h with hc
    have hrec := ih (j + 1) _ (by omega) (fun x hx => hb x (by simp [hx])) h
    have hbl := hb b (by simp)
    have e2 : (addr + j) % W32 / 2 ^ 2 = (addr + j) % W32 / 4 := rfl
    rw [hrec, e2]
    simp only [placed_in]
    have hW : (addr + j) % 2 ^ 32 = (addr + j) % W32 := rfl
    rw [hW]
    by_cases ha0 : (addr + j) % W32 = a
    · rw [if_pos ha0]
      have hnone : placed_in (addr + (j + 1)) bs a = none := by
        apply placed_in_none
        intro p hp
        rw [← ha0]
        simp only [W32]
        omega
      rw [hnone, ha0, Function.update_same]
      simp only [Option.getD_none, Option.getD_some]
      rw [byte_lane_store _ _ _ _ (Nat.mod_lt _ (by norm_num)) (Nat.mod_lt _ (by norm_num)) hbl]
      simp
    · rw [if_neg ha0, show addr + j + 1 = addr + (j + 1) by omega]
      congr 1
      by_cases hw4 : a / 4 = (addr + j) % W32 / 4
      · rw [hw4, Function.update_same]
        rw [byte_lane_store _ _ _ _ (Nat.mod_lt _ (by norm_num)) (Nat.mod_lt _ (by norm_num))
          hbl]
        rw [if_neg (by omega)]
      · rw [Function.update_noteq hw4]

theorem apply_record_image (Size : Nat) (r : HexRecord) (s s' : HexState)
    (hb : s.base ≤ 0xFFFF0000) (ha : r.addrHiLo < 65536) (hl : r.data.length = r.byteCount)
    (hc : r.byteCount < 256) (hd : ∀ b ∈ r.data, b < 256)
    (h : apply_record Size r s = some s') :
    s'.base = next_base s.base r ∧ s'.base ≤ 0xFFFF0000 ∧
    s'.saw_eof = (s.saw_eof || decide (r.recType = 1)) ∧
    ∀ a, byte_lane (s'.mem (a / 4)) (a % 4) =
      (if r.recType = 0 then placed_in (s.base + r.addrHiLo) r.data a else none).getD
        (byte_lane (s.mem (a / 4)) (a % 4)) := by
  unfold apply_record at h
  by_cases t0 : r.recType = 0
  · simp only [t0, if_true] at h
    have hlt : s.base + r.addrHiLo < W32 := by simp only [W32]; omega
    rw [Nat.mod_eq_of_lt hlt] at h
    cases hs : store_bytes Size (s.base + r.addrHiLo) 0 r.data s.mem with
    | none => simp [hs] at h
    | some mem =>
      simp only [hs, Option.some.injEq] at h
      have hbytes := store_bytes_image Size _ 0 r.data s.mem mem (by omega) hd hs
      rw [← h]
      refine ⟨by simp [next_base, t0], hb, by simp [t0], fun a => ?_⟩
      have := hbytes a
      simp only [Nat.add_zero] at this
      simp only [this, t0, if_true]
  · simp only [t0, if_false] at h
    by_cases t1 : r.recType = 1
    · simp only [t1, if_true, Option.some.injEq] at h
      rw [← h]
      exact ⟨by simp [next_base, t1], hb, by simp [t1], fun a => by simp [t1]⟩
    · simp only [t1, if_false] at h
      by_cases t2 : r.recType = 2
      · simp only [t2, if_true] at h
        split_ifs at h with hc2
        simp only [ne_eq, Decidable.not_not] at hc2
        simp only [Option.some.injEq] at h
        rw [hc2] at hl
        obtain ⟨d0, d1, hdd⟩ : ∃ d0 d1, r.data = [d0, d1] := by
          match hr : r.data, hl with
          | [x, y], _ => exact ⟨x, y, rfl⟩
        have h0 := hd d0 (by simp [hdd])
        have h1 := hd d1 (by simp [hdd])
        obtain ⟨e1, _⟩ := upper_base d0 d1 h0 h1
        rw [← h]
        simp only [hdd, List.getD_cons_zero, List.getD_cons_succ, e1]
        exact ⟨by simp [next_base, t2, hdd], by omega, by simp [t1], fun a => by simp [t2]⟩
      · simp only [t2, if_false] at h
        by_cases t4 : r.recType = 4
        · simp only [t4, if_true] at h
          split_ifs at h with hc2
          simp only [ne_eq, Decidable.not_not] at hc2
          simp only [Option.some.injEq] at h
          rw [hc2] at hl
          obtain ⟨d0, d1, hdd⟩ : ∃ d0 d1, r.data = [d0, d1] := by
            match hr : r.data, hl with
            | [x, y], _ => exact ⟨x, y, rfl⟩
          have h0 := hd d0 (by simp [hdd])
          have h1 := hd d1 (by simp [hdd])
          obtain ⟨_, e2⟩ := upper_base d0 d1 h0 h1
          rw [← h]
          simp only [hdd, List.getD_cons_zero, List.getD_cons_succ, e2]
          exact ⟨by simp [next_base, t4, hdd], by omega, by simp [t1], fun a => by simp [t4]⟩
        · simp only [t4, if_false] at h
          split_ifs at h with hc2
          simp only [Option.some.injEq] at h
          rw [← h]
          exact ⟨by simp [next_base, t2, t4], hb, by simp [t1], fun a => by simp [t0]⟩

theorem load_line_image (Size : Nat) (l : List Char) (s s' : HexState)
    (hb : s.base ≤ 0xFFFF0000) (h : load_line Size l s = some s') :
    ∃ r, read_record l = some r ∧
      s'.base = next_base s.base r ∧ s'.base ≤ 0xFFFF0000 ∧
      s'.saw_eof = (s.saw_eof || decide (r.recType = 1)) ∧
      ∀ a, byte_lane (s'.mem (a / 4)) (a % 4) =
        (if r.recType = 0 then placed_in (s.base + r.addrHiLo) r.data a else none).getD
          (byte_lane (s.mem (a / 4)) (a % 4)) := by
  unfold load_line at h
  cases hr : read_record l with
  | none => simp [hr] at h
  | some r =>
    simp only [hr] at h
    split_ifs at h with hc
    obtain ⟨b1, b2, _, _, b5, b6⟩ := read_record_bounds l r hr
    exact ⟨r, rfl, apply_record_image Size r s s' hb b2 b5 b1 b6 h⟩

theorem load_loop_image (Size : Nat) (lines : List (List Char))
    (s t : HexState) (hb : s.base ≤ 0xFFFF0000) (he : s.saw_eof = false)
    (h : load_loop Size lines s = some t) (ht : t.saw_eof = true) (a : Nat) :
    byte_lane (t.mem (a / 4)) (a % 4) =
      (placed_byte (records lines) s.base a).getD (byte_lane (s.mem (a / 4)) (a % 4)) := by
  induction lines generalizing s with
  | nil =>
    simp only [load_loop, Option.some.injEq] at h
    rw [← h, he] at ht
    exact absurd ht (by simp)
  | cons l ls ih =>
    simp only [load_loop] at h
    rw [records_cons]
    by_cases hl : strip_line l = []
    · rw [if_pos hl] at h
      have : read_record (strip_line l) = none := by rw [hl]; rfl
      rw [this]
      exact ih s hb he h
    · rw [if_neg hl] at h
      cases hs : load_line Size (strip_line l) s with
      | none => simp [hs] at h
      | some s' =>
        simp only [hs] at h
        obtain ⟨r, hr, e1, e2, e3, e5⟩ := load_line_image Size _ s s' hb hs
        rw [hr]
        simp only [he, Bool.false_or] at e3
        by_cases t1 : r.recType = 1
        · have hse : s'.saw_eof = true := by rw [e3]; simp [t1]
          simp only [hse, if_true, Option.some.injEq] at h
          rw [← h, e5 a]
          simp [placed_byte, t1]
        · have hse : s'.saw_eof = false := by rw [e3]; simp [t1]
          simp only [hse, Bool.false_eq_true, if_false] at h
          have hrec := ih s' e2 hse h
          rw [hrec, e1, e5 a]
          simp only [placed_byte, t1, if_false]
          cases hp : placed_byte (records ls) (next_base s.base r) a with
          | some b => simp
          | none => simp

theorem load_loop_reject (Size : Nat) (h4 : 4 * Size < W32) (pre post : List (List Char))
    (line : List Char) (r : HexRecord) (s : HexState) (hb : s.base ≤ 0xFFFF0000)
    (he : s.saw_eof = false)
    (hpre : ∀ l ∈ pre, ∀ q, read_record (strip_line l) = some q → q.recType ≠ 1)
    (hr : read_record (strip_line line) = some r)
    (hbad : record_byte_sum r % 256 ≠ 0 ∨
      (r.recType = 0 ∧ ∃ i, i < r.data.length ∧
        4 * Size ≤ active_base (records pre) s.base + r.addrHiLo + i)) :
    load_loop Size (pre ++ line :: post) s = none := by
  induction pre generalizing s with
  | nil =>
    simp only [List.nil_append, load_loop]
    have hl : strip_line line ≠ [] := by
      intro hl
      rw [hl] at hr
      exact absurd hr (by simp [read_record])
    rw [if_neg hl]
    cases hs : load_line Size (strip_line line) s with
    | none => rfl
    | some s' =>
      exfalso
      obtain ⟨r', hr', c1, _, _, _, c5, _⟩ := load_line_some Size h4 _ s s' hb hs
      rw [hr, Option.some.injEq] at hr'
      subst hr'
      rcases hbad with hbad | ⟨t0, i, hi, hge⟩
      · exact hbad c1
      · have := c5 t0 i hi
        simp only [records, List.filterMap_nil, active_base] at hge
        omega
  | cons l ls ih =>
    simp only [List.cons_append, load_loop]
    have hpre' : ∀ l ∈ ls, ∀ q, read_record (strip_line l) = some q → q.recType ≠ 1 :=
      fun x hx => hpre x (by simp [hx])
    rw [records_cons] at hbad
    by_cases hl : strip_line l = []
    · rw [if_pos hl]
      have hn : read_record (strip_line l) = none := by rw [hl]; rfl
      rw [hn] at hbad
      exact ih s hb he hpre' hbad
    · rw [if_neg hl]
      cases hs : load_line Size (strip_line l) s with
      | none => rfl
      | some s' =>
        obtain ⟨q, hq, _, e1, e2, e3, _, _⟩ := load_line_some Size h4 _ s s' hb hs
        have t1 : q.recType ≠ 1 := hpre l (by simp) q hq
        have hse : s'.saw_eof = false := by rw [e3, he]; simp [t1]
        simp only [hse, Bool.false_eq_true, if_false]
        rw [hq] at hbad
        simp only [active_base] at hbad
        rw [← e1] at hbad
        exact ih s' e2 hse hpre' hbad

theorem load_loop_no_eof (Size : Nat) (lines : List (List Char)) (s t : HexState)
    (he : s.saw_eof = false)
    (hno : ∀ l ∈ lines, ∀ q, read_record (strip_line l) = some q → q.recType ≠ 1)
    (h : load_loop Size lines s = some t) : t.saw_eof = false := by
  induction lines generalizing s with
  | nil =>
    simp only [load_loop, Option.some.injEq] at h
    rw [← h]; exact he
  | cons l ls ih =>
    simp only [load_loop] at h
    have hno' : ∀ l ∈ ls, ∀ q, read_record (strip_line l) = some q → q.recType ≠ 1 :=
      fun x hx => hno x (by simp [hx])
    by_cases hl : strip_line l = []
    · rw [if_pos hl] at h
      exact ih s he hno' h
    · rw [if_neg hl] at h
      cases hs : load_line Size (strip_line l) s with
      | none => simp [hs] at h
      | some s' =>
        simp only [hs] at h
        have hse : s'.saw_eof = false := by
          unfold load_line at hs
          cases hr : read_record (strip_line l) with
          | none => simp [hr] at hs
          | some r =>
            simp only [hr] at hs
            split_ifs at hs with hc
            have t1 := hno l (by simp) r hr
            unfold apply_record at hs
            split_ifs at hs <;> first
              | contradiction
              | (simp only [Option.some.injEq] at hs; rw [← hs]; exact he)
              | (split at hs
                 · contradiction
                 · simp only [Option.some.injEq] at hs; rw [← hs]; exact he)
        simp only [hse, Bool.false_eq_true, if_false] at h
        exact ih s' hse hno' h

theorem load_hex_some (Size : Nat) (text : List Char) (mem : Nat → Nat)
    (h : load_hex Size text = some mem) :
    ∃ t, load_loop Size (getlines text) { mem := fun _ => 0, base := 0, saw_eof := false } =
        some t ∧ t.saw_eof = true ∧ t.mem = mem := by
  unfold load_hex at h
  cases hl : load_loop Size (getlines text) { mem := fun _ => 0, base := 0, saw_eof := false } with
  | none => simp [hl] at h
  | some t =>
    simp only [hl] at h
    split_ifs at h with hc
    simp only [Option.some.injEq] at h
    exact ⟨t, rfl, hc, h⟩

/-! ## The claims -/

/-- C1 (code bug): hazard exclusion fails.  After five cycles of `hazard_core`
decode selects `ADD x3,x1,x1` (source index 1) while `ADDI x1,x0,9` sits in the
execute-to-memory register and `ADDI x1,x0,7` in the memory-to-writeback
register, both with destination 1 and not retired; decode still issues the
instruction with the stale operand 5 and does not stall.  Register 3 ends
with 10, register 1 with 9. -/
theorem hazard_exclusion_violated :
    (run 5 hazard_core).map (fun s => select_instr s.if_id_reg s.saved_if_id) =
      some (some { instr := 0x001081B3, pc := 12 }) ∧
    (0x001081B3 >>> 15) &&& 0x1f = 1 ∧
    (run 5 hazard_core).map (fun s => s.ex_mem_reg.bind (fun e => e.rd)) = some (some 1) ∧
    (run 5 hazard_core).map (fun s => s.mem_wb_reg.bind (fun m => m.rd)) = some (some 1) ∧
    (run 5 hazard_core).map (fun s => (decode_of s).stall_request) = some false ∧
    (run 5 hazard_core).map (fun s => (decode_of s).decode_to_exec.map (fun d => d.rs1_val)) =
      some (some 5) ∧
    (run 10 hazard_core).map (fun s => (s.regfile 1, s.regfile 3)) = some (9, 10) :=
  ⟨rfl, rfl, rfl, rfl, rfl, rfl, rfl⟩

/-- C2 (code bug): the scoreboard invariant fails in a reachable state.  After
seven cycles of `waw_core` (two writes of `x1` in a row) bit 1 of the scoreboard
is set although no payload in the pipeline and no pending completion names
register 1; the bit is still set after ten cycles. -/
theorem scoreboard_invariant_violated :
    (run 7 waw_core).map (fun s => (s.hazardManager.is_locked 1, in_flight s 1)) =
      some (true, false) ∧
    (run 6 waw_core).map (fun s => (s.hazardManager.is_locked 1, in_flight s 1)) =
      some (false, true) ∧
    (run 10 waw_core).map (fun s => (s.hazardManager.is_locked 1, in_flight s 1)) =
      some (true, false) :=
  ⟨rfl, rfl, rfl⟩

/-- C3 (register-0 invariant): after any number of cycles from the state built
by `rv32i_5stage`, for every instruction memory, data memory, register file and
scoreboard, register-file word 0 is the initial one; and `wb_stage` leaves word
0 unchanged for every input payload. -/
theorem register0_invariant (imem : IMem) (dmem : DMem) (regfile : RegFile)
    (hazardManager : DataHazardManager) (n : Nat) (s : Core)
    (h : run n (rv32i_5stage imem dmem regfile hazardManager) = some s) :
    s.regfile 0 = regfile 0 ∧
      ∀ (mem_to_wb : Option MemToWb) (rf : RegFile), (wb_stage mem_to_wb rf).1 0 = rf 0 :=
  ⟨run_regfile0 n _ s h, wb_stage_reg0⟩

/-- Witness for `register0_invariant`: six cycles of scenario 1, two registers
already written. -/
theorem register0_invariant_witness :
    run 6 (rv32i_5stage scenario1_imem (fun _ => 0) (fun _ => 0) { scoreboard := 0 }) =
        some { pc := 12, imem := scenario1_imem, dmem := fun _ => 0,
               regfile := Function.update (Function.update (fun _ => 0) 1 5) 2 7,
               if_id_reg := none, saved_if_id := some { instr := 0x002081B3, pc := 8 },
               hazardManager := { scoreboard := 4 }, id_ex_reg := none, ex_mem_reg := none,
               mem_wb_reg := none, wb_finished := some 2 } ∧
      ((Function.update (Function.update (fun _ => 0) 1 5) 2 7 : RegFile) 0 = 0 ∧
        ∀ (mem_to_wb : Option MemToWb) (rf : RegFile), (wb_stage mem_to_wb rf).1 0 = rf 0) :=
  ⟨rfl, register0_invariant scenario1_imem (fun _ => 0) (fun _ => 0) { scoreboard := 0 } 6 _ rfl⟩

/-- C4 (redirect dominance): with a redirect target `t` on the wire,
`fetch_stage` succeeds for every `pc` (also one out of bounds) and both stall
values, sets the program counter to `t`, emits a bubble, and its result does
not depend on the instruction memory. -/
theorem fetch_redirect_dominance (pc : Nat) (imem imem' : IMem) (stall_if : Bool) (t : Nat) :
    fetch_stage pc imem stall_if (some t) = some (t, none) ∧
      fetch_stage pc imem stall_if (some t) = fetch_stage pc imem' stall_if (some t) :=
  ⟨rfl, rfl⟩

/-- C5 (scenario 1): from the reset state with `regfile[0] = 0`, any other
register contents and any data memory, the program
`ADDI x1,x0,5; ADDI x2,x0,7; ADD x3,x1,x2` followed by zero words leaves 5, 7
and 12 in registers 1, 2 and 3 after 10 cycles; the run continues and the three
values stay in every state up to cycle 259; the fetch of cycle 259 (program
counter 1024) aborts the run, which has no state from 260 cycles on. -/
theorem scenario1_end_to_end (dmem : DMem) (regfile : RegFile) (h0 : regfile 0 = 0) :
    (∀ n, 10 ≤ n → n ≤ 259 →
      ∃ s, run n (rv32i_5stage scenario1_imem dmem regfile { scoreboard := 0 }) = some s ∧
        s.regfile 1 = 5 ∧ s.regfile 2 = 7 ∧ s.regfile 3 = 12) ∧
    ∀ n, 260 ≤ n → run n (rv32i_5stage scenario1_imem dmem regfile { scoreboard := 0 }) = none := by
  obtain ⟨s11, h11, hidle, hpc, him, hr1, hr2, hr3⟩ := scenario1_run11 dmem regfile h0
  have hz : ∀ i, s11.pc / 4 ≤ i → s11.imem i = 0 := by
    intro i hi
    rw [hpc] at hi
    have h8 : 8 ≤ i := hi
    have e0 : i ≠ 0 := by omega
    have e1 : i ≠ 1 := by omega
    have e2 : i ≠ 2 := by omega
    simp [him, scenario1_imem, e0, e1, e2]
  constructor
  · intro n hlo hhi
    rcases Nat.eq_or_lt_of_le hlo with h10 | hgt
    · subst h10
      exact ⟨_, scenario1_run10 dmem regfile h0, by simp [Function.update]⟩
    · obtain ⟨k, rfl⟩ := Nat.exists_eq_add_of_le (show 11 ≤ n from hgt)
      obtain ⟨t, ht, _, _, _, _, hr, _⟩ := idle_run k s11 hidle (by omega) hz
      refine ⟨t, ?_, ?_⟩
      · rw [run_add, h11, Option.some_bind]
        exact ht
      · rw [hr]
        exact ⟨hr1, hr2, hr3⟩
  · obtain ⟨t, ht, hIt, hp, _⟩ := idle_run 248 s11 hidle (by omega) hz
    have h259 : run 259 (rv32i_5stage scenario1_imem dmem regfile { scoreboard := 0 }) =
        some t := by
      rw [show (259 : Nat) = 11 + 248 from rfl, run_add, h11, Option.some_bind]
      exact ht
    intro n hn
    apply run_none_of_le 260 n _ hn
    rw [show (260 : Nat) = 259 + 1 from rfl, run, h259, Option.some_bind]
    exact idle_abort t hIt (by omega)

/-- Witness for `scenario1_end_to_end`: all registers and data memory zero. -/
theorem scenario1_end_to_end_witness :
    (fun _ => 0 : RegFile) 0 = 0 ∧
    ((∀ n, 10 ≤ n → n ≤ 259 →
      ∃ s, run n (rv32i_5stage scenario1_imem (fun _ => 0) (fun _ => 0) { scoreboard := 0 }) =
          some s ∧ s.regfile 1 = 5 ∧ s.regfile 2 = 7 ∧ s.regfile 3 = 12) ∧
    ∀ n, 260 ≤ n →
      run n (rv32i_5stage scenario1_imem (fun _ => 0) (fun _ => 0) { scoreboard := 0 }) = none) :=
  ⟨rfl, scenario1_end_to_end (fun _ => 0) (fun _ => 0) rfl⟩

/-- C6, counterexample: with `BEQ x0,x0,+8` at word 0 and `JAL x0,-4` at word 2
the instruction at address 4 does reach decode: after seven cycles it is the
instruction decode selects, and decode issues it. -/
theorem scenario2_address4_reaches_decode :
    scenario2_back_imem 0 = 0x00000463 ∧
    (run 7 (rv32i_5stage scenario2_back_imem (fun _ => 0) (fun _ => 0)
      { scoreboard := 0 })).map (fun s => select_instr s.if_id_reg s.saved_if_id) =
      some (some { instr := 0x00000013, pc := 4 }) ∧
    (run 7 (rv32i_5stage scenario2_back_imem (fun _ => 0) (fun _ => 0)
      { scoreboard := 0 })).map (fun s => (decode_of s).decode_to_exec.map (fun d => d.pc)) =
      some (some 4) :=
  ⟨rfl, rfl, rfl⟩

/-- C6 as amended (scenario 2): from the reset state with `regfile[0] = 0` and
`BEQ x0,x0,+8` at instruction word 0 (every other word, register and data word
arbitrary) the first four cycles succeed.  Decode selects nothing in cycle 0,
the branch in cycle 1, nothing in cycles 2 and 3, and the word at address 8 in
cycle 4, so the instruction at address 4 is not selected up to there.  The
stall wire is true in cycle 1 only among cycles 0 to 2.  In cycle 2 the branch
occupies execute and the redirect wire carries 8; the program counter committed
at the end of cycle 2 is 8.  When every instruction word after the branch is
zero, decode selects the instruction at address 4 in no cycle of the run. -/
theorem scenario2_redirect (imem : IMem) (dmem : DMem) (regfile : RegFile)
    (hbeq : imem 0 = 0x00000463) (h0 : regfile 0 = 0) :
    (∃ s1 s2 s3 s4,
      run 1 (rv32i_5stage imem dmem regfile { scoreboard := 0 }) = some s1 ∧
      run 2 (rv32i_5stage imem dmem regfile { scoreboard := 0 }) = some s2 ∧
      run 3 (rv32i_5stage imem dmem regfile { scoreboard := 0 }) = some s3 ∧
      run 4 (rv32i_5stage imem dmem regfile { scoreboard := 0 }) = some s4 ∧
      select_instr (rv32i_5stage imem dmem regfile { scoreboard := 0 }).if_id_reg
        (rv32i_5stage imem dmem regfile { scoreboard := 0 }).saved_if_id = none ∧
      select_instr s1.if_id_reg s1.saved_if_id = some { instr := 0x00000463, pc := 0 } ∧
      select_instr s2.if_id_reg s2.saved_if_id = none ∧
      select_instr s3.if_id_reg s3.saved_if_id = none ∧
      select_instr s4.if_id_reg s4.saved_if_id = some { instr := imem 2, pc := 8 } ∧
      (decode_of (rv32i_5stage imem dmem regfile { scoreboard := 0 })).stall_request = false ∧
      (decode_of s1).stall_request = true ∧
      (decode_of s2).stall_request = false ∧
      (∃ d, s2.id_ex_reg = some d ∧ d.br = BranchKind.BEQ ∧ d.pc = 0) ∧
      (execute_stage (rv32i_5stage imem dmem regfile { scoreboard := 0 }).id_ex_reg).2 = none ∧
      (execute_stage s1.id_ex_reg).2 = none ∧
      (execute_stage s2.id_ex_reg).2 = some 8 ∧
      s1.pc = 4 ∧ s2.pc = 4 ∧ s3.pc = 8) ∧
    (∀ n s, run n (rv32i_5stage scenario2_imem dmem regfile { scoreboard := 0 }) = some s →
      ∀ f, select_instr s.if_id_reg s.saved_if_id = some f → f.pc ≠ 4) := by
  obtain ⟨e1, e2, e3, e4⟩ := scenario2_states imem dmem regfile hbeq h0
  refine ⟨⟨_, _, _, _, e1, e2, e3, e4, rfl, rfl, rfl, rfl, rfl, rfl, ?_, rfl,
    ⟨_, rfl, rfl, rfl⟩, rfl, rfl, ?_, rfl, rfl, rfl⟩,
    fun n s hs f hf => scenario2_never_address4 dmem regfile h0 n s hs f hf⟩
  · simp [decode_of, decode_stage, select_instr, release_step, decode_switch, set_rd,
      DataHazardManager.is_locked, and_127, and_31, and_7, and_1]
  · simp [execute_stage, resolve, branch_target, W32]

/-- Witness for `scenario2_redirect`: the branch followed by zero words, all
registers and data memory zero. -/
theorem scenario2_redirect_witness :
    scenario2_imem 0 = 0x00000463 ∧
    (fun _ => 0 : RegFile) 0 = 0 ∧
    ∃ s2 s3,
      run 2 (rv32i_5stage scenario2_imem (fun _ => 0) (fun _ => 0) { scoreboard := 0 }) =
        some s2 ∧
      run 3 (rv32i_5stage scenario2_imem (fun _ => 0) (fun _ => 0) { scoreboard := 0 }) =
        some s3 ∧
      (execute_stage s2.id_ex_reg).2 = some 8 ∧ s3.pc = 8 := by
  obtain ⟨⟨s1, s2, s3, s4, _, h2, h3, _, _, _, _, _, _, _, _, _, _, _, _, hr, _, _, hp⟩, _⟩ :=
    scenario2_redirect scenario2_imem (fun _ => 0) (fun _ => 0) rfl rfl
  exact ⟨rfl, rfl, s2, s3, h2, h3, hr, hp⟩

/-- C7 (scenario 3): from the reset state with `regfile[0] = 0`,
`regfile[1] = 42`, `regfile[2] = a` where `a / 4 < 2048`, and any data memory,
the program `SW x1,0(x2); LW x3,0(x2)` followed by zero words leaves 42 in
register 3 and in data-memory word `a / 4` after 6 cycles, and in every later
state of the run up to cycle 256. -/
theorem scenario3_end_to_end (dmem : DMem) (regfile : RegFile) (a : Nat) (h0 : regfile 0 = 0)
    (h1 : regfile 1 = 42) (h2 : regfile 2 = a) (ha : a / 4 < 2048) :
    ∀ n, 6 ≤ n → n ≤ 256 →
      ∃ s, run n (rv32i_5stage scenario3_imem dmem regfile { scoreboard := 0 }) = some s ∧
        s.regfile 3 = 42 ∧ s.dmem (a / 4) = 42 := by
  obtain ⟨s7, h7, hidle, hpc, him, hr3, hd⟩ := scenario3_run7 dmem regfile a h0 h1 h2 ha
  have hz : ∀ i, s7.pc / 4 ≤ i → s7.imem i = 0 := by
    intro i hi
    rw [hpc] at hi
    have h7' : 7 ≤ i := hi
    have e0 : i ≠ 0 := by omega
    have e1 : i ≠ 1 := by omega
    simp [him, scenario3_imem, e0, e1]
  intro n hlo hhi
  rcases Nat.eq_or_lt_of_le hlo with h6 | hgt
  · subst h6
    exact ⟨_, scenario3_run6 dmem regfile a h0 h1 h2 ha, by simp [Function.update]⟩
  · obtain ⟨k, rfl⟩ := Nat.exists_eq_add_of_le (show 7 ≤ n from hgt)
    obtain ⟨t, ht, _, _, _, hdm, hr, _⟩ := idle_run k s7 hidle (by omega) hz
    refine ⟨t, ?_, ?_⟩
    · rw [run_add, h7, Option.some_bind]
      exact ht
    · rw [hr, hdm]
      exact ⟨hr3, hd⟩

/-- Witness for `scenario3_end_to_end`: stack-top address 8188, data memory
word `i` holding `i + 1000`. -/
theorem scenario3_end_to_end_witness :
    (fun i => if i = 1 then 42 else if i = 2 then 8188 else 0 : RegFile) 0 = 0 ∧
    (fun i => if i = 1 then 42 else if i = 2 then 8188 else 0 : RegFile) 1 = 42 ∧
    (fun i => if i = 1 then 42 else if i = 2 then 8188 else 0 : RegFile) 2 = 8188 ∧
    8188 / 4 < 2048 ∧
    ∀ n, 6 ≤ n → n ≤ 256 →
      ∃ s, run n (rv32i_5stage scenario3_imem (fun i => i + 1000)
          (fun i => if i = 1 then 42 else if i = 2 then 8188 else 0) { scoreboard := 0 }) =
          some s ∧ s.regfile 3 = 42 ∧ s.dmem (8188 / 4) = 42 :=
  ⟨rfl, rfl, rfl, by decide,
    scenario3_end_to_end (fun i => i + 1000)
      (fun i => if i = 1 then 42 else if i = 2 then 8188 else 0) 8188 rfl rfl rfl (by decide)⟩

/-- C8 (decode hazard abort): when an instruction is selected and, after the
release step, one of its source indices (bits 19:15, bits 24:20) is locked,
`decode_stage` emits no payload, asserts stall, keeps exactly the selected
instruction in the saved slot and leaves the post-release scoreboard as is. -/
theorem decode_hazard_abort (fetch_to_decode_in saved_fetch_to_decode : Option FetchToDecode)
    (hazardManager : DataHazardManager) (wb_finished : Option Nat) (regfile : RegFile)
    (f : FetchToDecode)
    (hsel : select_instr fetch_to_decode_in saved_fetch_to_decode = some f)
    (hlock : (release_step hazardManager wb_finished).is_locked ((f.instr >>> 15) &&& 0x1f) = true ∨
      (release_step hazardManager wb_finished).is_locked ((f.instr >>> 20) &&& 0x1f) = true) :
    (decode_stage fetch_to_decode_in saved_fetch_to_decode hazardManager wb_finished
        regfile).decode_to_exec = none ∧
    (decode_stage fetch_to_decode_in saved_fetch_to_decode hazardManager wb_finished
        regfile).stall_request = true ∧
    (decode_stage fetch_to_decode_in saved_fetch_to_decode hazardManager wb_finished
        regfile).saved_fetch_to_decode = some f ∧
    (decode_stage fetch_to_decode_in saved_fetch_to_decode hazardManager wb_finished
        regfile).hazardManager = release_step hazardManager wb_finished := by
  have hor : ((release_step hazardManager wb_finished).is_locked ((f.instr >>> 15) &&& 0x1f) ||
      (release_step hazardManager wb_finished).is_locked ((f.instr >>> 20) &&& 0x1f)) = true := by
    rcases hlock with h | h <;> simp [h]
  unfold decode_stage
  simp only [hsel, hor, if_true, and_self]

/-- Witness for `decode_hazard_abort`: `ADD x3,x1,x2` held in the saved slot
while `x2` is still locked after the release of `x1`. -/
theorem decode_hazard_abort_witness :
    select_instr none (some { instr := 0x002081B3, pc := 8 }) =
        some { instr := 0x002081B3, pc := 8 } ∧
      ((release_step { scoreboard := 6 } (some 1)).is_locked ((0x002081B3 >>> 15) &&& 0x1f) = true ∨
        (release_step { scoreboard := 6 } (some 1)).is_locked ((0x002081B3 >>> 20) &&& 0x1f) = true) ∧
      ((decode_stage none (some { instr := 0x002081B3, pc := 8 }) { scoreboard := 6 } (some 1)
          (fun _ => 0)).decode_to_exec = none ∧
       (decode_stage none (some { instr := 0x002081B3, pc := 8 }) { scoreboard := 6 } (some 1)
          (fun _ => 0)).stall_request = true ∧
       (decode_stage none (some { instr := 0x002081B3, pc := 8 }) { scoreboard := 6 } (some 1)
          (fun _ => 0)).saved_fetch_to_decode = some { instr := 0x002081B3, pc := 8 } ∧
       (decode_stage none (some { instr := 0x002081B3, pc := 8 }) { scoreboard := 6 } (some 1)
          (fun _ => 0)).hazardManager = release_step { scoreboard := 6 } (some 1)) :=
  ⟨rfl, Or.inr rfl,
    decode_hazard_abort none (some { instr := 0x002081B3, pc := 8 }) { scoreboard := 6 } (some 1)
      (fun _ => 0) { instr := 0x002081B3, pc := 8 } rfl (Or.inr rfl)⟩

/-- C9 (code bug): `release_reg` toggles the bit instead of clearing it.  On
the empty scoreboard `release_reg(1)` returns scoreboard 2, so register 1 is
locked afterwards; the frame part of the claim holds (every other bit is
unchanged).  The pipeline reaches this call: after six cycles of `waw_core`
the scoreboard is empty while completion 1 is pending, and the decode of the
next cycle leaves bit 1 set. -/
theorem release_reg_toggles_clear_bit :
    DataHazardManager.release_reg { scoreboard := 0 } 1 = { scoreboard := 2 } ∧
    (DataHazardManager.release_reg { scoreboard := 0 } 1).is_locked 1 = true ∧
    (∀ (h : DataHazardManager) (r q : Nat), r < 32 → q < 32 → q ≠ r →
      (h.release_reg r).is_locked q = h.is_locked q) ∧
    (∀ (h : DataHazardManager) (r : Nat), r < 32 →
      (h.release_reg r).is_locked r = !h.is_locked r) ∧
    (run 6 waw_core).map (fun s => (s.hazardManager, s.wb_finished)) =
      some ({ scoreboard := 0 }, some 1) ∧
    (run 6 waw_core).map (fun s => (decode_of s).hazardManager) = some { scoreboard := 2 } := by
  refine ⟨rfl, rfl, ?_, ?_, rfl, rfl⟩
  · intro h r q _ hq hne
    rw [release_reg_is_locked _ _ _ hq]
    simp [Ne.symm hne]
  · intro h r hr
    rw [release_reg_is_locked _ _ _ hr]
    simp

/-- C10 (code bug, one defect with C21): the word 0x02005093 (opcode 0x13,
`funct3 = 5`, `funct7 = 0x01`, `rd = 1`) is no recognised operation, so it does
not write a destination in the claim's sense, yet `decode_stage` issues it with
`rd = 1` and locks bit 1 of an empty scoreboard.  For every issued word the
payload carries `pc`, `rs1_val = regfile[bits 19:15]`,
`rs2_val = regfile[bits 24:20]` and the saved slot is empty; an instruction
that writes a destination gets `rd` set and exactly bit `rd` locked in
addition; a word that writes none gets no `rd` and the post-release
scoreboard, except the words with opcode 0x13, `funct3 = 5`, `funct7` outside
{0x00, 0x20} and a non-zero `rd` field, which get `rd` set and locked. -/
theorem decode_issue_locks_unrecognised_shift :
    writes_destination 0x02005093 = false ∧
    (0x02005093 &&& 0x7f = 0x13 ∧ (0x02005093 >>> 12) &&& 0x7 = 5 ∧
      (0x02005093 >>> 25) &&& 0x7f = 0x01 ∧ (0x02005093 >>> 7) &&& 0x1f = 1) ∧
    select_instr (some { instr := 0x02005093, pc := 0 }) none =
      some { instr := 0x02005093, pc := 0 } ∧
    release_step { scoreboard := 0 } none = { scoreboard := 0 } ∧
    (release_step { scoreboard := 0 } none).is_locked ((0x02005093 >>> 15) &&& 0x1f) = false ∧
    (release_step { scoreboard := 0 } none).is_locked ((0x02005093 >>> 20) &&& 0x1f) = false ∧
    decode_stage (some { instr := 0x02005093, pc := 0 }) none { scoreboard := 0 } none
        (fun _ => 0) =
      { saved_fetch_to_decode := none, hazardManager := { scoreboard := 2 },
        decode_to_exec := some { rd := some 1, op := AluOp.SRL, imm := some 32, pc := 0 },
        stall_request := false } ∧
    ∀ (fetch_to_decode_in saved_fetch_to_decode : Option FetchToDecode)
      (hazardManager : DataHazardManager) (wb_finished : Option Nat) (regfile : RegFile)
      (f : FetchToDecode),
      select_instr fetch_to_decode_in saved_fetch_to_decode = some f →
      (release_step hazardManager wb_finished).is_locked ((f.instr >>> 15) &&& 0x1f) = false →
      (release_step hazardManager wb_finished).is_locked ((f.instr >>> 20) &&& 0x1f) = false →
      (decode_stage fetch_to_decode_in saved_fetch_to_decode hazardManager wb_finished
          regfile).saved_fetch_to_decode = none ∧
      ∃ d, (decode_stage fetch_to_decode_in saved_fetch_to_decode hazardManager wb_finished
          regfile).decode_to_exec = some d ∧
        d.pc = f.pc ∧ d.rs1_val = regfile ((f.instr >>> 15) &&& 0x1f) ∧
        d.rs2_val = regfile ((f.instr >>> 20) &&& 0x1f) ∧
        (writes_destination f.instr = true →
          d.rd = some ((f.instr >>> 7) &&& 0x1f) ∧
          (decode_stage fetch_to_decode_in saved_fetch_to_decode hazardManager wb_finished
            regfile).hazardManager =
            (release_step hazardManager wb_finished).lock_reg ((f.instr >>> 7) &&& 0x1f) ∧
          ∀ q, q < 32 →
            (decode_stage fetch_to_decode_in saved_fetch_to_decode hazardManager wb_finished
              regfile).hazardManager.is_locked q =
              ((release_step hazardManager wb_finished).is_locked q ||
                decide (q = (f.instr >>> 7) &&& 0x1f))) ∧
        (writes_destination f.instr = false →
          ¬ ((f.instr >>> 7) &&& 0x1f ≠ 0 ∧ f.instr &&& 0x7f = 0x13 ∧
            (f.instr >>> 12) &&& 0x7 = 5 ∧ (f.instr >>> 25) &&& 0x7f ≠ 0x00 ∧
            (f.instr >>> 25) &&& 0x7f ≠ 0x20) →
          d.rd = none ∧
          (decode_stage fetch_to_decode_in saved_fetch_to_decode hazardManager wb_finished
            regfile).hazardManager = release_step hazardManager wb_finished) ∧
        ((f.instr >>> 7) &&& 0x1f ≠ 0 ∧ f.instr &&& 0x7f = 0x13 ∧
            (f.instr >>> 12) &&& 0x7 = 5 ∧ (f.instr >>> 25) &&& 0x7f ≠ 0x00 ∧
            (f.instr >>> 25) &&& 0x7f ≠ 0x20 →
          writes_destination f.instr = false ∧
          d.rd = some ((f.instr >>> 7) &&& 0x1f) ∧
          (decode_stage fetch_to_decode_in saved_fetch_to_decode hazardManager wb_finished
            regfile).hazardManager =
            (release_step hazardManager wb_finished).lock_reg ((f.instr >>> 7) &&& 0x1f)) := by
  refine ⟨by decide, ⟨rfl, rfl, rfl, rfl⟩, rfl, rfl, rfl, rfl, rfl, ?_⟩
  intro fin saved hm wbf regfile f hsel h1 h2
  have hrd := decode_switch_rd f.instr
    { pc := f.pc, rs1_val := regfile ((f.instr >>> 15) &&& 0x1f),
      rs2_val := regfile ((f.instr >>> 20) &&& 0x1f) } rfl
  have heq := decoder_writes_rd_eq f.instr
  rw [decode_stage_issue fin saved hm wbf regfile f hsel h1 h2]
  refine ⟨rfl, _, rfl, decode_switch_pc _ _, decode_switch_rs1_val _ _,
    decode_switch_rs2_val _ _, ?_, ?_, ?_⟩
  · intro hw
    have hc : decoder_writes_rd f.instr = true := by rw [heq, hw]; rfl
    rw [if_pos hc] at hrd
    simp only [hrd, true_and]
    intro q hq
    rw [lock_reg_is_locked _ _ _ hq]
    congr 1
    exact decide_eq_decide.mpr eq_comm
  · intro hw hns
    have hc : decoder_writes_rd f.instr = false := by
      rw [heq, hw, Bool.false_or, decide_eq_false_iff_not]
      exact hns
    rw [if_neg (by simp [hc])] at hrd
    simp only [hrd, and_self]
  · rintro ⟨hr, ho, h5, h70, h720⟩
    have hc : decoder_writes_rd f.instr = true := by
      unfold decoder_writes_rd
      simp only [decide_eq_true_eq]
      exact ⟨hr, Or.inr (Or.inl ⟨ho, fun h' => by omega⟩)⟩
    have hw : writes_destination f.instr = false := by
      unfold writes_destination
      simp only [decide_eq_false_iff_not]
      rintro ⟨_, h | h | h⟩
      · omega
      · rcases h.2.2 h5 with h | h
        · exact h70 h
        · exact h720 h
      · omega
    rw [if_pos hc] at hrd
    simp only [hrd, hw, and_self]

/-- C11 (stall request of decode): the stall wire is true exactly when an
instruction is selected and either one of its source indices is locked after
the release step, or no source is locked and the instruction is a branch or
jump (opcode 0x63 with `funct3` in {0,1,4,5,6,7}, opcode 0x6f, opcode 0x67).
With no saved payload and no incoming payload the stall wire is false and the
decode-to-execute payload is absent. -/
theorem decode_stall_request (fetch_to_decode_in saved_fetch_to_decode : Option FetchToDecode)
    (hazardManager : DataHazardManager) (wb_finished : Option Nat) (regfile : RegFile) :
    ((decode_stage fetch_to_decode_in saved_fetch_to_decode hazardManager wb_finished
        regfile).stall_request = true ↔
      ∃ f, select_instr fetch_to_decode_in saved_fetch_to_decode = some f ∧
        (((release_step hazardManager wb_finished).is_locked ((f.instr >>> 15) &&& 0x1f) = true ∨
          (release_step hazardManager wb_finished).is_locked ((f.instr >>> 20) &&& 0x1f) = true) ∨
         ((release_step hazardManager wb_finished).is_locked ((f.instr >>> 15) &&& 0x1f) = false ∧
          (release_step hazardManager wb_finished).is_locked ((f.instr >>> 20) &&& 0x1f) = false ∧
          is_branch_or_jump f.instr = true))) ∧
    (decode_stage none none hazardManager wb_finished regfile).stall_request = false ∧
    (decode_stage none none hazardManager wb_finished regfile).decode_to_exec = none := by
  refine ⟨?_, rfl, rfl⟩
  unfold decode_stage
  cases hsel : select_instr fetch_to_decode_in saved_fetch_to_decode with
  | none => simp
  | some f =>
    simp only [Option.some.injEq, exists_eq_left']
    cases h1 : (release_step hazardManager wb_finished).is_locked ((f.instr >>> 15) &&& 0x1f) <;>
    cases h2 : (release_step hazardManager wb_finished).is_locked ((f.instr >>> 20) &&& 0x1f) <;>
    simp [decode_switch_br]

/-- C12 (register 0 is never locked): a `decode_stage` invocation whose incoming
scoreboard has bit 0 clear and whose write-back completion is absent or not 0
leaves bit 0 clear, for every instruction word; `wb_stage` never emits
completion 0; and bit 0 is clear in every state reached from the reset state
with an empty scoreboard. -/
theorem register0_never_locked (fetch_to_decode_in saved_fetch_to_decode : Option FetchToDecode)
    (hazardManager : DataHazardManager) (wb_finished : Option Nat) (regfile : RegFile)
    (h0 : hazardManager.is_locked 0 = false) (hw : wb_finished ≠ some 0) :
    (decode_stage fetch_to_decode_in saved_fetch_to_decode hazardManager wb_finished
      regfile).hazardManager.is_locked 0 = false ∧
    (∀ (mem_to_wb : Option MemToWb) (rf : RegFile), (wb_stage mem_to_wb rf).2 ≠ some 0) ∧
    (∀ (imem : IMem) (dmem : DMem) (rf : RegFile) (n : Nat) (s : Core),
      run n (rv32i_5stage imem dmem rf { scoreboard := 0 }) = some s →
        s.hazardManager.is_locked 0 = false) :=
  ⟨decode_stage_bit0 _ _ _ _ _ h0 hw, wb_stage_completion_ne_zero,
    fun imem dmem rf n s h =>
      (run_bit0 n (rv32i_5stage imem dmem rf { scoreboard := 0 }) s
        (show DataHazardManager.is_locked { scoreboard := 0 } 0 = false from rfl)
        (by simp [rv32i_5stage]) h).1⟩

/-- Witness for `register0_never_locked`: `ADD x0,x1,x2` (rd field 0) decoded
while completion 3 arrives on a scoreboard holding bit 3. -/
theorem register0_never_locked_witness :
    (DataHazardManager.is_locked { scoreboard := 8 } 0 = false) ∧ ((some 3 : Option Nat) ≠ some 0) ∧
    ((decode_stage (some { instr := 0x00208033, pc := 0 }) none { scoreboard := 8 } (some 3)
      (fun _ => 0)).hazardManager.is_locked 0 = false ∧
    (∀ (mem_to_wb : Option MemToWb) (rf : RegFile), (wb_stage mem_to_wb rf).2 ≠ some 0) ∧
    (∀ (imem : IMem) (dmem : DMem) (rf : RegFile) (n : Nat) (s : Core),
      run n (rv32i_5stage imem dmem rf { scoreboard := 0 }) = some s →
        s.hazardManager.is_locked 0 = false)) :=
  ⟨rfl, by decide,
    register0_never_locked (some { instr := 0x00208033, pc := 0 }) none { scoreboard := 8 }
      (some 3) (fun _ => 0) rfl (by decide)⟩

/-- C13 (normal fetch): with no redirect and no stall, a `fetch_stage` call that
does not fail emits the instruction-memory word at index `pc >> 2` (`pc / 4`)
together with the current `pc`, and the new program counter is `pc + 4`
modulo `2 ^ 32`. -/
theorem fetch_normal (pc : Nat) (imem : IMem) (r : Nat × Option FetchToDecode)
    (h : fetch_stage pc imem false none = some r) :
    r = ((pc + 4) % 2 ^ 32, some { instr := imem (pc / 4), pc := pc }) := by
  unfold fetch_stage at h
  simp only [Bool.false_eq_true, if_false] at h
  split_ifs at h
  simp only [Option.some.injEq] at h
  rw [← h, Nat.shiftRight_eq_div_pow]

/-- Witness for `fetch_normal`: the third word of scenario 1. -/
theorem fetch_normal_witness :
    fetch_stage 8 scenario1_imem false none = some (12, some { instr := 0x002081B3, pc := 8 }) ∧
    ((12, some { instr := 0x002081B3, pc := 8 }) : Nat × Option FetchToDecode) =
      ((8 + 4) % 2 ^ 32, some { instr := scenario1_imem (8 / 4), pc := 8 }) :=
  ⟨rfl, fetch_normal 8 scenario1_imem _ rfl⟩

/-- C14 (fetch stall hold): with no redirect and the stall wire true,
`fetch_stage` succeeds for every `pc`, keeps the program counter and emits a
bubble. -/
theorem fetch_stall_hold (pc : Nat) (imem : IMem) :
    fetch_stage pc imem true none = some (pc, none) :=
  rfl

/-- C15 (code bug): the bounds check of `fetch_stage` compares the byte address
`pc` with the word count `IMemSize`.  At `pc = 1024` the word index is 256,
inside the 1024-word instruction memory, and the fetch fails; in the normal
case the fetch fails exactly when `IMemSize ≤ pc`, and it succeeds with the
word at index `pc / 4` below that. -/
theorem fetch_bounds_byte_address (imem : IMem) :
    fetch_stage 1024 imem false none = none ∧ 1024 / 4 < IMemSize ∧
    (∀ pc, fetch_stage pc imem false none = none ↔ IMemSize ≤ pc) ∧
    (∀ pc, pc < IMemSize → fetch_stage pc imem false none =
      some ((pc + 4) % 2 ^ 32, some { instr := imem (pc / 4), pc := pc })) := by
  refine ⟨rfl, by decide, ?_, ?_⟩
  · intro pc
    unfold fetch_stage
    simp only [Bool.false_eq_true, if_false]
    split_ifs with h
    · simp only [reduceCtorEq, false_iff]
      omega
    · simp only [true_iff]
      omega
  · intro pc h
    unfold fetch_stage
    simp only [Bool.false_eq_true, if_false, h, if_true, Nat.shiftRight_eq_div_pow]

/-- C16 (ALU reference semantics): for every present payload made of 32-bit
words, the `addr_or_alu` field `execute_stage` emits is the reference ALU
result `alu_reference` of the decoded operation. -/
theorem alu_reference_semantics (d : DecodeToExec) (h1 : d.rs1_val < 2 ^ 32)
    (h2 : d.rs2_val < 2 ^ 32) (hi : ∀ i, d.imm = some i → i < 2 ^ 32) :
    ∃ e, (execute_stage (some d)).1 = some e ∧
      e.addr_or_alu = alu_reference d.op d.rs1_val d.rs2_val d.pc d.imm :=
  ⟨_, rfl, alu_eq_reference d h1 h2 hi⟩

/-- Witness for `alu_reference_semantics`: `SRAI` of `0x80000000` by 4 gives
`0xF8000000`. -/
theorem alu_reference_semantics_witness :
    (0x80000000 : Nat) < 2 ^ 32 ∧
    ∃ e, (execute_stage (some { op := AluOp.SRA, rs1_val := 0x80000000, imm := some 4 })).1 =
        some e ∧
      e.addr_or_alu = alu_reference AluOp.SRA 0x80000000 0 0 (some 4) ∧
      alu_reference AluOp.SRA 0x80000000 0 0 (some 4) = 0xF8000000 := by
  obtain ⟨e, he, ha⟩ := alu_reference_semantics
    { op := AluOp.SRA, rs1_val := 0x80000000, imm := some 4 } (by decide) (by decide)
    (fun i h => by cases h; decide)
  exact ⟨by decide, e, he, ha, by decide⟩

/-- C17 (conditional branch resolution): for a present payload of 32-bit source
values whose kind is one of BEQ, BNE, BLT, BGE, BLTU, BGEU, the redirect wire of
`execute_stage` carries `pc + imm` modulo `2 ^ 32` (an absent immediate counts
as 0) when the kind's comparison of `rs1_val` and `rs2_val` holds and is absent
otherwise; whether it is present does not depend on the immediate. -/
theorem branch_resolution (d : DecodeToExec) (h1 : d.rs1_val < 2 ^ 32) (h2 : d.rs2_val < 2 ^ 32)
    (hb : d.br = BranchKind.BEQ ∨ d.br = BranchKind.BNE ∨ d.br = BranchKind.BLT ∨
      d.br = BranchKind.BGE ∨ d.br = BranchKind.BLTU ∨ d.br = BranchKind.BGEU) :
    (execute_stage (some d)).2 =
      (if branch_condition d.br d.rs1_val d.rs2_val = true
        then some ((d.pc + d.imm.getD 0) % 2 ^ 32) else none) ∧
    ∀ imm' : Option Nat, ((execute_stage (some { d with imm := imm' })).2).isSome =
      ((execute_stage (some d)).2).isSome := by
  obtain ⟨rd, op, br, mem, imm, rs1, rs2, pc⟩ := d
  simp only at h1 h2 hb
  have e1 := toInt32_eq_signed32 rs1 h1
  have e2 := toInt32_eq_signed32 rs2 h2
  rcases hb with h | h | h | h | h | h <;> subst h <;>
    refine ⟨?_, fun imm' => ?_⟩ <;>
    simp only [execute_stage, resolve, branch_target, branch_condition, e1, e2, W32,
      decide_eq_true_eq] <;>
    split_ifs <;> rfl

/-- Witness for `branch_resolution`: `BLT` with `rs1 = -1`, `rs2 = 1` at pc 16,
offset -8. -/
theorem branch_resolution_witness :
    (0xffffffff : Nat) < 2 ^ 32 ∧ (1 : Nat) < 2 ^ 32 ∧
    (execute_stage (some { br := BranchKind.BLT, imm := some 0xfffffff8, rs1_val := 0xffffffff,
                           rs2_val := 1, pc := 16 })).2 = some 8 := by
  have h := (branch_resolution
    { br := BranchKind.BLT, imm := some 0xfffffff8, rs1_val := 0xffffffff, rs2_val := 1, pc := 16 }
    (by decide) (by decide) (Or.inr (Or.inr (Or.inl rfl)))).1
  exact ⟨by decide, by decide, h.trans (by decide)⟩

/-- C18 (jump resolution and link value): for every present payload
`execute_stage` forwards `rs2_val` as store data, the destination index and the
memory operation unchanged, and the ALU result as `addr_or_alu`.  For JAL the
redirect wire carries `pc + imm`, for JALR `rs1_val + imm` with bit 0 cleared
(all modulo `2 ^ 32`, an absent immediate counting as 0), and in both cases
`wb_data_nonload` is `pc + 4` modulo `2 ^ 32` whatever the ALU operation; for
every other kind `wb_data_nonload` is the ALU result. -/
theorem jump_resolution (d : DecodeToExec) :
    ∃ e, (execute_stage (some d)).1 = some e ∧
      e.store_data = d.rs2_val ∧ e.rd = d.rd ∧ e.mem = d.mem ∧ e.addr_or_alu = alu d ∧
      (d.br = BranchKind.JAL →
        (execute_stage (some d)).2 = some ((d.pc + d.imm.getD 0) % 2 ^ 32) ∧
        e.wb_data_nonload = (d.pc + 4) % 2 ^ 32) ∧
      (d.br = BranchKind.JALR →
        (execute_stage (some d)).2 =
          some ((d.rs1_val + d.imm.getD 0) % 2 ^ 32 - (d.rs1_val + d.imm.getD 0) % 2 ^ 32 % 2) ∧
        e.wb_data_nonload = (d.pc + 4) % 2 ^ 32) ∧
      (d.br ≠ BranchKind.JAL → d.br ≠ BranchKind.JALR → e.wb_data_nonload = alu d) := by
  refine ⟨_, rfl, rfl, rfl, rfl, rfl, ?_, ?_, ?_⟩
  · intro h
    simp [execute_stage, resolve, branch_target, h, W32]
  · intro h
    have hc := and_clear_bit0 ((d.rs1_val + d.imm.getD 0) % 2 ^ 32)
      (Nat.mod_lt _ (by norm_num))
    simp only [execute_stage, resolve, h, W32]
    exact ⟨by rw [← hc], by simp⟩
  · intro h1 h2
    simp [h1, h2]

/-- Witness for `jump_resolution`: `JALR` at pc 8 with `rs1 = 0x1003`, offset 4,
carrying an ALU operation that is not used. -/
theorem jump_resolution_witness :
    (execute_stage (some { op := AluOp.SUB, br := BranchKind.JALR, imm := some 4,
                           rs1_val := 0x1003, rs2_val := 9, pc := 8 })).2 = some 0x1006 ∧
    ∃ e, (execute_stage (some { op := AluOp.SUB, br := BranchKind.JALR, imm := some 4,
                                rs1_val := 0x1003, rs2_val := 9, pc := 8 })).1 = some e ∧
      e.wb_data_nonload = 12 := by
  obtain ⟨e, he, _, _, _, _, _, hjalr, _⟩ := jump_resolution
    { op := AluOp.SUB, br := BranchKind.JALR, imm := some 4, rs1_val := 0x1003, rs2_val := 9,
      pc := 8 }
  obtain ⟨hr, hw⟩ := hjalr rfl
  exact ⟨hr.trans (by decide), e, he, hw.trans (by decide)⟩

/-- C19 (immediate decoding): for every 32-bit instruction word that
`decode_stage` issues (selected, no source locked), the payload's immediate is
the RV32I immediate of the format: I-type for opcode 0x13 (except `funct3 = 1`
with `funct7 ≠ 0`, which is not recognised), 0x03 and 0x67; S-type for 0x23;
B-type for 0x63; U-type for 0x37 and 0x17; J-type for 0x6f.  Decoding the
standard B-type or J-type encoding of an even in-range signed offset returns the
offset modulo `2 ^ 32`, and `sext32 x n` is the two's-complement sign extension
of the `n`-bit value `x` for `1 ≤ n ≤ 32` and `x < 2 ^ n`. -/
theorem immediate_decoding (fetch_to_decode_in saved_fetch_to_decode : Option FetchToDecode)
    (hazardManager : DataHazardManager) (wb_finished : Option Nat) (regfile : RegFile)
    (f : FetchToDecode)
    (hsel : select_instr fetch_to_decode_in saved_fetch_to_decode = some f)
    (h1 : (release_step hazardManager wb_finished).is_locked ((f.instr >>> 15) &&& 0x1f) = false)
    (h2 : (release_step hazardManager wb_finished).is_locked ((f.instr >>> 20) &&& 0x1f) = false)
    (hw : f.instr < 2 ^ 32) :
    (∃ d, (decode_stage fetch_to_decode_in saved_fetch_to_decode hazardManager wb_finished
        regfile).decode_to_exec = some d ∧
      ((bits f.instr 6 0 = 0x13 ∧ ¬ (bits f.instr 14 12 = 1 ∧ bits f.instr 31 25 ≠ 0)) ∨
          bits f.instr 6 0 = 0x03 ∨ bits f.instr 6 0 = 0x67 →
        d.imm = some (rv32i_imm_i f.instr)) ∧
      (bits f.instr 6 0 = 0x23 → d.imm = some (rv32i_imm_s f.instr)) ∧
      (bits f.instr 6 0 = 0x63 → d.imm = some (rv32i_imm_b f.instr)) ∧
      (bits f.instr 6 0 = 0x37 ∨ bits f.instr 6 0 = 0x17 → d.imm = some (rv32i_imm_u f.instr)) ∧
      (bits f.instr 6 0 = 0x6f → d.imm = some (rv32i_imm_j f.instr))) ∧
    (∀ (offset : Int) (rs1 rs2 funct3 : Nat), -4096 ≤ offset → offset < 4096 →
      offset % 2 = 0 → rs1 < 32 → rs2 < 32 → funct3 < 8 →
      imm_b (encode_b offset rs1 rs2 funct3) = (offset % 2 ^ 32).toNat) ∧
    (∀ (offset : Int) (rd : Nat), -1048576 ≤ offset → offset < 1048576 → offset % 2 = 0 →
      rd < 32 → imm_j (encode_j offset rd) = (offset % 2 ^ 32).toNat) ∧
    (∀ x n : Nat, 1 ≤ n → n ≤ 32 → x < 2 ^ n → sext32 x n = sign_extend n x) := by
  refine ⟨?_, imm_b_encode_b, imm_j_encode_j, sext32_eq_sign_extend⟩
  obtain ⟨b1, b2, b3⟩ := bits_fields f.instr
  obtain ⟨di, ds, db, du, dj⟩ := decode_switch_imm f.instr
    { pc := f.pc, rs1_val := regfile ((f.instr >>> 15) &&& 0x1f),
      rs2_val := regfile ((f.instr >>> 20) &&& 0x1f) } rfl
  rw [b1, b2, b3, imm_i_eq _ hw, imm_s_eq, imm_b_eq, imm_u_eq _ hw, imm_j_eq] at *
  unfold decode_stage
  simp only [hsel, h1, h2, Bool.or_self, Bool.false_eq_true, if_false]
  exact ⟨_, rfl, di, ds, db, du, dj⟩

/-- Witness for `immediate_decoding`: `BEQ x0,x0,+8` issued on an empty
scoreboard; the encoders produce the words used in the scenarios. -/
theorem immediate_decoding_witness :
    select_instr (some { instr := 0x00000463, pc := 0 }) none =
      some { instr := 0x00000463, pc := 0 } ∧
    (release_step { scoreboard := 0 } none).is_locked ((0x00000463 >>> 15) &&& 0x1f) = false ∧
    (release_step { scoreboard := 0 } none).is_locked ((0x00000463 >>> 20) &&& 0x1f) = false ∧
    (0x00000463 : Nat) < 2 ^ 32 ∧
    encode_b 8 0 0 0 = 0x00000463 ∧ encode_j (-4) 0 = 0xFFDFF06F ∧
    rv32i_imm_b 0x00000463 = 8 ∧
    ∃ d, (decode_stage (some { instr := 0x00000463, pc := 0 }) none { scoreboard := 0 } none
        (fun _ => 0)).decode_to_exec = some d ∧ d.imm = some (rv32i_imm_b 0x00000463) := by
  obtain ⟨⟨d, hd, _, _, hb, _⟩, _⟩ := immediate_decoding (some { instr := 0x00000463, pc := 0 })
    none { scoreboard := 0 } none (fun _ => 0) { instr := 0x00000463, pc := 0 } rfl rfl rfl
    (by decide)
  exact ⟨rfl, rfl, rfl, by decide, by decide, by decide, by decide, d, hd, hb (by decide)⟩

/-- C20 (unrecognized opcode decodes to a no-operation): for an instruction
word whose opcode is none of 0x33, 0x13, 0x03, 0x23, 0x63, 0x37, 0x17, 0x6f,
0x67 and whose bits 19:15 and 24:20 name unlocked registers, `decode_stage`
emits a payload with `op = NOP`, no destination, no immediate, branch kind
`NONE` and memory operation `NONE`, does not stall and leaves the post-release
scoreboard as is; `execute_stage`, `mem_stage` and `wb_stage` applied to that
payload give no redirect, the same data memory and the same register file, and
no completion. -/
theorem unrecognized_opcode_is_nop
    (fetch_to_decode_in saved_fetch_to_decode : Option FetchToDecode)
    (hazardManager : DataHazardManager) (wb_finished : Option Nat) (regfile : RegFile)
    (dmem : DMem) (rf : RegFile) (f : FetchToDecode)
    (hsel : select_instr fetch_to_decode_in saved_fetch_to_decode = some f)
    (hop : f.instr &&& 0x7f ∉ [0x33, 0x13, 0x03, 0x23, 0x63, 0x37, 0x17, 0x6f, 0x67])
    (h1 : (release_step hazardManager wb_finished).is_locked ((f.instr >>> 15) &&& 0x1f) = false)
    (h2 : (release_step hazardManager wb_finished).is_locked ((f.instr >>> 20) &&& 0x1f) = false) :
    (decode_stage fetch_to_decode_in saved_fetch_to_decode hazardManager wb_finished
        regfile).decode_to_exec =
      some { rd := none, op := AluOp.NOP, br := BranchKind.NONE, mem := MemOperation.NONE,
             imm := none, rs1_val := regfile ((f.instr >>> 15) &&& 0x1f),
             rs2_val := regfile ((f.instr >>> 20) &&& 0x1f), pc := f.pc } ∧
    (decode_stage fetch_to_decode_in saved_fetch_to_decode hazardManager wb_finished
        regfile).stall_request = false ∧
    (decode_stage fetch_to_decode_in saved_fetch_to_decode hazardManager wb_finished
        regfile).hazardManager = release_step hazardManager wb_finished ∧
    execute_stage (decode_stage fetch_to_decode_in saved_fetch_to_decode hazardManager
        wb_finished regfile).decode_to_exec =
      (some { addr_or_alu := 0, store_data := regfile ((f.instr >>> 20) &&& 0x1f),
              wb_data_nonload := 0, mem := MemOperation.NONE, rd := none }, none) ∧
    mem_stage (execute_stage (decode_stage fetch_to_decode_in saved_fetch_to_decode hazardManager
        wb_finished regfile).decode_to_exec).1 dmem =
      some (dmem, some { wb_data := 0, rd := none }) ∧
    wb_stage (some { wb_data := 0, rd := none }) rf = (rf, none) := by
  have hd : (decode_stage fetch_to_decode_in saved_fetch_to_decode hazardManager wb_finished
      regfile) =
      { saved_fetch_to_decode := none, hazardManager := release_step hazardManager wb_finished,
        decode_to_exec := some { rs1_val := regfile ((f.instr >>> 15) &&& 0x1f),
                                 rs2_val := regfile ((f.instr >>> 20) &&& 0x1f), pc := f.pc },
        stall_request := false } := by
    unfold decode_stage
    simp only [hsel, h1, h2, Bool.or_self, Bool.false_eq_true, if_false,
      decode_switch_unrecognized _ _ hop]
    rfl
  rw [hd]
  refine ⟨rfl, rfl, rfl, ?_, ?_, rfl⟩
  · simp [execute_stage, resolve, alu]
  · simp [execute_stage, resolve, alu, mem_stage]

/-- Witness for `unrecognized_opcode_is_nop`: the zero word on an empty
scoreboard. -/
theorem unrecognized_opcode_is_nop_witness :
    select_instr (some { instr := 0, pc := 12 }) none = some { instr := 0, pc := 12 } ∧
    (0 &&& 0x7f ∉ [0x33, 0x13, 0x03, 0x23, 0x63, 0x37, 0x17, 0x6f, 0x67]) ∧
    (release_step { scoreboard := 0 } none).is_locked ((0 >>> 15) &&& 0x1f) = false ∧
    (release_step { scoreboard := 0 } none).is_locked ((0 >>> 20) &&& 0x1f) = false ∧
    (decode_stage (some { instr := 0, pc := 12 }) none { scoreboard := 0 } none
        (fun _ => 7)).decode_to_exec =
      some { rd := none, op := AluOp.NOP, br := BranchKind.NONE, mem := MemOperation.NONE,
             imm := none, rs1_val := 7, rs2_val := 7, pc := 12 } ∧
    (decode_stage (some { instr := 0, pc := 12 }) none { scoreboard := 0 } none
        (fun _ => 7)).stall_request = false := by
  have h := unrecognized_opcode_is_nop (some { instr := 0, pc := 12 }) none { scoreboard := 0 }
    none (fun _ => 7) (fun _ => 0) (fun _ => 7) { instr := 0, pc := 12 } rfl (by decide) rfl rfl
  exact ⟨rfl, by decide, rfl, rfl, h.1, h.2.1⟩

/-- C21 (code bug): for opcode 0x13 with `funct3 = 5` the decoder looks at bit
0x20 of `funct7` only.  The word 0x02005093 (opcode 0x13, `funct3 = 5`,
`funct7 = 0x01`, `rd = 1`), which is no RV32I encoding, is issued as `SRL`
with destination 1 and immediate 32, and bit 1 of the scoreboard is locked.
For every issued word with opcode 0x13 and `funct3 = 5` the operation is `SRA`
or `SRL` and a non-zero `rd` field is the destination and is locked.  The
other combinations of the claim do decode to `NOP` without destination and
without a lock: opcode 0x33 outside `funct7 = 0x00` and `funct7 = 0x20` with
`funct3` 0 or 5, and opcode 0x13 with `funct3 = 1` and `funct7 ≠ 0x00`. -/
theorem shift_right_immediate_ignores_funct7 :
    decode_stage (some { instr := 0x02005093, pc := 0 }) none { scoreboard := 0 } none
        (fun _ => 0) =
      { saved_fetch_to_decode := none, hazardManager := { scoreboard := 2 },
        decode_to_exec := some { rd := some 1, op := AluOp.SRL, imm := some 32, pc := 0 },
        stall_request := false } ∧
    (0x02005093 &&& 0x7f = 0x13 ∧ (0x02005093 >>> 12) &&& 0x7 = 5 ∧
      (0x02005093 >>> 25) &&& 0x7f = 0x01) ∧
    ∀ (fetch_to_decode_in saved_fetch_to_decode : Option FetchToDecode)
      (hazardManager : DataHazardManager) (wb_finished : Option Nat) (regfile : RegFile)
      (f : FetchToDecode),
      select_instr fetch_to_decode_in saved_fetch_to_decode = some f →
      (release_step hazardManager wb_finished).is_locked ((f.instr >>> 15) &&& 0x1f) = false →
      (release_step hazardManager wb_finished).is_locked ((f.instr >>> 20) &&& 0x1f) = false →
      ∃ d, (decode_stage fetch_to_decode_in saved_fetch_to_decode hazardManager wb_finished
          regfile).decode_to_exec = some d ∧
        (f.instr &&& 0x7f = 0x13 → (f.instr >>> 12) &&& 0x7 = 5 →
          (d.op = AluOp.SRA ∨ d.op = AluOp.SRL) ∧
          ((f.instr >>> 7) &&& 0x1f ≠ 0 →
            d.rd = some ((f.instr >>> 7) &&& 0x1f) ∧
            (decode_stage fetch_to_decode_in saved_fetch_to_decode hazardManager wb_finished
              regfile).hazardManager =
              (release_step hazardManager wb_finished).lock_reg ((f.instr >>> 7) &&& 0x1f))) ∧
        (f.instr &&& 0x7f = 0x33 →
          ¬ ((f.instr >>> 25) &&& 0x7f = 0x00 ∨
            ((f.instr >>> 25) &&& 0x7f = 0x20 ∧
              ((f.instr >>> 12) &&& 0x7 = 0 ∨ (f.instr >>> 12) &&& 0x7 = 5))) →
          d.op = AluOp.NOP ∧ d.rd = none ∧
          (decode_stage fetch_to_decode_in saved_fetch_to_decode hazardManager wb_finished
            regfile).hazardManager = release_step hazardManager wb_finished) ∧
        (f.instr &&& 0x7f = 0x13 → (f.instr >>> 12) &&& 0x7 = 1 →
          (f.instr >>> 25) &&& 0x7f ≠ 0x00 →
          d.op = AluOp.NOP ∧ d.rd = none ∧
          (decode_stage fetch_to_decode_in saved_fetch_to_decode hazardManager wb_finished
            regfile).hazardManager = release_step hazardManager wb_finished) := by
  refine ⟨rfl, ⟨rfl, rfl, rfl⟩, ?_⟩
  intro fin saved hm wbf regfile f hsel h1 h2
  rw [decode_stage_issue fin saved hm wbf regfile f hsel h1 h2]
  refine ⟨_, rfl, ?_, ?_, ?_⟩
  · intro hop hf3
    obtain ⟨ho, hr, _⟩ := decode_switch_shift_right_imm f.instr
      { pc := f.pc, rs1_val := regfile ((f.instr >>> 15) &&& 0x1f),
        rs2_val := regfile ((f.instr >>> 20) &&& 0x1f) } hop hf3
    refine ⟨?_, fun hrd => ?_⟩
    · rw [ho]; split_ifs <;> simp
    · rw [set_rd_rd _ _ rfl, if_pos hrd] at hr
      simp only [hr, and_self]
  · intro hop hf
    obtain ⟨ho, hr⟩ := (decode_switch_nop f.instr
      { pc := f.pc, rs1_val := regfile ((f.instr >>> 15) &&& 0x1f),
        rs2_val := regfile ((f.instr >>> 20) &&& 0x1f) }).1 hop hf
    simp only [ho, hr, and_self]
  · intro hop hf3 hf7
    obtain ⟨ho, hr⟩ := (decode_switch_nop f.instr
      { pc := f.pc, rs1_val := regfile ((f.instr >>> 15) &&& 0x1f),
        rs2_val := regfile ((f.instr >>> 20) &&& 0x1f) }).2 hop hf3 hf7
    simp only [ho, hr, and_self]

/-- C22 (memory stage): with a present payload of address `A` and word index
`i = A / 4`, `mem_stage` fails exactly when the operation is READ or WRITE and
`i ≥ DMemSize = 2048`.  Otherwise the output payload is present and forwards
the destination index; READ returns data-memory word `i` and leaves data memory
unchanged; WRITE puts the store data into word `i`, leaves every other word
unchanged and forwards the non-load value; NONE leaves data memory unchanged
and forwards the non-load value.  With an absent payload the output is absent
and data memory is unchanged. -/
theorem mem_stage_contract (dmem : DMem) :
    DMemSize = 2048 ∧
    (∀ e : ExecToMem, e.addr_or_alu >>> 2 = e.addr_or_alu / 4 ∧
      (mem_stage (some e) dmem = none ↔
        (e.mem = MemOperation.READ ∨ e.mem = MemOperation.WRITE) ∧
          DMemSize ≤ e.addr_or_alu / 4) ∧
      (e.mem = MemOperation.READ → e.addr_or_alu / 4 < DMemSize →
        mem_stage (some e) dmem =
          some (dmem, some { rd := e.rd, wb_data := dmem (e.addr_or_alu / 4) })) ∧
      (e.mem = MemOperation.WRITE → e.addr_or_alu / 4 < DMemSize →
        ∃ dmem', mem_stage (some e) dmem =
            some (dmem', some { rd := e.rd, wb_data := e.wb_data_nonload }) ∧
          dmem' (e.addr_or_alu / 4) = e.store_data ∧
          ∀ j, j ≠ e.addr_or_alu / 4 → dmem' j = dmem j) ∧
      (e.mem = MemOperation.NONE →
        mem_stage (some e) dmem =
          some (dmem, some { rd := e.rd, wb_data := e.wb_data_nonload }))) ∧
    mem_stage none dmem = some (dmem, none) := by
  refine ⟨rfl, fun e => ⟨Nat.shiftRight_eq_div_pow _ 2, ?_, ?_, ?_, ?_⟩, rfl⟩
  · unfold mem_stage
    simp only [Nat.shiftRight_eq_div_pow]
    cases hm : e.mem <;> simp
  · intro hm hi
    unfold mem_stage
    simp only [Nat.shiftRight_eq_div_pow] at *
    simp [hm, hi]
  · intro hm hi
    unfold mem_stage
    simp only [Nat.shiftRight_eq_div_pow] at *
    refine ⟨Function.update dmem (e.addr_or_alu / 2 ^ 2) e.store_data, ?_, ?_, ?_⟩
    · simp [hm, hi]
    · simp
    · intro j hj
      exact Function.update_noteq hj _ _
  · intro hm
    unfold mem_stage
    simp [hm]

/-- C23 (write-back stage): with an absent payload, an absent destination or
destination 0, `wb_stage` leaves the register file unchanged and emits no
completion; with a destination `d ≠ 0` the register file afterwards holds the
write-back value at index `d`, every other index is unchanged and the
completion signal carries `d`. -/
theorem wb_stage_contract (regfile : RegFile) :
    wb_stage none regfile = (regfile, none) ∧
    (∀ m : MemToWb, m.rd = none → wb_stage (some m) regfile = (regfile, none)) ∧
    (∀ m : MemToWb, m.rd = some 0 → wb_stage (some m) regfile = (regfile, none)) ∧
    (∀ (m : MemToWb) (d : Nat), m.rd = some d → d ≠ 0 →
      ∃ regfile', wb_stage (some m) regfile = (regfile', some d) ∧
        regfile' d = m.wb_data ∧ ∀ j, j ≠ d → regfile' j = regfile j) := by
  refine ⟨rfl, ?_, ?_, ?_⟩
  · intro m hm
    simp [wb_stage, hm]
  · intro m hm
    simp [wb_stage, hm]
  · intro m d hm hd
    refine ⟨Function.update regfile d m.wb_data, ?_, ?_, ?_⟩
    · simp [wb_stage, hm, hd]
    · simp
    · intro j hj
      exact Function.update_noteq hj _ _

/-- C24 (program-image round trip): for every `Size`, every text
`load_hex<Size>` accepts and every byte address `a`, byte lane `a % 4` of
result word `a / 4` (lane 0 the least significant byte) is the data byte that
the last data record before the end-of-file record places at absolute address
`a`, and 0 if no data record covers `a`.  The absolute address of a data byte
is upper-address base plus record offset plus position as a 32-bit address;
where `4 * Size < 2 ^ 32` no stored byte has an address that wraps. -/
theorem load_hex_round_trip (Size : Nat) (text : List Char) (mem : Nat → Nat)
    (h : load_hex Size text = some mem) :
    (∀ a, byte_lane (mem (a / 4)) (a % 4) =
      (placed_byte (records (getlines text)) 0 a).getD 0) ∧
    (4 * Size < 2 ^ 32 →
      ∀ (addr : Nat) (bs : List Nat) (m m' : Nat → Nat), addr < 2 ^ 32 →
        store_bytes Size addr 0 bs m = some m' →
        ∀ i, i < bs.length → (addr + i) % 2 ^ 32 = addr + i ∧ addr + i < 4 * Size) := by
  refine ⟨fun a => ?_, fun hS addr bs m m' ha hs i hi => ?_⟩
  · obtain ⟨t, hl, ht, hm⟩ := load_hex_some Size text mem h
    have := load_loop_image Size (getlines text) _ t (by norm_num) rfl hl ht a
    rw [hm] at this
    rw [this]
    simp [byte_lane]
  · have := store_bytes_in_range Size addr hS ha bs m m' hs i hi
    exact ⟨Nat.mod_eq_of_lt (by omega), this⟩

/-- Witness for `load_hex_round_trip`: `image_text` loaded into 1024 words, where
word 0 holds the bytes 0x93, 0x00, 0x50, 0x00 in lanes 0..3; and `wrap_text`
loaded into `2 ^ 30` words, where the record at address 0xFFFFFFFF puts its
second byte at address 0. -/
theorem load_hex_round_trip_witness :
    (∃ mem, load_hex 1024 image_text = some mem ∧
      byte_lane (mem (0 / 4)) (0 % 4) = 0x93 ∧ byte_lane (mem (2 / 4)) (2 % 4) = 0x50 ∧
      byte_lane (mem (4 / 4)) (4 % 4) = 0) ∧
    (∃ mem, load_hex (2 ^ 30) wrap_text = some mem ∧
      byte_lane (mem (0 / 4)) (0 % 4) = 0xBB ∧
      byte_lane (mem (0xFFFFFFFF / 4)) (0xFFFFFFFF % 4) = 0xAA ∧
      byte_lane (mem (1 / 4)) (1 % 4) = 0) := by
  obtain ⟨mem, hm⟩ : ∃ mem, load_hex 1024 image_text = some mem := ⟨_, rfl⟩
  obtain ⟨mem', hm'⟩ : ∃ mem, load_hex (2 ^ 30) wrap_text = some mem :=
    Option.isSome_iff_exists.mp (by rfl)
  have h := (load_hex_round_trip 1024 image_text mem hm).1
  have h' := (load_hex_round_trip (2 ^ 30) wrap_text mem' hm').1
  exact ⟨⟨mem, hm, (h 0).trans rfl, (h 2).trans rfl, (h 4).trans rfl⟩,
    ⟨mem', hm', (h' 0).trans rfl, (h' 0xFFFFFFFF).trans rfl, (h' 1).trans rfl⟩⟩

/-- C25 (program-image rejection): `load_hex<1024>` fails when, with no
end-of-file record among the lines before it, some record line has a byte sum
(checksum included) that is not 0 modulo 256, or is a data record with a byte
whose absolute address (upper-address base plus offset plus position, without
wrap-around) is at least `4 * 1024`; it fails for every text without an
end-of-file record; and a data record it stores has every byte address below
`4 * 1024`, equal to its value modulo `2 ^ 32`. -/
theorem load_hex_rejects (text : List Char) (pre post : List (List Char)) (line : List Char)
    (r : HexRecord) (hl : getlines text = pre ++ line :: post)
    (hpre : ∀ l ∈ pre, ∀ q, read_record (strip_line l) = some q → q.recType ≠ 1)
    (hr : read_record (strip_line line) = some r)
    (hbad : record_byte_sum r % 256 ≠ 0 ∨
      (r.recType = 0 ∧ ∃ i, i < r.data.length ∧
        4 * 1024 ≤ active_base (records pre) 0 + r.addrHiLo + i)) :
    load_hex 1024 text = none ∧
    (∀ text' : List Char,
      (∀ l ∈ getlines text', ∀ q, read_record (strip_line l) = some q → q.recType ≠ 1) →
      load_hex 1024 text' = none) ∧
    (∀ (addr : Nat) (bs : List Nat) (mem mem' : Nat → Nat), addr < 2 ^ 32 →
      store_bytes 1024 addr 0 bs mem = some mem' →
      ∀ i, i < bs.length → (addr + i) % 2 ^ 32 = addr + i ∧ addr + i < 4 * 1024) := by
  refine ⟨?_, fun text' hno => ?_, fun addr bs mem mem' ha hs i hi => ?_⟩
  · unfold load_hex
    rw [hl, load_loop_reject 1024 (by norm_num) pre post line r _ (by norm_num) rfl hpre hr hbad]
  · unfold load_hex
    cases hq : load_loop 1024 (getlines text')
        { mem := fun _ => 0, base := 0, saw_eof := false } with
    | none => rfl
    | some t =>
      have := load_loop_no_eof 1024 (getlines text') _ t rfl hno hq
      simp [this]
  · have := store_bytes_in_range 1024 addr (by norm_num) ha bs mem mem' hs i hi
    exact ⟨Nat.mod_eq_of_lt (by omega), this⟩

/-- Witness for `load_hex_rejects`: in `far_text` the data record follows a
type 04 record with upper address 1, so its byte lies at absolute address
0x10000. -/
theorem load_hex_rejects_witness :
    getlines far_text =
      [":020000040001F9".toList] ++ ":0100000055AA".toList :: [":00000001FF".toList] ∧
    read_record (strip_line ":0100000055AA".toList) =
      some { byteCount := 1, addrHiLo := 0, recType := 0, data := [0x55], checksum := 0xAA } ∧
    active_base (records [":020000040001F9".toList]) 0 = 0x10000 ∧
    load_hex 1024 far_text = none :=
  ⟨rfl, rfl, rfl,
    (load_hex_rejects far_text [":020000040001F9".toList] [":00000001FF".toList]
      ":0100000055AA".toList
      { byteCount := 1, addrHiLo := 0, recType := 0, data := [0x55], checksum := 0xAA } rfl
      (by
        intro l hl q hq
        simp only [List.mem_singleton] at hl
        subst hl
        have e : read_record (strip_line ":020000040001F9".toList) =
            some { byteCount := 2, addrHiLo := 0, recType := 4, data := [0, 1],
                   checksum := 0xF9 } := rfl
        rw [e, Option.some.injEq] at hq
        rw [← hq]
        decide)
      rfl (Or.inr ⟨rfl, 0, by decide, by decide⟩)).1⟩

/-- C26 (code bug): `rv32i_5stage` sets register 2 to `DMemSize - 4 = 2044`, a
word count minus 4 used as a byte address.  `mem_stage` turns it into word
index `2044 / 4 = 511`, not `DMemSize - 1 = 2047`: a store through register 2
overwrites word 511 of the pre-populated array (initial value 513) and leaves
word 2047 alone, and `SW x1,0(x2)` run from the reset state does so in its
fourth cycle. -/
theorem initial_stack_pointer_inside_array (imem : IMem) (d0 : DMem) (r0 : RegFile)
    (hazardManager : DataHazardManager) :
    (reset_core imem d0 r0 hazardManager).regfile 2 = 2044 ∧
    (reset_core imem d0 r0 hazardManager).regfile 2 / 4 = 511 ∧
    DMemSize - 1 = 2047 ∧ 511 < ARR_LEN ∧
    (reset_core imem d0 r0 hazardManager).dmem 511 = 513 ∧
    (∀ v : Nat, ∃ dmem',
      mem_stage (some { addr_or_alu := (reset_core imem d0 r0 hazardManager).regfile 2,
                        mem := MemOperation.WRITE, store_data := v })
          (reset_core imem d0 r0 hazardManager).dmem =
        some (dmem', some { wb_data := 0, rd := none }) ∧
      dmem' 511 = v ∧ dmem' 2047 = d0 2047) ∧
    ((run 3 (reset_core scenario3_imem (fun _ => 0) (fun _ => 7) { scoreboard := 0 })).map
      (fun s => (s.dmem 511, s.dmem 2047))) = some (513, 0) ∧
    ((run 4 (reset_core scenario3_imem (fun _ => 0) (fun _ => 7) { scoreboard := 0 })).map
      (fun s => (s.dmem 511, s.dmem 2047))) = some (7, 0) := by
  have h2 : (reset_core imem d0 r0 hazardManager).regfile 2 = 2044 := by
    simp [reset_core, rv32i_5stage, initial_regfile, DMemSize]
  refine ⟨h2, by simp [h2], rfl, by decide, ?_, fun v => ?_, rfl, rfl⟩
  · simp [reset_core, rv32i_5stage, initial_dmem, ARR_LEN]
  · rw [h2]
    refine ⟨Function.update (reset_core imem d0 r0 hazardManager).dmem 511 v, ?_, ?_, ?_⟩
    · have e : (2044 : Nat) >>> 2 = 511 := rfl
      have hl : (511 : Nat) < DMemSize := by decide
      simp only [mem_stage, e, hl, if_true, reduceCtorEq, if_false]
    · simp
    · simp [reset_core, rv32i_5stage, initial_dmem, ARR_LEN]

/-- C27 (no fetched instruction is lost or duplicated by a stall): in every
state reached from the reset state, an occupied saved-payload slot comes with a
bubble in the fetch-to-decode register, so the payload `decode_stage` selects
is the only one present; and when `execute_stage` asserts a redirect (indeed
whenever a branch or jump kind is in execute) the fetch-to-decode register and
the saved slot are both empty and decode issues nothing in that cycle. -/
theorem stall_keeps_fetched_instructions (imem : IMem) (dmem : DMem) (regfile : RegFile)
    (hazardManager : DataHazardManager) (n : Nat) (s : Core)
    (h : run n (rv32i_5stage imem dmem regfile hazardManager) = some s) :
    (s.saved_if_id ≠ none → s.if_id_reg = none) ∧
    (s.if_id_reg = none ∨ s.saved_if_id = none) ∧
    (∀ f, s.if_id_reg = some f → select_instr s.if_id_reg s.saved_if_id = some f) ∧
    (∀ t, (execute_stage s.id_ex_reg).2 = some t →
      s.if_id_reg = none ∧ s.saved_if_id = none ∧ (decode_of s).decode_to_exec = none) ∧
    (∀ d, s.id_ex_reg = some d → d.br ≠ BranchKind.NONE →
      s.if_id_reg = none ∧ s.saved_if_id = none ∧ (decode_of s).decode_to_exec = none) := by
  obtain ⟨h1, h2⟩ := run_fetch_side imem dmem regfile hazardManager n s h
  have h3 : ∀ d, s.id_ex_reg = some d → d.br ≠ BranchKind.NONE →
      s.if_id_reg = none ∧ s.saved_if_id = none ∧ (decode_of s).decode_to_exec = none := by
    intro d hd hb
    obtain ⟨a, b⟩ := h2 d hd hb
    refine ⟨a, b, ?_⟩
    simp [decode_of, decode_stage, select_instr, a, b]
  refine ⟨h1, ?_, ?_, ?_, h3⟩
  · by_cases hs : s.saved_if_id = none
    · exact Or.inr hs
    · exact Or.inl (h1 hs)
  · intro f hf
    have hs : s.saved_if_id = none := by
      by_contra hs
      rw [h1 hs] at hf
      exact absurd hf (by simp)
    simp [select_instr, hs, hf]
  · intro t ht
    cases hd : s.id_ex_reg with
    | none => rw [hd] at ht; simp [execute_stage] at ht
    | some d =>
      rw [hd] at ht
      exact h3 d hd (execute_stage_redirect_kind d t ht)

/-- Witness for `stall_keeps_fetched_instructions`: scenario 2 after two
cycles, the taken `BEQ` in execute; and scenario 1 after four cycles, when
`ADD x3,x1,x2` waits in the saved slot. -/
theorem stall_keeps_fetched_instructions_witness :
    (∃ s, run 2 (rv32i_5stage scenario2_imem (fun _ => 0) (fun _ => 0) { scoreboard := 0 }) =
        some s ∧
      (execute_stage s.id_ex_reg).2 = some 8 ∧
      s.if_id_reg = none ∧ s.saved_if_id = none ∧ (decode_of s).decode_to_exec = none) ∧
    (∃ s, run 4 (rv32i_5stage scenario1_imem (fun _ => 0) (fun _ => 0) { scoreboard := 0 }) =
        some s ∧
      s.saved_if_id = some { instr := 0x002081B3, pc := 8 } ∧ s.if_id_reg = none) := by
  obtain ⟨_, e2, _⟩ := scenario2_states scenario2_imem (fun _ => 0) (fun _ => 0) rfl rfl
  have h := stall_keeps_fetched_instructions scenario2_imem (fun _ => 0) (fun _ => 0)
    { scoreboard := 0 } 2 _ e2
  obtain ⟨s, hs⟩ : ∃ s, run 4 (rv32i_5stage scenario1_imem (fun _ => 0) (fun _ => 0)
      { scoreboard := 0 }) = some s := ⟨_, rfl⟩
  have hsv : (run 4 (rv32i_5stage scenario1_imem (fun _ => 0) (fun _ => 0)
      { scoreboard := 0 })).map (fun s => s.saved_if_id) =
      some (some { instr := 0x002081B3, pc := 8 }) := rfl
  rw [hs, Option.map_some', Option.some.injEq] at hsv
  have h1 := stall_keeps_fetched_instructions scenario1_imem (fun _ => 0) (fun _ => 0)
    { scoreboard := 0 } 4 s hs
  exact ⟨⟨_, e2, rfl, h.2.2.2.1 8 rfl⟩, ⟨s, hs, hsv, h1.1 (by rw [hsv]; simp)⟩⟩

/-- C28 (register indices stay in range): for every instruction word the two
source indices are below 32; every destination index `decode_stage` places in
a payload is in 1..31 and is the index it locks; `execute_stage` and
`mem_stage` forward the destination unchanged; and in every state reached from
the reset state the index `wb_stage` writes, the index the release step uses
and the index decode locks in the next cycle are in 1..31. -/
theorem register_indices_in_range (imem : IMem) (dmem : DMem) (regfile : RegFile)
    (hazardManager : DataHazardManager) (n : Nat) (s : Core)
    (h : run n (rv32i_5stage imem dmem regfile hazardManager) = some s) :
    (∀ instr : Nat, (instr >>> 15) &&& 0x1f < 32 ∧ (instr >>> 20) &&& 0x1f < 32) ∧
    (∀ (fetch_to_decode_in saved_fetch_to_decode : Option FetchToDecode)
      (hm : DataHazardManager) (wb_finished : Option Nat) (rf : RegFile) (d : DecodeToExec),
      (decode_stage fetch_to_decode_in saved_fetch_to_decode hm wb_finished
        rf).decode_to_exec = some d →
      (∀ r, d.rd = some r → 1 ≤ r ∧ r < 32) ∧
      (decode_stage fetch_to_decode_in saved_fetch_to_decode hm wb_finished rf).hazardManager =
        (match d.rd with
          | some r => (release_step hm wb_finished).lock_reg r
          | none => release_step hm wb_finished)) ∧
    (∀ d : DecodeToExec, ∃ e, (execute_stage (some d)).1 = some e ∧ e.rd = d.rd) ∧
    (∀ (e : ExecToMem) (dm dm' : DMem) (m : Option MemToWb),
      mem_stage (some e) dm = some (dm', m) → ∃ w, m = some w ∧ w.rd = e.rd) ∧
    (∀ m r, s.mem_wb_reg = some m → m.rd = some r → 1 ≤ r ∧ r < 32) ∧
    (∀ r, (wb_stage s.mem_wb_reg s.regfile).2 = some r → 1 ≤ r ∧ r < 32) ∧
    (∀ r, s.wb_finished = some r → 1 ≤ r ∧ r < 32) ∧
    (∀ d r, (decode_of s).decode_to_exec = some d → d.rd = some r → 1 ≤ r ∧ r < 32) ∧
    (∀ e r, s.ex_mem_reg = some e → e.rd = some r → 1 ≤ r ∧ r < 32) := by
  obtain ⟨i1, i2, i3, i4⟩ := run_indices imem dmem regfile hazardManager n s h
  refine ⟨fun instr => ?_, fun fin saved hm wbf rf d hd => ?_, execute_stage_rd, mem_stage_rd,
    fun m r hm hr => i3 m hm r hr, fun r hr => ?_, fun r hr => i4 r hr,
    fun d r hd hr => ?_, fun e r he hr => i2 e he r hr⟩
  · rw [and_31, and_31]
    exact ⟨Nat.mod_lt _ (by norm_num), Nat.mod_lt _ (by norm_num)⟩
  · exact decode_stage_rd_in_range fin saved hm wbf rf d hd
  · obtain ⟨w, hw, hrd⟩ := wb_stage_completion _ _ r hr
    exact i3 w hw r hrd
  · exact (decode_stage_rd_in_range _ _ _ _ _ d hd).1 r hr

/-- Witness for `register_indices_in_range`: scenario 1 after four cycles, when
`ADDI x1,x0,5` is in the memory-to-writeback register and `wb_stage` writes
register 1. -/
theorem register_indices_in_range_witness :
    ∃ s, run 4 (rv32i_5stage scenario1_imem (fun _ => 0) (fun _ => 0) { scoreboard := 0 }) =
        some s ∧
      (wb_stage s.mem_wb_reg s.regfile).2 = some 1 ∧
      (∀ r, (wb_stage s.mem_wb_reg s.regfile).2 = some r → 1 ≤ r ∧ r < 32) := by
  obtain ⟨s, hs⟩ : ∃ s, run 4 (rv32i_5stage scenario1_imem (fun _ => 0) (fun _ => 0)
      { scoreboard := 0 }) = some s := ⟨_, rfl⟩
  have hw : (run 4 (rv32i_5stage scenario1_imem (fun _ => 0) (fun _ => 0)
      { scoreboard := 0 })).map (fun s => (wb_stage s.mem_wb_reg s.regfile).2) =
      some (some 1) := rfl
  rw [hs, Option.map_some', Option.some.injEq] at hw
  exact ⟨s, hs, hw,
    (register_indices_in_range scenario1_imem (fun _ => 0) (fun _ => 0) { scoreboard := 0 } 4 s
      hs).2.2.2.2.2.1⟩

end Paladin
